import Mathlib

/-!
# ZenithPlanner: reconciliation and sync engine

A shallow embedding of the Go sources under `internal/sync`, `internal/calendar`
and `internal/database`, followed by theorems about it.

Conventions of the embedding:
* a `time.Time` instant is an `Int` (a count of time units since an epoch; only
  the order of instants is used by the code);
* a calendar day (`date` column, a `time.Time` only used through
  `Format("2006-01-02")`, `AddDate(0, 0, n)` and `normalizeDate`) is an `Int`
  day number counted from 1970-01-01;
* a nullable `*string` is an `Option String`;
* database tables are lists of rows or finite maps; every storage or API call
  that can fail takes its failure from an explicit `Faults` record.
-/

namespace ZenithPlanner

/-! ## Data model (internal/database) -/

/-- Row of the `calendar_event_cache` table (`database.CachedEvent`). -/
structure CachedEvent where
  EventID : String
  Date : Int
  Title : Option String
  Description : Option String
  UpdatedTs : Int
  IsManagedProperty : Bool
  IsManagedDescription : Bool
  ColorID : Option String
  RecurringEventID : Option String
  OriginalStartTime : Option Int
deriving DecidableEq, Repr

/-- The test `event.IsManagedProperty || event.IsManagedDescription` of
`identifyAuthoritativeCachedEvent`. -/
def isManaged (event : CachedEvent) : Bool :=
  event.IsManagedProperty || event.IsManagedDescription

/-! ## Authoritative selection (internal/sync/reconciliation.go) -/

/-- The closure passed to `sort.Slice`: element `a` goes before element `b`
when `b.UpdatedTs.Before(a.UpdatedTs)`. -/
def updatedLess (a b : CachedEvent) : Bool :=
  decide (b.UpdatedTs < a.UpdatedTs)

/-- The type of `sort.Slice` (Go standard library) at cached events: the slice
and the comparison go in, the reordered slice comes out. -/
abbrev SortSlice := List CachedEvent → (CachedEvent → CachedEvent → Bool) → List CachedEvent

/-- What the Go documentation promises of `sort.Slice` for the comparison
used here: the result is a rearrangement of the input in which no element is
`less` than an element placed before it. Stability is not promised. -/
def SortSliceContract (sortSlice : SortSlice) : Prop :=
  ∀ l : List CachedEvent,
    (sortSlice l updatedLess).Perm l ∧
    (sortSlice l updatedLess).Pairwise (fun a b => updatedLess b a = false)

/-- A concrete `sort.Slice`: stable insertion sort, which is what Go runs on
slices of at most 12 elements. -/
def insertionSortSlice : SortSlice :=
  fun l less => l.insertionSort (fun a b => less b a = false)

/-- Function `identifyAuthoritativeCachedEvent`: the authoritative cached event
(the most recent managed one) and the ids of the duplicates to delete. -/
def identifyAuthoritativeCachedEvent (sortSlice : SortSlice)
    (cachedEvents : List CachedEvent) : Option CachedEvent × List String :=
  let managedEvents := cachedEvents.filter isManaged
  if managedEvents.length > 0 then
    let sorted := sortSlice managedEvents updatedLess
    (sorted.head?, (sorted.drop 1).map (fun e => e.EventID))
  else
    (none, [])

/-! ## Go regular expressions (the fragment used by internal/calendar) -/

/-- Syntax of the RE2 fragment the four location patterns are written in. -/
inductive Regex where
  /-- Anchor `^` without the multi-line flag: the beginning of the text. -/
  | beginText : Regex
  /-- Anchor `$` without the multi-line flag: the end of the text. -/
  | endText : Regex
  /-- One character satisfying a test: a literal, `\d`, `[A-Z]` or `.` -/
  | cls (p : Char → Bool) : Regex
  /-- Zero or more characters satisfying a test: `x*` -/
  | star (p : Char → Bool) : Regex
  /-- Concatenation. -/
  | cat (a b : Regex) : Regex

namespace Regex

/-- A literal character. -/
def lit (c : Char) : Regex := cls (fun x => x == c)

/-- Class `.` without the `s` flag: any character but the line feed. -/
def isDot (c : Char) : Bool := c != '\n'

/-- Repetition `x+`, which is `xx*`. -/
def plus (p : Char → Bool) : Regex := cat (cls p) (star p)

/-- Repetition `x{n}`: `n` copies of `x`, followed by `rest`. -/
def repThen (p : Char → Bool) : Nat → Regex → Regex
  | 0, rest => rest
  | n + 1, rest => cat (cls p) (repThen p n rest)

/-- Matching `x*` at the head of `s`, then continuing with `k`; `atStart` says
whether no character of the text has been consumed yet. -/
def starRun (p : Char → Bool) (k : Bool → List Char → Bool) : Bool → List Char → Bool
  | atStart, [] => k atStart []
  | atStart, c :: cs => k atStart (c :: cs) || (p c && starRun p k false cs)

/-- Backtracking matcher: `run re atStart s k` holds when `re` matches a prefix
of `s` after which the continuation `k` accepts the rest. -/
def run : Regex → Bool → List Char → (Bool → List Char → Bool) → Bool
  | beginText, atStart, s, k => atStart && k atStart s
  | endText, atStart, s, k => s.isEmpty && k atStart s
  | cls _, _, [], _ => false
  | cls p, _, c :: cs, k => p c && k false cs
  | star p, atStart, s, k => starRun p k atStart s
  | cat a b, atStart, s, k => run a atStart s (fun atStart' s' => run b atStart' s' k)

/-- Leftmost search: a match may begin at any position of the text. -/
def search (re : Regex) : Bool → List Char → Bool
  | atStart, [] => run re atStart [] (fun _ _ => true)
  | atStart, c :: cs => run re atStart (c :: cs) (fun _ _ => true) || search re false cs

/-- Method `(*Regexp).MatchString`: whether the text contains any match. -/
def MatchString (re : Regex) (s : String) : Bool := search re true s.data

end Regex

/-- Pattern `^HOM$`. -/
def homeRegex : Regex :=
  .cat .beginText (.cat (.lit 'H') (.cat (.lit 'O') (.cat (.lit 'M') .endText)))

/-- Pattern `^P\d{2}[A-Z]+\d{3}$`; `\d` is an ASCII digit (`Char.isDigit`),
`[A-Z]` an ASCII capital (`Char.isUpper`). -/
def officeRegex : Regex :=
  .cat .beginText (.cat (.lit 'P') (.repThen Char.isDigit 2
    (.cat (.plus Char.isUpper) (.repThen Char.isDigit 3 .endText))))

/-- Pattern `^LIB.*`. -/
def libraryRegex : Regex :=
  .cat .beginText (.cat (.lit 'L') (.cat (.lit 'I') (.cat (.lit 'B') (.star Regex.isDot))))

/-- Pattern `^V$`. -/
def vacationRegex : Regex := .cat .beginText (.cat (.lit 'V') .endText)

/-- Type `LocationStatus`: in Go a string type with five named constants. -/
abbrev LocationStatus := String

def StatusHome : LocationStatus := "Home"
def StatusOffice : LocationStatus := "Office"
def StatusLibrary : LocationStatus := "Library"
def StatusVacation : LocationStatus := "Vacation"
def StatusUnknown : LocationStatus := "Unknown"

/-- Function `DetermineStatus`: the status a location code stands for. -/
def DetermineStatus (locationCode : String) : LocationStatus :=
  if homeRegex.MatchString locationCode then StatusHome
  else if vacationRegex.MatchString locationCode then StatusVacation
  else if officeRegex.MatchString locationCode then StatusOffice
  else if libraryRegex.MatchString locationCode then StatusLibrary
  else StatusUnknown

/-- The shape "letter P, two decimal digits, one or more upper-case ASCII
letters, three decimal digits". -/
def IsOfficeCode (s : String) : Prop :=
  ∃ (d₁ d₂ : Char) (letters : List Char) (d₃ d₄ d₅ : Char),
    d₁.isDigit = true ∧ d₂.isDigit = true ∧ letters ≠ [] ∧
    (∀ c ∈ letters, c.isUpper = true) ∧
    d₃.isDigit = true ∧ d₄.isDigit = true ∧ d₅.isDigit = true ∧
    s.data = 'P' :: d₁ :: d₂ :: (letters ++ [d₃, d₄, d₅])

/-! ## Go library functions on strings and dates -/

/-- Whether `sub` occurs in `s` as a block of consecutive characters. -/
def containsChars : List Char → List Char → Bool
  | [], sub => sub.isEmpty
  | c :: cs, sub => sub.isPrefixOf (c :: cs) || containsChars cs sub

/-- Function `strings.Contains`. -/
def stringsContains (s substr : String) : Bool := containsChars s.data substr.data

/-- Left-to-right replacement of the non-overlapping occurrences of `old`;
`skip` counts the characters of the current occurrence still to be dropped. -/
def replaceAllChars (old new : List Char) : Nat → List Char → List Char
  | _, [] => []
  | skip + 1, _ :: cs => replaceAllChars old new skip cs
  | 0, c :: cs =>
    if old.isPrefixOf (c :: cs) then new ++ replaceAllChars old new (old.length - 1) cs
    else c :: replaceAllChars old new 0 cs

/-- Function `strings.ReplaceAll`, for a non-empty `old` (both call sites pass
a constant non-empty string). -/
def stringsReplaceAll (s old new : String) : String :=
  ⟨replaceAllChars old.data new.data 0 s.data⟩

/-- Function `unicode.IsSpace`. -/
def unicodeIsSpace (c : Char) : Bool :=
  let n := c.toNat
  (9 ≤ n && n ≤ 13) || n == 0x20 || n == 0x85 || n == 0xA0 || n == 0x1680 ||
    (0x2000 ≤ n && n ≤ 0x200A) || n == 0x2028 || n == 0x2029 || n == 0x202F ||
    n == 0x205F || n == 0x3000

/-- Function `strings.TrimSpace`. -/
def stringsTrimSpace (s : String) : String :=
  ⟨((s.data.dropWhile unicodeIsSpace).reverse.dropWhile unicodeIsSpace).reverse⟩

/-- Year, month and day of a day number (days since 1970-01-01, proleptic
Gregorian calendar). -/
def civilFromDays (day : Int) : Int × Int × Int :=
  let z := day + 719468
  let era := z / 146097
  let doe := z - era * 146097
  let yoe := (doe - doe / 1460 + doe / 36524 - doe / 146096) / 365
  let doy := doe - (365 * yoe + yoe / 4 - yoe / 100)
  let mp := (5 * doy + 2) / 153
  let d := doy - (153 * mp + 2) / 5 + 1
  let m := if mp < 10 then mp + 3 else mp - 9
  let y := yoe + era * 400 + (if m ≤ 2 then 1 else 0)
  (y, m, d)

/-- Day number of a year, month and day. -/
def daysFromCivil (year month d : Int) : Int :=
  let y := if month ≤ 2 then year - 1 else year
  let era := y / 400
  let yoe := y - era * 400
  let mp := if month > 2 then month - 3 else month + 9
  let doy := (153 * mp + 2) / 5 + d - 1
  let doe := yoe * 365 + yoe / 4 - yoe / 100 + doy
  era * 146097 + doe - 719468

/-- Number of days of a month. -/
def daysIn (month year : Int) : Int :=
  if month = 2 then
    (if year % 4 = 0 ∧ (year % 100 ≠ 0 ∨ year % 400 = 0) then 29 else 28)
  else if month = 4 ∨ month = 6 ∨ month = 9 ∨ month = 11 then 30
  else 31

/-- Decimal digits of a natural number, zero-padded on the left to `width`. -/
def padZero (width n : Nat) : String :=
  let digits := (Nat.toDigits 10 n)
  ⟨List.replicate (width - digits.length) '0' ++ digits⟩

/-- Method `Format("2006-01-02")` of a day: year in at least four digits (with
a minus sign before a negative year), month and day in two. -/
def formatDate (day : Int) : String :=
  let (y, m, d) := civilFromDays day
  (if y < 0 then "-" else "") ++ padZero 4 y.natAbs ++ "-" ++ padZero 2 m.toNat ++ "-" ++
    padZero 2 d.toNat

/-- Value of a decimal digit. -/
def digitValue (c : Char) : Int := (c.toNat : Int) - 48

/-- Function `time.Parse("2006-01-02", s)`: exactly four digits, a hyphen, two
digits, a hyphen, two digits, naming an existing day; anything else is an error. -/
def parseDate (s : String) : Option Int :=
  match s.data with
  | [y₁, y₂, y₃, y₄, '-', m₁, m₂, '-', d₁, d₂] =>
    if [y₁, y₂, y₃, y₄, m₁, m₂, d₁, d₂].all Char.isDigit then
      let year := 1000 * digitValue y₁ + 100 * digitValue y₂ + 10 * digitValue y₃ + digitValue y₄
      let month := 10 * digitValue m₁ + digitValue m₂
      let d := 10 * digitValue d₁ + digitValue d₂
      if 1 ≤ month ∧ month ≤ 12 ∧ 1 ≤ d ∧ d ≤ daysIn month year then
        some (daysFromCivil year month d)
      else none
    else none
  | _ => none

/-! ## Calendar events (google.golang.org/api/calendar/v3, internal/calendar) -/

/-- Type `gcal.EventDateTime`: `Date` is set on full-day events, `DateTime` on
timed ones. -/
structure EventDateTime where
  Date : String
  DateTime : String
deriving DecidableEq, Repr

/-- Type `gcal.EventExtendedProperties`; the map `Private` may be nil. -/
structure EventExtendedProperties where
  Private : Option (List (String × String))
deriving DecidableEq, Repr

/-- Type `gcal.Event`, restricted to the fields this program reads or writes.
Pointer fields are options, a Go map is a key-value list. -/
structure Event where
  Id : String
  Status : String
  Summary : String
  Description : String
  ColorId : String
  Updated : String
  RecurringEventId : String
  Start : Option EventDateTime
  End : Option EventDateTime
  OriginalStartTime : Option EventDateTime
  ExtendedProperties : Option EventExtendedProperties
  ForceSendFields : List String
deriving DecidableEq, Repr

/-- The zero value `gcal.Event{}`. -/
def zeroEvent : Event :=
  { Id := "", Status := "", Summary := "", Description := "", ColorId := "", Updated := "",
    RecurringEventId := "", Start := none, End := none, OriginalStartTime := none,
    ExtendedProperties := none, ForceSendFields := [] }

/-- Assignment `m[k] = v` on a Go map. -/
def mapSet (m : List (String × String)) (k v : String) : List (String × String) :=
  if (m.lookup k).isSome then m.map (fun kv => if kv.1 == k then (k, v) else kv)
  else m ++ [(k, v)]

def ManagedPropertyKey : String := "zenithplanner_managed"

def descriptionTag : String := "Add-To-ZenithPlanner: true"

/-- Function `HasManagedProperty`. -/
def HasManagedProperty (event : Event) : Bool :=
  match event.ExtendedProperties with
  | none => false
  | some ep =>
    match ep.Private with
    | none => false
    | some m =>
      match m.lookup ManagedPropertyKey with
      | some val => val == "true"
      | none => false

/-- Function `HasDescriptionTag`. -/
def HasDescriptionTag (event : Event) : Bool :=
  stringsContains event.Description descriptionTag

/-- Function `AddManagedProperty`: a patch adding the private property, or
nothing when the event already has it. -/
def AddManagedProperty (event : Event) : Option Event :=
  if HasManagedProperty event then none
  else
    let fresh : List (String × String) := [(ManagedPropertyKey, "true")]
    let others : List (String × String) :=
      match event.ExtendedProperties with
      | some ep => (ep.Private.getD [])
      | none => []
    let merged := others.foldl
      (fun acc kv => if (acc.lookup kv.1).isSome then acc else acc ++ [kv]) fresh
    some { zeroEvent with ExtendedProperties := some { Private := some merged } }

/-- Function `RemoveDescriptionTag`: a patch with the tag removed from the
description, or nothing when the description does not contain the tag. -/
def RemoveDescriptionTag (event : Event) : Option Event :=
  if !HasDescriptionTag event then none
  else
    let newDesc := stringsReplaceAll event.Description (descriptionTag ++ "\n") ""
    let newDesc := stringsReplaceAll newDesc descriptionTag ""
    some { zeroEvent with
      Description := stringsTrimSpace newDesc
      ForceSendFields := ["Description"] }

/-- Function `SetColor`: a patch setting the color, or nothing when the color
is already the target. -/
def SetColor (event : Event) (targetColorId : String) : Option Event :=
  if event.ColorId == targetColorId then none
  else some { zeroEvent with ColorId := targetColorId, ForceSendFields := ["ColorId"] }

/-- Type `ManagedEventInfo`. -/
structure ManagedEventInfo where
  EventID : String
  Date : Int
  LocationCode : String
  Status : LocationStatus
  Description : String
  UpdatedTs : Int
  IsManagedProperty : Bool
  IsManagedDescTag : Bool
  ColorID : String
  RecurringEventID : Option String
  OriginalStartTime : Option Int
  NeedsProperty : Bool
  NeedsDescUpdate : Bool
  NeedsColorUpdate : Bool
deriving DecidableEq, Repr

/-- Lookup `colorMap[status]` in a Go map: the empty string for a missing key. -/
def colorOf (colorMap : List (LocationStatus × String)) (status : LocationStatus) : String :=
  (colorMap.lookup status).getD ""

/-- Function `ParseEvent`. The outer `none` is a run-time panic (a nil pointer
dereference); otherwise the info record, if any, and the managed flag.
`parseRFC3339` stands for `time.Parse(time.RFC3339, ·)` of the Go library. -/
def ParseEvent (parseRFC3339 : String → Option Int) (event : Option Event)
    (colorMap : List (LocationStatus × String)) : Option (Option ManagedEventInfo × Bool) :=
  match event with
  | none => none
  | some event =>
    let isManagedProp := HasManagedProperty event
    let isManagedDesc := HasDescriptionTag event
    if !isManagedProp && !isManagedDesc then some (none, false)
    else
      match event.Start with
      | none => some (none, false)
      | some start =>
        if start.Date == "" then some (none, false)
        else
          match parseDate start.Date with
          | none => some (none, false)
          | some date =>
            match event.End with
            | none => none
            | some ending =>
              match parseDate ending.Date with
              | none => some (none, false)
              | some endDate =>
                if date + 1 != endDate then some (none, false)
                else
                  match parseRFC3339 event.Updated with
                  | none => some (none, false)
                  | some updatedTs =>
                    let locationCode := stringsTrimSpace event.Summary
                    let status := DetermineStatus locationCode
                    let expectedColor := colorOf colorMap status
                    some (some
                      { EventID := event.Id
                        Date := date
                        LocationCode := locationCode
                        Status := status
                        Description := event.Description
                        UpdatedTs := updatedTs
                        IsManagedProperty := isManagedProp
                        IsManagedDescTag := isManagedDesc
                        ColorID := event.ColorId
                        RecurringEventID :=
                          if event.RecurringEventId == "" then none
                          else some event.RecurringEventId
                        OriginalStartTime :=
                          match event.OriginalStartTime with
                          | none => none
                          | some ost => parseRFC3339 ost.DateTime
                        NeedsProperty := !isManagedProp
                        NeedsDescUpdate := isManagedDesc
                        NeedsColorUpdate :=
                          event.ColorId != expectedColor && expectedColor != "" }, true)

/-- Function `contains` of reconciliation.go. -/
def contains (slice : List String) (item : String) : Bool :=
  slice.any (fun s => s == item)

/-- Function `appendIfMissing`. -/
def appendIfMissing (slice : List String) (item : String) : List String :=
  if !contains slice item then slice ++ [item] else slice

/-- Function `mergeEventPatches`: the fields set by `patch2` written over
`patch1`. -/
def mergeEventPatches (patch1 patch2 : Option Event) : Option Event :=
  match patch1, patch2 with
  | none, _ => patch2
  | some p1, none => some p1
  | some p1, some p2 =>
    let colorNeedsUpdate := p2.ColorId != "" || contains p2.ForceSendFields "ColorId"
    let p1 :=
      if colorNeedsUpdate then
        { p1 with ColorId := p2.ColorId
                  ForceSendFields := appendIfMissing p1.ForceSendFields "ColorId" }
      else p1
    let descNeedsUpdate := p2.Description != "" || contains p2.ForceSendFields "Description"
    let p1 :=
      if descNeedsUpdate then
        { p1 with Description := p2.Description
                  ForceSendFields := appendIfMissing p1.ForceSendFields "Description" }
      else p1
    let p1 :=
      match p2.ExtendedProperties with
      | none => p1
      | some ep2 =>
        match ep2.Private with
        | none => p1
        | some m2 =>
          let m1 : List (String × String) :=
            match p1.ExtendedProperties with
            | none => []
            | some ep1 => ep1.Private.getD []
          { p1 with
            ExtendedProperties :=
              some { Private := some (m2.foldl (fun acc kv => mapSet acc kv.1 kv.2) m1) }
            ForceSendFields := appendIfMissing p1.ForceSendFields "ExtendedProperties" }
    some p1

/-- Function `derefString`. -/
def derefString (s : Option String) : String := s.getD ""

/-! ## Storage (internal/database) -/

/-- Row of the `schedule_entries` table (`database.ScheduleEntry`). -/
structure ScheduleEntry where
  Date : Int
  LocationCode : String
  Status : String
deriving DecidableEq, Repr

/-- The database: the event mirror (unique `event_id`), the schedule (unique
`date`) and the key-value table `sync_state`. -/
structure Db where
  cache : List CachedEvent
  schedule : List ScheduleEntry
  syncState : List (String × String)
deriving DecidableEq, Repr

/-- Answer of `Events.Delete(...).Do()`: success, a `*googleapi.Error` with an
HTTP status code, or another error. -/
inductive DeleteOutcome where
  | ok : DeleteOutcome
  | apiError (code : Nat) : DeleteOutcome
  | otherError : DeleteOutcome
deriving DecidableEq, Repr

/-- Which storage and API calls fail during a run (`true`: the call returns an
error and has no effect). -/
structure Faults where
  GetCachedEventsByDate : Int → Bool
  GetCachedEventByID : String → Bool
  GetScheduleEntry : Int → Bool
  UpsertScheduleEntry : ScheduleEntry → Bool
  UpsertCachedEvent : CachedEvent → Bool
  DeleteCachedEvent : String → Bool
  ClearCachedEvents : Bool
  GetSyncState : String → Bool
  SetSyncState : String → String → Bool
  EventsDelete : String → DeleteOutcome
  EventsPatch : String → Event → Bool
  EventsInsert : Event → Bool
  SendConfirmation : Bool

/-- A run in which every call succeeds. -/
def noFaults : Faults :=
  { GetCachedEventsByDate := fun _ => false
    GetCachedEventByID := fun _ => false
    GetScheduleEntry := fun _ => false
    UpsertScheduleEntry := fun _ => false
    UpsertCachedEvent := fun _ => false
    DeleteCachedEvent := fun _ => false
    ClearCachedEvents := false
    GetSyncState := fun _ => false
    SetSyncState := fun _ _ => false
    EventsDelete := fun _ => DeleteOutcome.ok
    EventsPatch := fun _ _ => false
    EventsInsert := fun _ => false
    SendConfirmation := false }

/-- A write request issued by the program, to the database, to the calendar or
to the mail server. A request is recorded when it is issued, whether it fails
or not. -/
inductive Op where
  | upsertScheduleEntry (entry : ScheduleEntry) : Op
  | upsertCachedEvent (event : CachedEvent) : Op
  | deleteCachedEvent (eventID : String) : Op
  | clearCachedEvents : Op
  | setSyncState (key value : String) : Op
  | calendarDelete (eventId : String) : Op
  | calendarPatch (eventId : String) (patch : Event) : Op
  | calendarInsert (event : Event) : Op
  | sendConfirmation (changes : List (String × String)) : Op
  | eventsWatch : Op
  | channelsStop (channelID resourceID : String) : Op
deriving DecidableEq, Repr

/-- The error a function returns, named after the call that failed. -/
inductive Err where
  | queryCache : Err
  | fetchScheduleEntry : Err
  | updateScheduleEntry : Err
  | patchEvent : Err
  | createDefaultEvent : Err
  | fetchChanges : Err
  | persistSyncToken : Err
  | updateCache : Err
  | nilDereference : Err
  | clearCache : Err
  | createChannel : Err
  | storeChannelInfo : Err
deriving DecidableEq, Repr

/-- Method `GetCachedEventsByDate`: the rows of the day, `ORDER BY updated_ts
DESC` (rows with equal timestamps in table order). -/
def GetCachedEventsByDate (db : Db) (date : Int) : List CachedEvent :=
  insertionSortSlice (db.cache.filter (fun e => e.Date == date)) updatedLess

/-- Method `GetCachedEventByID`. -/
def GetCachedEventByID (db : Db) (eventID : String) : Option CachedEvent :=
  db.cache.find? (fun e => e.EventID == eventID)

/-- Method `UpsertCachedEvent` (`ON CONFLICT (event_id) DO UPDATE`). -/
def UpsertCachedEvent (db : Db) (event : CachedEvent) : Db :=
  { db with cache := event :: db.cache.filter (fun e => e.EventID != event.EventID) }

/-- Method `DeleteCachedEvent`. -/
def DeleteCachedEvent (db : Db) (eventID : String) : Db :=
  { db with cache := db.cache.filter (fun e => e.EventID != eventID) }

/-- Method `ClearCachedEvents`. -/
def ClearCachedEvents (db : Db) : Db := { db with cache := [] }

/-- Method `GetScheduleEntry`. -/
def GetScheduleEntry (db : Db) (date : Int) : Option ScheduleEntry :=
  db.schedule.find? (fun e => e.Date == date)

/-- Method `UpsertScheduleEntry` (`ON CONFLICT (date) DO UPDATE`). -/
def UpsertScheduleEntry (db : Db) (entry : ScheduleEntry) : Db :=
  { db with schedule := entry :: db.schedule.filter (fun e => e.Date != entry.Date) }

/-- Method `GetSyncState`: the value, or nothing when the key has no row. -/
def GetSyncState (db : Db) (key : String) : Option String := db.syncState.lookup key

/-- Method `SetSyncState`. -/
def SetSyncState (db : Db) (key value : String) : Db :=
  { db with syncState := mapSet db.syncState key value }

/-! ## Reconciliation (internal/sync/reconciliation.go) -/

/-- The part of `config.AppConfig` the engine reads. -/
structure AppConfig where
  DefaultLocationCode : String
  FutureHorizonDays : Int
  PastSyncWindowDays : Int
  EnableEmailConfirmations : Bool
deriving DecidableEq, Repr

/-- Type `Syncer`: configuration and color map; `sortSlice` is the `sort.Slice`
of the Go library the binary is linked with. -/
structure Syncer where
  cfg : AppConfig
  colorMap : List (LocationStatus × String)
  sortSlice : SortSlice

/-- Function `NewSyncer`. -/
def NewSyncer (sortSlice : SortSlice) (cfg : AppConfig) : Syncer :=
  { cfg := cfg
    colorMap :=
      [(StatusHome, "3"), (StatusVacation, "10"), (StatusOffice, "5"), (StatusLibrary, "2"),
       (StatusUnknown, "8")]
    sortSlice := sortSlice }

/-- Method `deleteEventsFromCalendar`: one delete request per id; the answers
are only logged. -/
def deleteEventsFromCalendar (_f : Faults) (eventIDs : List String) : List Op :=
  eventIDs.map Op.calendarDelete

/-- Method `cleanUpDuplicates`. -/
def cleanUpDuplicates (s : Syncer) (f : Faults) (cachedEvents : List CachedEvent) :
    Option CachedEvent × List Op :=
  let r := identifyAuthoritativeCachedEvent s.sortSlice cachedEvents
  (r.1, deleteEventsFromCalendar f r.2)

/-- Lines 191 to 220 of `coreReconciliationLogic`: the patch to send for the
authoritative event, if any (`patchNeeded && patchEvent != nil`). -/
def metadataPatch (s : Syncer) (authoritativeCacheData : CachedEvent)
    (needsProperty needsDescriptionUpdate needsColorUpdate : Bool) (targetStatus : String) :
    Option Event :=
  let eventToPatch : Event :=
    { zeroEvent with
      Id := authoritativeCacheData.EventID
      Description := derefString authoritativeCacheData.Description
      ColorId := derefString authoritativeCacheData.ColorID }
  let st₀ : Option Event × Bool := (none, false)
  let st₁ :=
    if needsProperty then
      let propPatch := AddManagedProperty eventToPatch
      (mergeEventPatches st₀.1 propPatch, true)
    else st₀
  let st₂ :=
    if needsDescriptionUpdate then
      let descPatch := RemoveDescriptionTag eventToPatch
      (mergeEventPatches st₁.1 descPatch, st₁.2 || descPatch.isSome)
    else st₁
  let st₃ :=
    if needsColorUpdate then
      let colorPatch := SetColor eventToPatch (colorOf s.colorMap targetStatus)
      (mergeEventPatches st₂.1 colorPatch, st₂.2 || colorPatch.isSome)
    else st₂
  if st₃.2 then st₃.1 else none

/-- The default event built at lines 232 to 240 of `coreReconciliationLogic`. -/
def defaultEvent (s : Syncer) (date : Int) (targetLocationCode targetStatus : String) : Event :=
  { zeroEvent with
    Summary := targetLocationCode
    Start := some { Date := formatDate date, DateTime := "" }
    End := some { Date := formatDate (date + 1), DateTime := "" }
    ColorId := colorOf s.colorMap targetStatus
    ExtendedProperties := some { Private := some [(ManagedPropertyKey, "true")] } }

/-- What `coreReconciliationLogic` returns, the database it leaves and the
requests it issued. -/
structure CoreResult where
  dbChanged : Bool
  finalLocationCode : String
  err : Option Err
  db : Db
  ops : List Op
deriving DecidableEq, Repr

/-- Method `coreReconciliationLogic`. -/
def coreReconciliationLogic (s : Syncer) (f : Faults) (db : Db) (date : Int)
    (authoritativeCacheData : Option CachedEvent) (currentDbEntry : Option ScheduleEntry) :
    CoreResult :=
  -- 1. Determine Target State & Required Actions
  let targetLocationCode : String :=
    match authoritativeCacheData with
    | some a => derefString a.Title
    | none => s.cfg.DefaultLocationCode
  let targetStatus : String := DetermineStatus targetLocationCode
  let eventId : String :=
    match authoritativeCacheData with
    | some a => a.EventID
    | none => ""
  let needsProperty : Bool :=
    match authoritativeCacheData with
    | some a => !a.IsManagedProperty
    | none => false
  let needsDescriptionUpdate : Bool :=
    match authoritativeCacheData with
    | some a => a.IsManagedDescription
    | none => false
  let needsColorUpdate : Bool :=
    match authoritativeCacheData with
    | some a => derefString a.ColorID != colorOf s.colorMap targetStatus
    | none => false
  let needsEventCreation : Bool := authoritativeCacheData.isNone
  let needsDbUpdate : Bool :=
    match currentDbEntry with
    | none => true
    | some e => e.LocationCode != targetLocationCode || e.Status != targetStatus
  let finalLocationCode := targetLocationCode
  let entry : ScheduleEntry :=
    { Date := date, LocationCode := targetLocationCode, Status := targetStatus }
  if needsDbUpdate && f.UpsertScheduleEntry entry then
    { dbChanged := false, finalLocationCode := finalLocationCode,
      err := some Err.updateScheduleEntry, db := db, ops := [Op.upsertScheduleEntry entry] }
  else
    let db₁ := if needsDbUpdate then UpsertScheduleEntry db entry else db
    let ops₁ := if needsDbUpdate then [Op.upsertScheduleEntry entry] else []
    let dbChanged := needsDbUpdate
    let patchEvent : Option Event :=
      match authoritativeCacheData with
      | some a =>
        if eventId != "" then
          metadataPatch s a needsProperty needsDescriptionUpdate needsColorUpdate targetStatus
        else none
      | none => none
    match patchEvent with
    | some p =>
      if f.EventsPatch eventId p then
        { dbChanged := false, finalLocationCode := finalLocationCode,
          err := some Err.patchEvent, db := db₁, ops := ops₁ ++ [Op.calendarPatch eventId p] }
      else
        -- an authoritative event exists here, so needsEventCreation is false
        { dbChanged := dbChanged, finalLocationCode := finalLocationCode, err := none,
          db := db₁, ops := ops₁ ++ [Op.calendarPatch eventId p] }
    | none =>
      if needsEventCreation then
        let ev := defaultEvent s date targetLocationCode targetStatus
        if f.EventsInsert ev then
          { dbChanged := false, finalLocationCode := finalLocationCode,
            err := some Err.createDefaultEvent, db := db₁,
            ops := ops₁ ++ [Op.calendarInsert ev] }
        else
          { dbChanged := dbChanged, finalLocationCode := finalLocationCode, err := none,
            db := db₁, ops := ops₁ ++ [Op.calendarInsert ev] }
      else
        { dbChanged := dbChanged, finalLocationCode := finalLocationCode, err := none,
          db := db₁, ops := ops₁ }

/-- What `runSingleReconciliation` returns, the database it leaves and the
requests it issued. -/
structure SingleResult where
  locationDiff : String
  err : Option Err
  db : Db
  ops : List Op
deriving DecidableEq, Repr

/-- Method `runSingleReconciliation`. -/
def runSingleReconciliation (s : Syncer) (f : Faults) (db : Db) (date : Int) : SingleResult :=
  if f.GetCachedEventsByDate date then
    { locationDiff := "", err := some Err.queryCache, db := db, ops := [] }
  else
    let cachedEvents := GetCachedEventsByDate db date
    let cleaned := cleanUpDuplicates s f cachedEvents
    let authoritativeEvent := cleaned.1
    if f.GetScheduleEntry date then
      { locationDiff := "", err := some Err.fetchScheduleEntry, db := db, ops := cleaned.2 }
    else
      let currentDbEntry := GetScheduleEntry db date
      let previousLocation :=
        match currentDbEntry with
        | some e => e.LocationCode
        | none => s.cfg.DefaultLocationCode
      let r := coreReconciliationLogic s f db date authoritativeEvent currentDbEntry
      if r.err.isSome then
        { locationDiff := "", err := r.err, db := r.db, ops := cleaned.2 ++ r.ops }
      else
        let newLocationCode := r.finalLocationCode
        let locationDiff :=
          if r.dbChanged && previousLocation != newLocationCode &&
              (authoritativeEvent.isSome || newLocationCode != s.cfg.DefaultLocationCode) then
            let formattedPreviousLocation :=
              if authoritativeEvent.isNone then "<none>" else previousLocation
            formattedPreviousLocation ++ " → " ++ newLocationCode
          else ""
        { locationDiff := locationDiff, err := none, db := r.db, ops := cleaned.2 ++ r.ops }

/-- What `RunReconciliation` returns (its error) and leaves: the change batch
(date string, "previous → new"), the per-date errors it logged, the database
and the requests issued. -/
structure ReconciliationResult where
  err : Option Err
  changesForEmail : List (String × String)
  failed : List (Int × Err)
  db : Db
  ops : List Op
deriving DecidableEq, Repr

/-- The loop of `RunReconciliation` over the dates. -/
def reconcileDates (s : Syncer) (f : Faults) :
    List Int → ReconciliationResult → ReconciliationResult
  | [], acc => acc
  | date :: rest, acc =>
    let r := runSingleReconciliation s f acc.db date
    reconcileDates s f rest
      { err := acc.err
        changesForEmail :=
          if r.locationDiff != "" then mapSet acc.changesForEmail (formatDate date) r.locationDiff
          else acc.changesForEmail
        failed :=
          match r.err with
          | some e => acc.failed ++ [(date, e)]
          | none => acc.failed
        db := r.db
        ops := acc.ops ++ r.ops }

/-- Method `RunReconciliation`; it always returns a nil error. -/
def RunReconciliation (s : Syncer) (f : Faults) (db : Db) (datesToReconcile : List Int)
    (_triggeredByIncremental : Bool) : ReconciliationResult :=
  let r := reconcileDates s f datesToReconcile
    { err := none, changesForEmail := [], failed := [], db := db, ops := [] }
  if s.cfg.EnableEmailConfirmations && r.changesForEmail.length > 0 then
    { r with ops := r.ops ++ [Op.sendConfirmation r.changesForEmail] }
  else r

/-! ## Incremental sync (internal/sync/sync.go, internal/sync/incremental.go) -/

/-- What a cache update returns: its error, the database it leaves, the
requests it issued. `Err.nilDereference` is a run-time panic, which unwinds
every caller. -/
structure CacheUpdate where
  err : Option Err
  db : Db
  ops : List Op
deriving DecidableEq, Repr

/-- The set of recurring-series ids of a batch (a Go map used as a set; the
order of iteration is not specified, the list keeps the order of first
occurrence). -/
def recurringEventIDs (changedEvents : List Event) : List String :=
  changedEvents.foldl
    (fun acc event =>
      if event.RecurringEventId != "" && !acc.contains event.RecurringEventId then
        acc ++ [event.RecurringEventId]
      else acc) []

/-- The deletion loop of `deleteRecurringEventIDsFromDBCache`. -/
def deleteCachedEvents (f : Faults) : List String → Db → List Op → CacheUpdate
  | [], db, ops => { err := none, db := db, ops := ops }
  | id :: rest, db, ops =>
    if f.DeleteCachedEvent id then
      { err := some Err.updateCache, db := db, ops := ops ++ [Op.deleteCachedEvent id] }
    else
      deleteCachedEvents f rest (DeleteCachedEvent db id) (ops ++ [Op.deleteCachedEvent id])

/-- Method `deleteRecurringEventIDsFromDBCache`. -/
def deleteRecurringEventIDsFromDBCache (f : Faults) (db : Db) (changedEvents : List Event) :
    CacheUpdate :=
  deleteCachedEvents f (recurringEventIDs changedEvents) db []

/-- The row `updateDBCache` builds from a parsed event. -/
def cachedEventOf (event : Event) (parsedInfo : ManagedEventInfo) : CachedEvent :=
  { EventID := parsedInfo.EventID
    Date := parsedInfo.Date
    Title := if parsedInfo.LocationCode == "" then none else some parsedInfo.LocationCode
    Description := if parsedInfo.Description == "" then none else some parsedInfo.Description
    UpdatedTs := parsedInfo.UpdatedTs
    IsManagedProperty := HasManagedProperty event
    IsManagedDescription := HasDescriptionTag event
    ColorID := if parsedInfo.ColorID == "" then none else some parsedInfo.ColorID
    RecurringEventID := parsedInfo.RecurringEventID
    OriginalStartTime := parsedInfo.OriginalStartTime }

/-- The loop of `updateDBCache` over the changed events. -/
def updateDBCacheLoop (parseRFC3339 : String → Option Int) (s : Syncer) (f : Faults) :
    List Event → Db → List Op → CacheUpdate
  | [], db, ops => { err := none, db := db, ops := ops }
  | event :: rest, db, ops =>
    if event.Status == "cancelled" then
      if f.DeleteCachedEvent event.Id then
        { err := some Err.updateCache, db := db, ops := ops ++ [Op.deleteCachedEvent event.Id] }
      else
        updateDBCacheLoop parseRFC3339 s f rest (DeleteCachedEvent db event.Id)
          (ops ++ [Op.deleteCachedEvent event.Id])
    else
      match ParseEvent parseRFC3339 (some event) s.colorMap with
      | none => { err := some Err.nilDereference, db := db, ops := ops }
      | some (none, _) => updateDBCacheLoop parseRFC3339 s f rest db ops
      | some (some parsedInfo, _) =>
        let cachedEvent := cachedEventOf event parsedInfo
        if f.UpsertCachedEvent cachedEvent then
          { err := some Err.updateCache, db := db,
            ops := ops ++ [Op.upsertCachedEvent cachedEvent] }
        else
          updateDBCacheLoop parseRFC3339 s f rest (UpsertCachedEvent db cachedEvent)
            (ops ++ [Op.upsertCachedEvent cachedEvent])

/-- Method `updateDBCache`. -/
def updateDBCache (parseRFC3339 : String → Option Int) (s : Syncer) (f : Faults) (db : Db)
    (changedEvents : List Event) : CacheUpdate :=
  let r := deleteRecurringEventIDsFromDBCache f db changedEvents
  if r.err.isSome then r
  else updateDBCacheLoop parseRFC3339 s f changedEvents r.db r.ops

/-- Method `shouldStartConciliation`: whether the event affects a date, and the
date string. A failing `GetCachedEventByID` counts as "not cached". -/
def shouldStartConciliation (f : Faults) (db : Db) (event : Event) : Bool × String :=
  match event.Start with
  | some start =>
    let eventDateStr := start.Date
    if eventDateStr == "" && start.DateTime != "" then (false, "")
    else (eventDateStr != "", eventDateStr)
  | none =>
    if event.Status == "cancelled" then
      let cached := if f.GetCachedEventByID event.Id then none else GetCachedEventByID db event.Id
      match cached with
      | some c => (formatDate c.Date != "", formatDate c.Date)
      | none => (false, "")
    else (false, "")

/-- Function `dateStrMapToTimeSlice`: the date strings that parse, as days. -/
def dateStrMapToTimeSlice (dateStrings : List String) : List Int :=
  dateStrings.filterMap parseDate

/-- Method `getDatesToConciliate`: the affected dates, each once (a Go map used
as a set; the list keeps the order of first occurrence). -/
def getDatesToConciliate (f : Faults) (db : Db) (events : List Event) : List Int :=
  let affectedDatesMap := events.foldl
    (fun acc event =>
      let r := shouldStartConciliation f db event
      if r.1 && !acc.contains r.2 then acc ++ [r.2] else acc) ([] : List String)
  dateStrMapToTimeSlice affectedDatesMap

/-- One answer of `Events.List(...).Do()`: a page, or an error (the sync token
reported invalid by the source, or any other failure). -/
inductive ListAnswer where
  | page (Items : List Event) (NextPageToken NextSyncToken : String) : ListAnswer
  | invalidSyncToken : ListAnswer
  | failure : ListAnswer
deriving DecidableEq, Repr

/-- The pagination loop of `fetchIncrementalChanges` over the successive
answers of the source; a source that stops answering counts as a failed call. -/
def fetchPages : List ListAnswer → List Event → Option (List Event × String)
  | [], _ => none
  | ListAnswer.invalidSyncToken :: _, _ => none
  | ListAnswer.failure :: _, _ => none
  | ListAnswer.page items nextPageToken nextSyncToken :: rest, changedEvents =>
    if nextPageToken == "" then some (changedEvents ++ items, nextSyncToken)
    else fetchPages rest (changedEvents ++ items)

/-- Method `fetchIncrementalChanges`: the changed events and the next sync
token, or nothing when a call failed. -/
def fetchIncrementalChanges (answers : List ListAnswer) (_syncToken : String) :
    Option (List Event × String) :=
  fetchPages answers []

/-- What `RunIncrementalSync` returns (error and full-sync directive), the
database it leaves, the requests it issued and the dates it handed to
`RunReconciliation`. -/
structure IncrementalResult where
  err : Option Err
  performFullSync : Bool
  db : Db
  ops : List Op
  reconciledDates : List Int
deriving DecidableEq, Repr

/-- Method `reconciliate`: reconciliation of the affected dates, when there are any. -/
def reconciliate (s : Syncer) (f : Faults) (db : Db) (dates : List Int) : Db × List Op :=
  if dates.length > 0 then
    let r := RunReconciliation s f db dates true
    (r.db, r.ops)
  else (db, [])

/-- Method `RunIncrementalSync`. -/
def RunIncrementalSync (parseRFC3339 : String → Option Int) (s : Syncer) (f : Faults) (db : Db)
    (answers : List ListAnswer) (syncToken : String) : IncrementalResult :=
  match fetchIncrementalChanges answers syncToken with
  | none =>
    -- the result of this SetSyncState is discarded
    { err := some Err.fetchChanges, performFullSync := true
      db := if f.SetSyncState "syncToken" "" then db else SetSyncState db "syncToken" ""
      ops := [Op.setSyncState "syncToken" ""], reconciledDates := [] }
  | some (changedEvents, nextSyncToken) =>
    if changedEvents.length == 0 && nextSyncToken != "" then
      if f.SetSyncState "syncToken" nextSyncToken then
        { err := some Err.persistSyncToken, performFullSync := false, db := db,
          ops := [Op.setSyncState "syncToken" nextSyncToken], reconciledDates := [] }
      else
        { err := none, performFullSync := false
          db := SetSyncState db "syncToken" nextSyncToken
          ops := [Op.setSyncState "syncToken" nextSyncToken], reconciledDates := [] }
    else
      let u := updateDBCache parseRFC3339 s f db changedEvents
      match u.err with
      | some Err.nilDereference =>
        { err := some Err.nilDereference, performFullSync := false, db := u.db, ops := u.ops,
          reconciledDates := [] }
      | some _ =>
        { err := some Err.updateCache, performFullSync := true, db := u.db, ops := u.ops,
          reconciledDates := [] }
      | none =>
        let affectedDates := getDatesToConciliate f u.db changedEvents
        let recon := reconciliate s f u.db affectedDates
        if nextSyncToken != "" then
          if f.SetSyncState "syncToken" nextSyncToken then
            { err := some Err.persistSyncToken, performFullSync := false, db := recon.1,
              ops := u.ops ++ recon.2 ++ [Op.setSyncState "syncToken" nextSyncToken],
              reconciledDates := affectedDates }
          else
            { err := none, performFullSync := false
              db := SetSyncState recon.1 "syncToken" nextSyncToken
              ops := u.ops ++ recon.2 ++ [Op.setSyncState "syncToken" nextSyncToken],
              reconciledDates := affectedDates }
        else
          { err := none, performFullSync := false, db := recon.1, ops := u.ops ++ recon.2,
            reconciledDates := affectedDates }

/-! ## Full sync and sync dispatch (internal/sync/full.go, internal/sync/sync.go) -/

/-- A `time.Time` with its time of day, in the UTC location: the day number
and the nanoseconds elapsed since midnight. -/
structure Time where
  day : Int
  nanos : Nat
deriving DecidableEq, Repr

namespace Time

/-- Method `After`: `t` is a later instant than `u`. -/
def After (t u : Time) : Bool :=
  decide (u.day < t.day ∨ (u.day = t.day ∧ u.nanos < t.nanos))

/-- Method `Before`: `t` is an earlier instant than `u`. -/
def Before (t u : Time) : Bool :=
  decide (t.day < u.day ∨ (t.day = u.day ∧ t.nanos < u.nanos))

/-- Method `AddDate(0, 0, days)`: the same time of day, `days` days later. -/
def AddDate (t : Time) (days : Int) : Time := { t with day := t.day + days }

end Time

/-- The loop of `generateDateRange`; `fuel` bounds the number of iterations. -/
def generateDateRangeLoop (endNormalized : Time) : Nat → Time → List Int
  | 0, _ => []
  | fuel + 1, current =>
    if current.After endNormalized then []
    else current.day :: generateDateRangeLoop endNormalized fuel (current.AddDate 1)

/-- Function `generateDateRange`: the days from `start` on, as long as the
current instant is not after midnight of the day of `endTime`. The loop adds
one day per iteration, so it makes at most `endTime.day + 1 - start.day`
iterations, which is the fuel given. -/
def generateDateRange (start endTime : Time) : List Int :=
  generateDateRangeLoop { day := endTime.day, nanos := 0 }
    (endTime.day + 1 - start.day).toNat start

/-- Assignment `m[k] = struct{}{}` on a Go map used as a set (the list keeps
the order of first insertion; Go iterates in no specified order). -/
def setAdd (m : List String) (k : String) : List String :=
  if m.contains k then m else m ++ [k]

/-- Method `getDatesToConciliateWithDefaultWindow`; `now` is `time.Now()`. -/
def getDatesToConciliateWithDefaultWindow (s : Syncer) (f : Faults) (db : Db)
    (allEvents : List Event) (now : Time) : List Int :=
  let windowStartDate := now.AddDate (-s.cfg.PastSyncWindowDays)
  let windowEndDate := now.AddDate s.cfg.FutureHorizonDays
  let windowDates := generateDateRange windowStartDate windowEndDate
  let datesMap := windowDates.foldl (fun acc d => setAdd acc (formatDate d)) []
  let datesToConciliate := getDatesToConciliate f db allEvents
  let datesMap := datesToConciliate.foldl (fun acc d => setAdd acc (formatDate d)) datesMap
  dateStrMapToTimeSlice datesMap

/-- Method `fetchAllEvents`: every event of the calendar and the sync token of
the last page, or nothing when a call failed. -/
def fetchAllEvents (answers : List ListAnswer) : Option (List Event × String) :=
  fetchPages answers []

/-- Method `rebuildEventCache`: the cache is cleared, then filled by
`updateDBCache`, whose returned error is not looked at (a panic still unwinds). -/
def rebuildEventCache (parseRFC3339 : String → Option Int) (s : Syncer) (f : Faults) (db : Db)
    (events : List Event) : CacheUpdate :=
  if f.ClearCachedEvents then
    { err := some Err.clearCache, db := db, ops := [Op.clearCachedEvents] }
  else
    let u := updateDBCache parseRFC3339 s f (ClearCachedEvents db) events
    { err := if u.err = some Err.nilDereference then some Err.nilDereference else none
      db := u.db
      ops := [Op.clearCachedEvents] ++ u.ops }

/-- What `RunFullSync` returns, the database it leaves, the requests it issued
and the dates it handed to `RunReconciliation`. -/
structure FullResult where
  err : Option Err
  db : Db
  ops : List Op
  reconciledDates : List Int
deriving DecidableEq, Repr

/-- Method `RunFullSync`. -/
def RunFullSync (parseRFC3339 : String → Option Int) (s : Syncer) (f : Faults) (db : Db)
    (answers : List ListAnswer) (now : Time) : FullResult :=
  match fetchAllEvents answers with
  | none => { err := some Err.fetchChanges, db := db, ops := [], reconciledDates := [] }
  | some (allEvents, nextSyncToken) =>
    let c := rebuildEventCache parseRFC3339 s f db allEvents
    match c.err with
    | some e => { err := some e, db := c.db, ops := c.ops, reconciledDates := [] }
    | none =>
      if f.SetSyncState "syncToken" nextSyncToken then
        { err := some Err.persistSyncToken, db := c.db,
          ops := c.ops ++ [Op.setSyncState "syncToken" nextSyncToken], reconciledDates := [] }
      else
        let db₁ := SetSyncState c.db "syncToken" nextSyncToken
        let datesToReconcile := getDatesToConciliateWithDefaultWindow s f db₁ allEvents now
        -- the error of RunReconciliation is only logged
        let r := RunReconciliation s f db₁ datesToReconcile false
        { err := none, db := r.db
          ops := c.ops ++ [Op.setSyncState "syncToken" nextSyncToken] ++ r.ops
          reconciledDates := datesToReconcile }

/-- The syncs a call of `runSync` ran. -/
inductive SyncKind where
  | full : SyncKind
  | incremental (syncToken : String) : SyncKind
deriving DecidableEq, Repr

/-- What `runSync` returns, the database it leaves, the requests it issued and
the syncs it ran, in order. -/
structure SyncResult where
  err : Option Err
  db : Db
  ops : List Op
  ran : List SyncKind
deriving DecidableEq, Repr

/-- Method `runSync`. `incrementalAnswers` are the answers of the source to
the listing with the sync token, `fullAnswers` to the listing without. A key
without row makes `GetSyncState` fail, like a failing query. -/
def runSync (parseRFC3339 : String → Option Int) (s : Syncer) (f : Faults) (db : Db)
    (incrementalAnswers fullAnswers : List ListAnswer) (now : Time) : SyncResult :=
  let stored : Option String :=
    if f.GetSyncState "syncToken" then none else GetSyncState db "syncToken"
  match stored with
  | none =>
    let r := RunFullSync parseRFC3339 s f db fullAnswers now
    { err := r.err, db := r.db, ops := r.ops, ran := [SyncKind.full] }
  | some syncToken =>
    if syncToken == "" then
      let r := RunFullSync parseRFC3339 s f db fullAnswers now
      { err := r.err, db := r.db, ops := r.ops, ran := [SyncKind.full] }
    else
      let ri := RunIncrementalSync parseRFC3339 s f db incrementalAnswers syncToken
      if ri.err.isSome && ri.performFullSync then
        let r := RunFullSync parseRFC3339 s f ri.db fullAnswers now
        { err := r.err, db := r.db, ops := ri.ops ++ r.ops
          ran := [SyncKind.incremental syncToken, SyncKind.full] }
      else
        { err := ri.err, db := ri.db, ops := ri.ops, ran := [SyncKind.incremental syncToken] }

/-! ## Deletion answers (internal/sync/reconciliation.go) -/

/-- Function `isNotFoundError`: an API error with HTTP status 404 or 410. -/
def isNotFoundError (answer : DeleteOutcome) : Bool :=
  match answer with
  | DeleteOutcome.apiError code => code == 404 || code == 410
  | _ => false

/-- Function `googleapi.IsNotModified`: an API error with HTTP status 304. -/
def IsNotModified (answer : DeleteOutcome) : Bool :=
  match answer with
  | DeleteOutcome.apiError code => code == 304
  | _ => false

/-- The three log lines of `deleteEventsFromCalendar`. -/
inductive DeleteLog where
  | errorDeleting : DeleteLog
  | successfullyDeleted : DeleteLog
  | likelyAlreadyGone : DeleteLog
deriving DecidableEq, Repr

/-- The branch `deleteEventsFromCalendar` takes on the answer to a delete. -/
def deleteLog (answer : DeleteOutcome) : DeleteLog :=
  if answer != DeleteOutcome.ok && !IsNotModified answer && !isNotFoundError answer then
    DeleteLog.errorDeleting
  else if answer == DeleteOutcome.ok then DeleteLog.successfullyDeleted
  else DeleteLog.likelyAlreadyGone

/-- Whether one of the issued mirror writes (clear, upsert, delete) failed. -/
def mirrorWriteFailed (f : Faults) (ops : List Op) : Bool :=
  ops.any (fun op =>
    match op with
    | Op.upsertCachedEvent event => f.UpsertCachedEvent event
    | Op.deleteCachedEvent eventID => f.DeleteCachedEvent eventID
    | Op.clearCachedEvents => f.ClearCachedEvents
    | _ => false)

/-! ## Webhook channel tasks (internal/sync/tasks.go) -/

/-- Type `gcal.Channel`, restricted to the fields read; `Expiration` is in
milliseconds since the Unix epoch. -/
structure Channel where
  Id : String
  ResourceId : String
  Expiration : Int
deriving DecidableEq, Repr

def dbKeyChannelID : String := "channelId"

def dbKeyResourceID : String := "resourceId"

def dbKeyChannelExpiration : String := "channelExpiration"

def channelRenewalThresholdDays : Int := 3

/-- What a task returns, the database it leaves and the requests it issued. -/
structure TaskResult where
  err : Option Err
  db : Db
  ops : List Op
deriving DecidableEq, Repr

/-- Method `getCurrentChannelInfo`: the three stored values, or nothing when
one of the three reads failed (a key without row is a failed read). -/
def getCurrentChannelInfo (f : Faults) (db : Db) : Option (String × String × String) :=
  let read := fun (key : String) => if f.GetSyncState key then none else GetSyncState db key
  match read dbKeyChannelID, read dbKeyResourceID, read dbKeyChannelExpiration with
  | some id, some resID, some exp => some (id, resID, exp)
  | _, _, _ => none

/-- Method `createCalendarWebhookChannel`: one Watch request; `watchAnswer` is
the channel the source answers with, or nothing when the request fails. -/
def createCalendarWebhookChannel (watchAnswer : Option Channel) : Option Channel × List Op :=
  (watchAnswer, [Op.eventsWatch])

/-- Method `stopCalendarWebhookChannel`: one Stop request, skipped when an id
is empty; the answer is only logged. -/
def stopCalendarWebhookChannel (channelID resourceID : String) : List Op :=
  if channelID == "" || resourceID == "" then []
  else [Op.channelsStop channelID resourceID]

/-- Method `storeChannelInfo`. `formatUnixMilli` stands for
`time.UnixMilli(·).Format(time.RFC3339Nano)` of the Go library. -/
def storeChannelInfo (formatUnixMilli : Int → String) (f : Faults) (db : Db)
    (channel : Channel) : TaskResult :=
  let expTimeStr := formatUnixMilli channel.Expiration
  let cleanup := stopCalendarWebhookChannel channel.Id channel.ResourceId
  let w₁ := Op.setSyncState dbKeyChannelID channel.Id
  let w₂ := Op.setSyncState dbKeyResourceID channel.ResourceId
  let w₃ := Op.setSyncState dbKeyChannelExpiration expTimeStr
  if f.SetSyncState dbKeyChannelID channel.Id then
    { err := some Err.storeChannelInfo, db := db, ops := [w₁] ++ cleanup }
  else
    let db₁ := SetSyncState db dbKeyChannelID channel.Id
    if f.SetSyncState dbKeyResourceID channel.ResourceId then
      { err := some Err.storeChannelInfo, db := db₁, ops := [w₁, w₂] ++ cleanup }
    else
      let db₂ := SetSyncState db₁ dbKeyResourceID channel.ResourceId
      if f.SetSyncState dbKeyChannelExpiration expTimeStr then
        { err := some Err.storeChannelInfo, db := db₂, ops := [w₁, w₂, w₃] ++ cleanup }
      else
        { err := none, db := SetSyncState db₂ dbKeyChannelExpiration expTimeStr,
          ops := [w₁, w₂, w₃] }

/-- Method `EnsureWebhookChannelExists`. -/
def EnsureWebhookChannelExists (formatUnixMilli : Int → String) (f : Faults) (db : Db)
    (watchAnswer : Option Channel) : TaskResult :=
  match createCalendarWebhookChannel watchAnswer with
  | (none, ops) => { err := some Err.createChannel, db := db, ops := ops }
  | (some newChannel, ops) =>
    let st := storeChannelInfo formatUnixMilli f db newChannel
    { err := st.err, db := st.db, ops := ops ++ st.ops }

/-- Method `RunChannelRenewalTask`. `parseRFC3339Nano` stands for
`time.Parse(time.RFC3339Nano, ·)` of the Go library, `now` is `time.Now()`. -/
def RunChannelRenewalTask (parseRFC3339Nano : String → Option Time)
    (formatUnixMilli : Int → String) (f : Faults) (db : Db) (watchAnswer : Option Channel)
    (now : Time) : TaskResult :=
  match getCurrentChannelInfo f db with
  | none => EnsureWebhookChannelExists formatUnixMilli f db watchAnswer
  | some (channelID, resourceID, expirationStr) =>
    match parseRFC3339Nano expirationStr with
    | none => EnsureWebhookChannelExists formatUnixMilli f db watchAnswer
    | some expirationTime =>
      let renewalThreshold := now.AddDate channelRenewalThresholdDays
      if !expirationTime.Before renewalThreshold then { err := none, db := db, ops := [] }
      else
        match createCalendarWebhookChannel watchAnswer with
        | (none, ops) => { err := some Err.createChannel, db := db, ops := ops }
        | (some newChannel, ops) =>
          let st := storeChannelInfo formatUnixMilli f db newChannel
          if st.err.isSome then { err := st.err, db := st.db, ops := ops ++ st.ops }
          else
            -- only stop the old one after successfully storing the new one
            { err := none, db := st.db
              ops := ops ++ st.ops ++ stopCalendarWebhookChannel channelID resourceID }

/-! ## Webhook handler (internal/handler/webhook.go) -/

/-- Type `WebhookHandler`, restricted to the field `HandleWebhook` reads. -/
structure WebhookHandler where
  verificationToken : String
deriving DecidableEq, Repr

/-- Function `NewWebhookHandler`: the token is the configured
`Google.WebhookVerificationToken`. -/
def NewWebhookHandler (webhookVerificationToken : String) : WebhookHandler :=
  { verificationToken := webhookVerificationToken }

/-- The part of an `http.Request` the handler reads: the method and the two
headers (`Header.Get` gives the empty string for a missing header). -/
structure Request where
  Method : String
  channelToken : String
  channelState : String
deriving DecidableEq, Repr

/-- What the handler does: the status code it answers with and the number of
calls of `RequestSync` it makes. -/
structure Response where
  status : Nat
  syncRequests : Nat
deriving DecidableEq, Repr

def StatusOK : Nat := 200

def StatusForbidden : Nat := 403

def StatusMethodNotAllowed : Nat := 405

/-- Method `HandleWebhook`. -/
def HandleWebhook (h : WebhookHandler) (r : Request) : Response :=
  if r.Method != "POST" then { status := StatusMethodNotAllowed, syncRequests := 0 }
  else
    let tokenRejected : Bool :=
      if h.verificationToken == "" then false  -- validation skipped, with a warning
      else if r.channelToken != h.verificationToken then true
      else false
    if tokenRejected then { status := StatusForbidden, syncRequests := 0 }
    else if r.channelState != "exists" && r.channelState != "not_exists" then
      { status := StatusOK, syncRequests := 0 }
    else { status := StatusOK, syncRequests := 1 }

/-! ## Sync queue and worker (internal/sync/sync.go) -/

/-- Capacity of the channel `syncQueue`: `make(chan struct{}, 1)` in `NewSyncer`. -/
def syncQueueCapacity : Nat := 1

/-- State of the sync queue and of its worker: the number of requests buffered
in the channel, whether the worker is inside the sync it started after a
receive, and the number of syncs the worker has started. -/
structure WorkerState where
  queued : Nat
  syncing : Bool
  executions : Nat
deriving DecidableEq, Repr

/-- The send `s.syncQueue <- struct{}{}` on its own: nothing when the buffer is
full, where a bare send would block. -/
def trySend (st : WorkerState) : Option WorkerState :=
  if st.queued < syncQueueCapacity then some { st with queued := st.queued + 1 } else none

/-- Method `RequestSync`: a `select` with the send and a `default` case, which is
taken when the send cannot proceed. -/
def RequestSync (st : WorkerState) : WorkerState :=
  match trySend st with
  | some st₁ => st₁
  | none => st

/-- What can happen to the queue: a call of `RequestSync`, the worker taking a
request from the channel (after which it runs a sync), the end of that sync. -/
inductive QueueEvent where
  | request : QueueEvent
  | workerReceives : QueueEvent
  | syncEnds : QueueEvent
deriving DecidableEq, Repr

/-- One step of the queue, or nothing when the event cannot happen in the
state: the worker of `StartSyncWorker` is at its `select` only when no sync is
running, and its receive needs a buffered request. -/
def queueStep (event : QueueEvent) (st : WorkerState) : Option WorkerState :=
  match event with
  | QueueEvent.request => some (RequestSync st)
  | QueueEvent.workerReceives =>
    if st.syncing then none
    else if st.queued = 0 then none
    else some { queued := st.queued - 1, syncing := true, executions := st.executions + 1 }
  | QueueEvent.syncEnds =>
    if st.syncing then some { st with syncing := false } else none

/-- A sequence of events, from left to right. -/
def queueRun : List QueueEvent → WorkerState → Option WorkerState
  | [], st => some st
  | event :: rest, st =>
    match queueStep event st with
    | some st₁ => queueRun rest st₁
    | none => none

/-! ## The mutex of the Syncer (sync.go, tasks.go, scheduler.go) -/

/-- The entry points that run a sync or the horizon maintenance: the body of
the worker loop of `StartSyncWorker` after a receive, the scheduled
`runWeeklyFullSync`, and the scheduled `runHorizonMaintenance` (which calls
`RunHorizonMaintenanceTask`). -/
inductive EntryPoint where
  | workerSync : EntryPoint
  | weeklyFullSync : EntryPoint
  | horizonMaintenance : EntryPoint
deriving DecidableEq, Repr

/-- The steps of an entry point that matter for mutual exclusion:
`s.mutex.Lock()`, `s.mutex.Unlock()`, and the start and the end of the domain
logic (the code that touches the mirror, the schedule store or the cursor). -/
inductive Instr where
  | lock : Instr
  | unlock : Instr
  | enter : Instr
  | leave : Instr
deriving DecidableEq, Repr

/-- The steps of each entry point, in program order. The worker locks, calls
`runSync` and unlocks (sync.go lines 60 to 66); `RunHorizonMaintenanceTask`
locks, defers the unlock and runs the reconciliation (tasks.go lines 25 to 45);
`runWeeklyFullSync` calls `RunFullSync` directly (scheduler.go line 81), and
`RunFullSync` itself has no lock operation. -/
def entryProgram : EntryPoint → List Instr
  | EntryPoint.workerSync => [Instr.lock, Instr.enter, Instr.leave, Instr.unlock]
  | EntryPoint.weeklyFullSync => [Instr.enter, Instr.leave]
  | EntryPoint.horizonMaintenance => [Instr.lock, Instr.enter, Instr.leave, Instr.unlock]

/-- A running invocation of an entry point (a goroutine) and the number of
steps it has made. -/
structure Thread where
  entry : EntryPoint
  pc : Nat
deriving DecidableEq, Repr

/-- The mutex and the running invocations. -/
structure MutexState where
  locked : Bool
  threads : List Thread
deriving DecidableEq, Repr

/-- One step of a thread: nothing when it is blocked on the locked mutex or has
finished. -/
def stepThread (locked : Bool) (t : Thread) : Option (Bool × Thread) :=
  match (entryProgram t.entry)[t.pc]? with
  | none => none
  | some Instr.lock => if locked then none else some (true, { t with pc := t.pc + 1 })
  | some Instr.unlock => some (false, { t with pc := t.pc + 1 })
  | some _ => some (locked, { t with pc := t.pc + 1 })

/-- One step of the thread of index `i`. -/
def mutexStep (i : Nat) (st : MutexState) : Option MutexState :=
  match st.threads[i]? with
  | none => none
  | some t =>
    match stepThread st.locked t with
    | none => none
    | some (locked, t₁) => some { locked := locked, threads := st.threads.set i t₁ }

/-- An interleaving: the indices of the threads that step, in order. -/
def mutexRun : List Nat → MutexState → Option MutexState
  | [], st => some st
  | i :: rest, st =>
    match mutexStep i st with
    | some st₁ => mutexRun rest st₁
    | none => none

/-- The state in which the given entry points have just been invoked and the
mutex is free. -/
def invoked (entries : List EntryPoint) : MutexState :=
  { locked := false, threads := entries.map (fun e => { entry := e, pc := 0 }) }

/-- Whether a thread is inside its domain logic: its next step is the end of it. -/
def inDomainLogic (t : Thread) : Bool :=
  (entryProgram t.entry)[t.pc]? == some Instr.leave

/-- Whether a thread holds the mutex: it has made a lock step and no unlock
step since. -/
def holdsMutex (t : Thread) : Bool :=
  ((entryProgram t.entry).take t.pc).contains Instr.lock &&
    !((entryProgram t.entry).take t.pc).contains Instr.unlock

/-! ## Configuration (internal/config/config.go) and the handler of the server -/

/-- Type `GoogleConfig`. -/
structure GoogleConfig where
  CalendarID : String
  RefreshToken : String
  WebhookVerificationToken : String
  ClientID : String
  ClientSecret : String
deriving DecidableEq, Repr

/-- Type `SchedulerConfig`. -/
structure SchedulerConfig where
  EnableHorizonMaintenance : Bool
  HorizonMaintenanceCron : String
  EnablePeriodicFullSync : Bool
  PeriodicFullSyncCron : String
  CalendarSubscriptionMaintenanceCron : String
deriving DecidableEq, Repr

/-- Type `DBConfig`. -/
structure DBConfig where
  ConnectionString : String
deriving DecidableEq, Repr

/-- Type `SMTPConfig`. -/
structure SMTPConfig where
  Host : String
  Port : Int
  User : String
  Password : String
  SenderAddress : String
  RecipientAddress : String
  SkipTLSVerify : Bool
deriving DecidableEq, Repr

/-- Type `Config`. The field `App` holds the fields of `config.AppConfig` the
engine reads; its other fields are `AppBaseURL`,
`AppEnableCalendarSubscription` and `AppScheduler` here. -/
structure Config where
  Google : GoogleConfig
  App : AppConfig
  AppBaseURL : String
  AppEnableCalendarSubscription : Bool
  AppScheduler : SchedulerConfig
  DB : DBConfig
  SMTP : SMTPConfig
deriving DecidableEq, Repr

/-- Function `getEnv`: the variable, or the fallback when it is not set. `env`
is `os.LookupEnv` (after the optional load of the `.env` file). -/
def getEnv (env : String → Option String) (key fallback : String) : String :=
  match env key with
  | some value => value
  | none => fallback

/-- Function `getEnvOrErr`: nothing when the variable is not set. -/
def getEnvOrErr (env : String → Option String) (key : String) : Option String := env key

/-- Function `getIntEnv`; `atoi` stands for `strconv.Atoi` of the Go library. -/
def getIntEnv (atoi : String → Option Int) (env : String → Option String)
    (key fallback : String) : Option Int :=
  atoi (getEnv env key fallback)

/-- Function `strconv.ParseBool`. -/
def strconvParseBool (str : String) : Option Bool :=
  if str == "1" || str == "t" || str == "T" || str == "TRUE" || str == "true" ||
      str == "True" then some true
  else if str == "0" || str == "f" || str == "F" || str == "FALSE" || str == "false" ||
      str == "False" then some false
  else none

/-- Function `getBoolEnv`. -/
def getBoolEnv (env : String → Option String) (key fallback : String) : Option Bool :=
  strconvParseBool (getEnv env key fallback)

/-- Function `LoadConfig`: the configuration, or nothing when it returns an
error. -/
def LoadConfig (atoi : String → Option Int) (env : String → Option String) : Option Config :=
  match getIntEnv atoi env "FUTURE_HORIZON_DAYS" "90" with
  | none => none
  | some horizonDays =>
  match getIntEnv atoi env "PAST_SYNC_WINDOW_DAYS" "30" with
  | none => none
  | some pastSyncDays =>
  match getBoolEnv env "ENABLE_EMAIL_CONFIRMATIONS" "false" with
  | none => none
  | some enableEmail =>
  match getBoolEnv env "ENABLE_CALENDAR_SUBSCRIPTION" "false" with
  | none => none
  | some enableCalendarSubscription =>
  match getBoolEnv env "ENABLE_HORIZON_MAINTENANCE" "false" with
  | none => none
  | some enableHorizonMaintenance =>
  match getBoolEnv env "ENABLE_PERIODIC_FULL_SYNC" "false" with
  | none => none
  | some enablePeriodicFullSync =>
  match getIntEnv atoi env "SMTP_PORT" "587" with
  | none => none
  | some smtpPort =>
  match getBoolEnv env "SMTP_SKIP_TLS_VERIFY" "false" with
  | none => none
  | some skipTLSVerify =>
  match getEnvOrErr env "GOOGLE_REFRESH_TOKEN" with
  | none => none
  | some refreshToken =>
  match getEnvOrErr env "WEBHOOK_VERIFICATION_TOKEN" with
  | none => none
  | some webhookVerificationToken =>
  match getEnvOrErr env "APP_BASE_URL" with
  | none => none
  | some appBaseUrl =>
  match getEnvOrErr env "DB_CONNECTION_STRING" with
  | none => none
  | some dbConnectionString =>
    let cfg : Config :=
      { Google :=
          { CalendarID := getEnv env "GOOGLE_CALENDAR_ID" "primary"
            RefreshToken := refreshToken
            WebhookVerificationToken := webhookVerificationToken
            ClientID := getEnv env "GOOGLE_CLIENT_ID" ""
            ClientSecret := getEnv env "GOOGLE_CLIENT_SECRET" "" }
        App :=
          { DefaultLocationCode := getEnv env "DEFAULT_LOCATION_CODE" "HOM"
            FutureHorizonDays := horizonDays
            PastSyncWindowDays := pastSyncDays
            EnableEmailConfirmations := enableEmail }
        AppBaseURL := appBaseUrl
        AppEnableCalendarSubscription := enableCalendarSubscription
        AppScheduler :=
          { EnableHorizonMaintenance := enableHorizonMaintenance
            HorizonMaintenanceCron := getEnv env "HORIZON_MAINTENANCE_CRON" "0 2 * * *"
            EnablePeriodicFullSync := enablePeriodicFullSync
            PeriodicFullSyncCron := getEnv env "PERIODIC_FULL_SYNC_CRON" "0 3 * * SUN"
            CalendarSubscriptionMaintenanceCron :=
              getEnv env "CALENDAR_SUBSCRIPTION_MAINTENANCE_CRON" "0 1 * * *" }
        DB := { ConnectionString := dbConnectionString }
        SMTP :=
          { Host := getEnv env "SMTP_HOST" ""
            Port := smtpPort
            User := getEnv env "SMTP_USER" ""
            Password := getEnv env "SMTP_PASSWORD" ""
            SenderAddress := getEnv env "SMTP_SENDER_ADDRESS" ""
            RecipientAddress := getEnv env "RECIPIENT_EMAIL_ADDRESS" ""
            SkipTLSVerify := skipTLSVerify } }
    -- Basic validation for required fields
    if cfg.Google.RefreshToken == "" then none
    else if cfg.Google.WebhookVerificationToken == "" then none
    else if cfg.AppBaseURL == "" then none
    else if cfg.DB.ConnectionString == "" then none
    else if cfg.App.EnableEmailConfirmations &&
        (cfg.SMTP.Host == "" || cfg.SMTP.SenderAddress == "" ||
          cfg.SMTP.RecipientAddress == "") then none
    else some cfg

/-- The handler the server is started with: `main` stops when `LoadConfig`
returns an error, and `startHttpServer` (the only caller of
`NewWebhookHandler`) passes the loaded configuration, whose verification token
the handler keeps. -/
def serverHandler (cfg : Config) : WebhookHandler :=
  NewWebhookHandler cfg.Google.WebhookVerificationToken

/-! ## Observations on the issued requests -/

/-- The schedule upserts among the requests. -/
def scheduleUpserts (ops : List Op) : List ScheduleEntry :=
  ops.filterMap (fun op =>
    match op with
    | Op.upsertScheduleEntry e => some e
    | _ => none)

/-- The calendar patch requests among the requests. -/
def patchRequests (ops : List Op) : List (String × Event) :=
  ops.filterMap (fun op =>
    match op with
    | Op.calendarPatch eventId p => some (eventId, p)
    | _ => none)

/-- The calendar insert requests among the requests. -/
def insertRequests (ops : List Op) : List Event :=
  ops.filterMap (fun op =>
    match op with
    | Op.calendarInsert e => some e
    | _ => none)

/-- The calendar delete requests among the requests. -/
def deleteRequests (ops : List Op) : List String :=
  ops.filterMap (fun op =>
    match op with
    | Op.calendarDelete eventId => some eventId
    | _ => none)

/-- The channel stop requests among the requests. -/
def stopRequests (ops : List Op) : List (String × String) :=
  ops.filterMap (fun op =>
    match op with
    | Op.channelsStop channelID resourceID => some (channelID, resourceID)
    | _ => none)

/-! ## Vocabulary of the reconciliation claims -/

/-- The target location code of a date: the title of the authoritative event,
or the configured default code when there is none. -/
def targetCode (s : Syncer) (authoritative : Option CachedEvent) : String :=
  match authoritative with
  | some a => derefString a.Title
  | none => s.cfg.DefaultLocationCode

/-- The schedule entry a date should have. -/
def targetEntry (s : Syncer) (date : Int) (authoritative : Option CachedEvent) : ScheduleEntry :=
  { Date := date
    LocationCode := targetCode s authoritative
    Status := DetermineStatus (targetCode s authoritative) }

/-- The authoritative event reconciliation selects for a date. -/
def authoritativeFor (s : Syncer) (db : Db) (date : Int) : Option CachedEvent :=
  (identifyAuthoritativeCachedEvent s.sortSlice (GetCachedEventsByDate db date)).1

/-- The previous location code of a date: the code of the stored entry, or the
configured default code when no entry is stored. -/
def previousCode (s : Syncer) (db : Db) (date : Int) : String :=
  match GetScheduleEntry db date with
  | some e => e.LocationCode
  | none => s.cfg.DefaultLocationCode

/-- The description with the legacy marker stripped, as `RemoveDescriptionTag`
computes it. -/
def strippedDescription (description : String) : String :=
  stringsTrimSpace
    (stringsReplaceAll (stringsReplaceAll description (descriptionTag ++ "\n") "")
      descriptionTag "")

/-- Whether the legacy marker counts as present on a cached event: the row
carries the description flag and its cached description contains the marker
(`updateDBCache` writes both from the same event, so on its rows they agree). -/
def legacyMarkerPresent (a : CachedEvent) : Bool :=
  a.IsManagedDescription && stringsContains (derefString a.Description) descriptionTag

/-- The color configured for the status of the title of a cached event. -/
def configuredColor (s : Syncer) (a : CachedEvent) : String :=
  colorOf s.colorMap (DetermineStatus (derefString a.Title))

/-- The single patch the three corrections amount to: the private marker if it
was missing, the stripped description (force-sent) if the legacy marker was
present, the configured color (force-sent) if the color differed. -/
def correctionPatch (s : Syncer) (a : CachedEvent) : Event :=
  { zeroEvent with
    ExtendedProperties :=
      if a.IsManagedProperty then none
      else some { Private := some [(ManagedPropertyKey, "true")] }
    Description :=
      if legacyMarkerPresent a then strippedDescription (derefString a.Description) else ""
    ColorId :=
      if derefString a.ColorID != configuredColor s a then configuredColor s a else ""
    ForceSendFields :=
      (if legacyMarkerPresent a then ["Description"] else []) ++
      (if derefString a.ColorID != configuredColor s a then ["ColorId"] else []) }

/-- Whether the source reports the sync token invalid during the listing:
after any number of pages that announce a further page, it answers that the
token is invalid. -/
def reportsInvalidToken : List ListAnswer → Bool
  | ListAnswer.invalidSyncToken :: _ => true
  | ListAnswer.page _ nextPageToken _ :: rest => nextPageToken != "" && reportsInvalidToken rest
  | _ => false

/-- The stored cursor as `runSync` reads it: nothing when the read fails (a
failing query, or no row under the key). -/
def storedCursor (f : Faults) (db : Db) : Option String :=
  if f.GetSyncState "syncToken" then none else GetSyncState db "syncToken"

/-- The single-date reconciliations of a list of dates, one after the other,
each on the database the one before left: the date and its result. -/
def reconciliationRuns (s : Syncer) (f : Faults) : List Int → Db → List (Int × SingleResult)
  | [], _ => []
  | date :: rest, db =>
    (date, runSingleReconciliation s f db date) ::
      reconciliationRuns s f rest (runSingleReconciliation s f db date).db

/-- The rows a batch of events stands for in the mirror: one per event that
is not cancelled and that `ParseEvent` accepts, in the order of the batch. -/
def mirrorRows (parseRFC3339 : String → Option Int) (s : Syncer) (events : List Event) :
    List CachedEvent :=
  events.filterMap (fun event =>
    if event.Status == "cancelled" then none
    else
      match ParseEvent parseRFC3339 (some event) s.colorMap with
      | some (some parsedInfo, _) => some (cachedEventOf event parsedInfo)
      | _ => none)

/-- Whether a notification passes the token validation of `HandleWebhook`: no
verification token is configured, or the channel token equals it. -/
def passesTokenValidation (h : WebhookHandler) (r : Request) : Bool :=
  h.verificationToken == "" || r.channelToken == h.verificationToken

/-- Whether an event with the given start and end is a managed event of a
single full day with a parsable update timestamp. -/
def qualifiesForParseEvent (parseRFC3339 : String → Option Int) (event : Event)
    (start ending : EventDateTime) : Bool :=
  (HasManagedProperty event || HasDescriptionTag event) &&
  (match parseDate start.Date, parseDate ending.Date with
    | some d, some e => d + 1 == e
    | _, _ => false) &&
  (parseRFC3339 event.Updated).isSome

/-- The `n` consecutive days from `first` on. -/
def daysFrom : Int → Nat → List Int
  | _, 0 => []
  | first, n + 1 => first :: daysFrom (first + 1) n

/-- Whether `sub` occurs in `s` at the character position `i`. -/
def occursAt (sub s : String) (i : Nat) : Bool := sub.data.isPrefixOf (s.data.drop i)

/-- The string without its first character when that is a newline. -/
def withoutLeadingNewline (s : String) : String :=
  match s.data with
  | '\n' :: rest => ⟨rest⟩
  | _ => s

/-! ## Example values -/

/-- Two managed events of one day, "A" updated at 10 and "B" updated at 11. -/
def evA : CachedEvent :=
  { EventID := "A", Date := 19884, Title := some "HOM", Description := none, UpdatedTs := 10,
    IsManagedProperty := true, IsManagedDescription := false, ColorID := some "3",
    RecurringEventID := none, OriginalStartTime := none }

def evB : CachedEvent :=
  { EventID := "B", Date := 19884, Title := some "P12GRAN303", Description := none,
    UpdatedTs := 11, IsManagedProperty := true, IsManagedDescription := false,
    ColorID := some "5", RecurringEventID := none, OriginalStartTime := none }

/-- An unmanaged event of the same day, updated last. -/
def evU : CachedEvent :=
  { EventID := "U", Date := 19884, Title := some "Dentist", Description := none,
    UpdatedTs := 12, IsManagedProperty := false, IsManagedDescription := false,
    ColorID := none, RecurringEventID := none, OriginalStartTime := none }

/-- Configuration with default code "HOM" and mail confirmations on. -/
def cfgHOM : AppConfig :=
  { DefaultLocationCode := "HOM", FutureHorizonDays := 90, PastSyncWindowDays := 30,
    EnableEmailConfirmations := true }

/-- The syncer of `cfgHOM`. -/
def syncerHOM : Syncer := NewSyncer insertionSortSlice cfgHOM

/-- Day 2024-06-10 of the end-to-end scenario: events A and B in the mirror,
schedule entry HOM / Home. -/
def dbScenario : Db :=
  { cache := [evA, evB]
    schedule := [{ Date := 19884, LocationCode := "HOM", Status := "Home" }]
    syncState := [] }

/-- An empty database. -/
def dbEmpty : Db := { cache := [], schedule := [], syncState := [] }

/-- A managed event of the legacy kind: description marker, no private marker,
no color. -/
def evLegacy : CachedEvent :=
  { EventID := "L", Date := 19884, Title := some "HOM",
    Description := some "Add-To-ZenithPlanner: true\nbring laptop", UpdatedTs := 9,
    IsManagedProperty := false, IsManagedDescription := true, ColorID := none,
    RecurringEventID := none, OriginalStartTime := none }

/-- A managed event whose title is the text "<none>". -/
def evNoneTitle : CachedEvent :=
  { EventID := "N", Date := 19884, Title := some "<none>", Description := none, UpdatedTs := 9,
    IsManagedProperty := true, IsManagedDescription := false, ColorID := some "8",
    RecurringEventID := none, OriginalStartTime := none }

/-- A run in which the schedule upsert fails and every other call succeeds. -/
def upsertFails : Faults := { noFaults with UpsertScheduleEntry := fun _ => true }

/-- Day 2024-06-10 with no cached event and the schedule entry P12GRAN303 /
Office. -/
def dbOfficeNoEvent : Db :=
  { cache := []
    schedule := [{ Date := 19884, LocationCode := "P12GRAN303", Status := "Office" }]
    syncState := [] }

/-- Day 2024-06-10 with the event titled "<none>" and the schedule entry HOM /
Home. -/
def dbNoneTitle : Db :=
  { cache := [evNoneTitle]
    schedule := [{ Date := 19884, LocationCode := "HOM", Status := "Home" }]
    syncState := [] }

/-- Day 2024-06-10 with event B alone in the mirror and no schedule entry. -/
def dbOfficeOnly : Db := { cache := [evB], schedule := [], syncState := [] }

/-- The cancellation of event B as the source delivers it: id and status, no
start. -/
def cancelledB : Event := { zeroEvent with Id := "B", Status := "cancelled" }

/-- Values of `time.Parse(time.RFC3339, ·)` at the timestamps used in the
examples, in seconds since the Unix epoch. -/
def parseRFC3339Sample (s : String) : Option Int :=
  if s == "2024-06-09T10:00:00Z" then some 1717927200
  else if s == "2024-06-09T11:00:00Z" then some 1717930800
  else none

/-- A database whose stored cursor is "t1", with event B in the mirror. -/
def dbCursor : Db := { cache := [evB], schedule := [], syncState := [("syncToken", "t1")] }

/-- A run in which the deletion of a mirror entry fails and every other call
succeeds. -/
def cacheDeleteFails : Faults := { noFaults with DeleteCachedEvent := fun _ => true }

/-- A run in which every calendar delete request is answered with HTTP 500 and
every other call succeeds. -/
def calendarDeleteFails : Faults :=
  { noFaults with EventsDelete := fun _ => DeleteOutcome.apiError 500 }

/-- The stored channel "old-channel", which expires on 2024-06-11 at midnight. -/
def dbChannel : Db :=
  { cache := [], schedule := []
    syncState := [("channelId", "old-channel"), ("resourceId", "old-resource"),
      ("channelExpiration", "2024-06-11T00:00:00Z")] }

/-- The channel the source answers a Watch request with. -/
def newChannel : Channel :=
  { Id := "new-channel", ResourceId := "new-resource", Expiration := 1718668800000 }

/-- Value of `time.Parse(time.RFC3339Nano, ·)` at the expiry of the examples. -/
def parseRFC3339NanoSample (s : String) : Option Time :=
  if s == "2024-06-11T00:00:00Z" then some { day := 19885, nanos := 0 }
  else if s == "2024-06-18T00:00:00Z" then some { day := 19892, nanos := 0 }
  else none

/-- Value of `time.UnixMilli(·).Format(time.RFC3339Nano)` at the expiry of the
examples. -/
def formatUnixMilliSample (ms : Int) : String :=
  if ms = 1718668800000 then "2024-06-18T00:00:00Z" else ""

/-- A run in which the write of the resource id fails and every other call
succeeds. -/
def resourceIdWriteFails : Faults :=
  { noFaults with SetSyncState := fun key _ => key == "resourceId" }

/-- An instance of the recurring series "M", as a full listing with
`SingleEvents(true)` delivers it. -/
def instanceOfM : Event :=
  { zeroEvent with Id := "M_20240610", Status := "confirmed", RecurringEventId := "M" }

/-- An all-day event of 2024-06-10 that carries neither marker, as a listing
delivers it. -/
def dentist : Event :=
  { zeroEvent with
    Id := "U", Status := "confirmed", Summary := "Dentist", Updated := "2024-06-09T10:00:00Z"
    Start := some { Date := "2024-06-10", DateTime := "" }
    End := some { Date := "2024-06-11", DateTime := "" } }

/-- A managed all-day event of 2024-06-10 titled "HOM", as a listing delivers
it, and the mirror row it stands for. -/
def managedHome : Event :=
  { zeroEvent with
    Id := "H", Status := "confirmed", Summary := "HOM", ColorId := "3"
    Updated := "2024-06-09T11:00:00Z"
    Start := some { Date := "2024-06-10", DateTime := "" }
    End := some { Date := "2024-06-11", DateTime := "" }
    ExtendedProperties := some { Private := some [("zenithplanner_managed", "true")] } }

def rowHome : CachedEvent :=
  { EventID := "H", Date := 19884, Title := some "HOM", Description := none,
    UpdatedTs := 1717930800, IsManagedProperty := true, IsManagedDescription := false,
    ColorID := some "3", RecurringEventID := none, OriginalStartTime := none }

/-- The event "H" after the user made it a two-day event titled "P12GRAN303":
still marked as managed, no longer a single-day event. -/
def stretchedHome : Event :=
  { managedHome with
    Summary := "P12GRAN303", ColorId := "5"
    End := some { Date := "2024-06-12", DateTime := "" } }

/-- A database whose mirror holds the row of event "H" as it was before, with
the stored cursor "t1". -/
def dbHome : Db := { cache := [rowHome], schedule := [], syncState := [("syncToken", "t1")] }

/-- The event "H" without its end, and "H" as a timed event. -/
def homeWithoutEnd : Event := { managedHome with End := none }

def timedHome : Event :=
  { managedHome with
    Start := some { Date := "", DateTime := "2024-06-10T09:00:00Z" }
    End := some { Date := "", DateTime := "2024-06-10T17:00:00Z" } }

/-- A run in which the calendar insert fails and every other call succeeds. -/
def insertFails : Faults := { noFaults with EventsInsert := fun _ => true }

/-- An event whose description holds the legacy marker inside a copy of itself. -/
def nestedMarker : Event :=
  { zeroEvent with Id := "X", Description := "Add-To-ZenithPlAdd-To-ZenithPlanner: trueanner: true" }

/-- An event whose description is the legacy marker on a line of its own,
followed by a note. -/
def legacyNote : Event :=
  { zeroEvent with Id := "L", Description := "Add-To-ZenithPlanner: true\nbring laptop" }

/-- A run in which every write of the sync state fails and every other call
succeeds. -/
def cursorWriteFails : Faults := { noFaults with SetSyncState := fun _ _ => true }

/-- An environment with the four required variables and nothing else. -/
def envSample (key : String) : Option String :=
  if key == "GOOGLE_REFRESH_TOKEN" then some "refresh"
  else if key == "WEBHOOK_VERIFICATION_TOKEN" then some "secret"
  else if key == "APP_BASE_URL" then some "https://planner.example"
  else if key == "DB_CONNECTION_STRING" then some "postgres://planner"
  else none

/-- Values of `strconv.Atoi` at the default numbers of the configuration. -/
def atoiSample (s : String) : Option Int :=
  if s == "90" then some 90
  else if s == "30" then some 30
  else if s == "587" then some 587
  else none

/-- The event "H" with blanks and a newline around its title. -/
def paddedHome : Event := { managedHome with Summary := "  HOM \n" }

/-! # Theorems -/

/-! ## Authoritative selection -/

theorem insertionSortSlice_contract : SortSliceContract insertionSortSlice := by
  intro l
  haveI : IsTotal CachedEvent (fun a b => updatedLess b a = false) :=
    ⟨fun a b => by simp only [updatedLess, decide_eq_false_iff_not]; omega⟩
  haveI : IsTrans CachedEvent (fun a b => updatedLess b a = false) :=
    ⟨fun a b c => by simp only [updatedLess, decide_eq_false_iff_not]; omega⟩
  exact ⟨List.perm_insertionSort _ l, List.sorted_insertionSort _ l⟩

/-- Under the contract the head of a sorted non-empty slice is a maximum. -/
theorem sorted_shape (sortSlice : SortSlice) (hs : SortSliceContract sortSlice)
    (m : List CachedEvent) (hm : m ≠ []) :
    ∃ a rest, sortSlice m updatedLess = a :: rest ∧ (a :: rest).Perm m ∧
      ∀ e ∈ rest, e.UpdatedTs ≤ a.UpdatedTs := by
  obtain ⟨hp, hsorted⟩ := hs m
  cases hsm : sortSlice m updatedLess with
  | nil =>
    rw [hsm] at hp
    exact absurd hp.symm.eq_nil hm
  | cons a rest =>
    rw [hsm] at hp hsorted
    refine ⟨a, rest, rfl, hp, ?_⟩
    intro e he
    have := (List.pairwise_cons.mp hsorted).1 e he
    simp only [updatedLess, decide_eq_false_iff_not] at this
    omega

theorem identify_of_managed_ne_nil (sortSlice : SortSlice) (l : List CachedEvent)
    (h : l.filter isManaged ≠ []) :
    identifyAuthoritativeCachedEvent sortSlice l =
      ((sortSlice (l.filter isManaged) updatedLess).head?,
       ((sortSlice (l.filter isManaged) updatedLess).drop 1).map (fun e => e.EventID)) := by
  unfold identifyAuthoritativeCachedEvent
  have : (l.filter isManaged).length > 0 := List.length_pos.mpr h
  simp [this]

theorem identify_of_managed_nil (sortSlice : SortSlice) (l : List CachedEvent)
    (h : l.filter isManaged = []) :
    identifyAuthoritativeCachedEvent sortSlice l = (none, []) := by
  unfold identifyAuthoritativeCachedEvent
  simp [h]

/-- Two descending arrangements of the same events with pairwise distinct
timestamps coincide. -/
theorem sorted_unique (l₁ l₂ : List CachedEvent) (hp : l₁.Perm l₂)
    (hd : l₁.Pairwise (fun a b => a.UpdatedTs ≠ b.UpdatedTs))
    (h₁ : l₁.Pairwise (fun a b => updatedLess b a = false))
    (h₂ : l₂.Pairwise (fun a b => updatedLess b a = false)) : l₁ = l₂ := by
  have hd₂ : l₂.Pairwise (fun a b => a.UpdatedTs ≠ b.UpdatedTs) :=
    (hp.pairwise_iff (fun {a b} h => Ne.symm h)).mp hd
  have strict : ∀ l : List CachedEvent,
      l.Pairwise (fun a b => a.UpdatedTs ≠ b.UpdatedTs) →
      l.Pairwise (fun a b => updatedLess b a = false) →
      l.Pairwise (fun a b => b.UpdatedTs < a.UpdatedTs) := by
    intro l hne hle
    refine (hne.and hle).imp ?_
    intro a b hab
    have h2 := hab.2
    simp only [updatedLess, decide_eq_false_iff_not] at h2
    have h1 := hab.1
    omega
  haveI : IsAntisymm CachedEvent (fun a b => b.UpdatedTs < a.UpdatedTs) :=
    ⟨fun a b h h' => absurd h (not_lt.mpr (le_of_lt h'))⟩
  exact List.eq_of_perm_of_sorted hp (strict l₁ hd h₁) (strict l₂ hd₂ h₂)

/-- Claim C1. For a list of managed cached events whose last-updated timestamps
are pairwise distinct, and any permutation of it, `identifyAuthoritativeCachedEvent`
returns the same result: the authoritative event is the one with the latest
timestamp and the duplicate ids are the ids of all the other events. -/
theorem identifyAuthoritativeCachedEvent_order_independent
    (sortSlice : SortSlice) (hs : SortSliceContract sortSlice)
    (l l' : List CachedEvent) (hperm : l'.Perm l)
    (hman : ∀ e ∈ l, isManaged e = true)
    (hdist : l.Pairwise (fun a b => a.UpdatedTs ≠ b.UpdatedTs)) :
    identifyAuthoritativeCachedEvent sortSlice l' = identifyAuthoritativeCachedEvent sortSlice l ∧
    (l = [] → identifyAuthoritativeCachedEvent sortSlice l = (none, [])) ∧
    (l ≠ [] → ∃ a rest,
      identifyAuthoritativeCachedEvent sortSlice l = (some a, rest.map (fun e => e.EventID)) ∧
      (a :: rest).Perm l ∧ ∀ e ∈ rest, e.UpdatedTs < a.UpdatedTs) := by
  have hfl : l.filter isManaged = l := List.filter_eq_self.mpr hman
  have hfl' : l'.filter isManaged = l' :=
    List.filter_eq_self.mpr (fun e he => hman e (hperm.subset he))
  refine ⟨?_, ?_, ?_⟩
  · by_cases hl : l = []
    · subst hl
      have : l' = [] := hperm.eq_nil
      subst this
      rfl
    · have hl' : l' ≠ [] := fun h => hl (by rw [h] at hperm; exact hperm.symm.eq_nil)
      rw [identify_of_managed_ne_nil sortSlice l (by rw [hfl]; exact hl),
        identify_of_managed_ne_nil sortSlice l' (by rw [hfl']; exact hl'), hfl, hfl']
      obtain ⟨hp, hsorted⟩ := hs l
      obtain ⟨hp', hsorted'⟩ := hs l'
      have hdl' : (sortSlice l' updatedLess).Pairwise (fun a b => a.UpdatedTs ≠ b.UpdatedTs) :=
        ((hp'.trans hperm).pairwise_iff (fun {a b} h => Ne.symm h)).mpr hdist
      have := sorted_unique _ _ ((hp'.trans hperm).trans hp.symm) hdl' hsorted' hsorted
      rw [this]
  · intro hl
    subst hl
    rfl
  · intro hl
    obtain ⟨a, rest, hsm, hp, hmax⟩ := sorted_shape sortSlice hs l hl
    refine ⟨a, rest, ?_, hp, ?_⟩
    · rw [identify_of_managed_ne_nil sortSlice l (by rw [hfl]; exact hl), hfl, hsm]
      rfl
    · intro e he
      have hd : (a :: rest).Pairwise (fun a b => a.UpdatedTs ≠ b.UpdatedTs) :=
        (hp.pairwise_iff (fun {a b} h => Ne.symm h)).mpr hdist
      have hne := (List.pairwise_cons.mp hd).1 e he
      have hle := hmax e he
      omega

theorem identifyAuthoritativeCachedEvent_order_independent_witness :
    identifyAuthoritativeCachedEvent insertionSortSlice [evB, evA] =
      identifyAuthoritativeCachedEvent insertionSortSlice [evA, evB] ∧
    identifyAuthoritativeCachedEvent insertionSortSlice [evA, evB] = (some evB, ["A"]) :=
  ⟨(identifyAuthoritativeCachedEvent_order_independent insertionSortSlice
      insertionSortSlice_contract [evA, evB] [evB, evA] (by decide) (by decide) (by decide)).1,
    by decide⟩

/-- Claim C2. With no managed event the result is no authoritative event and no
duplicates. Otherwise the authoritative event is a managed event of the list
whose timestamp is not earlier than that of any managed event, and the
duplicates are the ids of the remaining managed events, one per remaining
event; unmanaged events are neither authoritative nor listed. Ties allowed. -/
theorem identifyAuthoritativeCachedEvent_spec
    (sortSlice : SortSlice) (hs : SortSliceContract sortSlice) (l : List CachedEvent) :
    ((∀ e ∈ l, isManaged e = false) →
      identifyAuthoritativeCachedEvent sortSlice l = (none, [])) ∧
    ((∃ e ∈ l, isManaged e = true) → ∃ a rest,
      identifyAuthoritativeCachedEvent sortSlice l = (some a, rest.map (fun e => e.EventID)) ∧
      (a :: rest).Perm (l.filter isManaged) ∧
      (a ∈ l ∧ isManaged a = true) ∧
      (∀ e ∈ rest, e ∈ l ∧ isManaged e = true) ∧
      (∀ e ∈ l, isManaged e = true → e.UpdatedTs ≤ a.UpdatedTs)) := by
  constructor
  · intro h
    apply identify_of_managed_nil
    rw [List.filter_eq_nil_iff]
    intro e he
    simp [h e he]
  · rintro ⟨e₀, he₀, hm₀⟩
    have hne : l.filter isManaged ≠ [] :=
      List.ne_nil_of_mem (List.mem_filter.mpr ⟨he₀, hm₀⟩)
    obtain ⟨a, rest, hsm, hp, hmax⟩ := sorted_shape sortSlice hs _ hne
    refine ⟨a, rest, ?_, hp, ?_, ?_, ?_⟩
    · rw [identify_of_managed_ne_nil sortSlice l hne, hsm]
      rfl
    · have : a ∈ l.filter isManaged := hp.subset (List.mem_cons_self a rest)
      exact List.mem_filter.mp this
    · intro e he
      have : e ∈ l.filter isManaged := hp.subset (List.mem_cons_of_mem a he)
      exact List.mem_filter.mp this
    · intro e he hm
      have : e ∈ a :: rest := hp.symm.subset (List.mem_filter.mpr ⟨he, hm⟩)
      rcases List.mem_cons.mp this with h | h
      · rw [h]
      · exact hmax e h

theorem identifyAuthoritativeCachedEvent_spec_witness :
    identifyAuthoritativeCachedEvent insertionSortSlice [evU] = (none, []) ∧
    identifyAuthoritativeCachedEvent insertionSortSlice [evU, evA, evB] = (some evB, ["A"]) :=
  ⟨(identifyAuthoritativeCachedEvent_spec insertionSortSlice insertionSortSlice_contract
      [evU]).1 (by decide), by decide⟩

/-! ## Status classifier -/

namespace Regex

theorem run_anchored (r : Regex) (atStart : Bool) (s : List Char) (k : Bool → List Char → Bool) :
    run (cat beginText r) atStart s k = (atStart && run r atStart s k) := by
  simp [run]

theorem search_anchored_false (r : Regex) (s : List Char) :
    search (cat beginText r) false s = false := by
  induction s with
  | nil => simp [search, run]
  | cons c cs ih => simp [search, run, ih]

theorem MatchString_anchored (r : Regex) (s : String) :
    MatchString (cat beginText r) s = run r true s.data (fun _ _ => true) := by
  unfold MatchString
  cases h : s.data with
  | nil => simp [search, run]
  | cons c cs => simp [search, run, search_anchored_false]

theorem starRun_true (p : Char → Bool) (atStart : Bool) (s : List Char) :
    starRun p (fun _ _ => true) atStart s = true := by
  cases s <;> simp [starRun]

/-- What `x*` followed by a position-blind continuation accepts. -/
theorem starRun_iff (p : Char → Bool) (k : Bool → List Char → Bool)
    (hk : ∀ b s, k b s = k false s) (atStart : Bool) (s : List Char) :
    starRun p k atStart s = true ↔
      ∃ pre post, s = pre ++ post ∧ (∀ c ∈ pre, p c = true) ∧ k false post = true := by
  induction s generalizing atStart with
  | nil =>
    simp only [starRun]
    rw [hk]
    constructor
    · intro h
      exact ⟨[], [], rfl, by simp, h⟩
    · rintro ⟨pre, post, h, -, hk'⟩
      have : post = [] := by
        cases pre <;> simp_all
      rw [this] at hk'
      exact hk'
  | cons c cs ih =>
    simp only [starRun, Bool.or_eq_true, Bool.and_eq_true]
    rw [hk, ih false]
    constructor
    · rintro (h | ⟨hp, pre, post, hs, hall, hk'⟩)
      · exact ⟨[], c :: cs, rfl, by simp, h⟩
      · refine ⟨c :: pre, post, by simp [hs], ?_, hk'⟩
        intro x hx
        rcases List.mem_cons.mp hx with h | h
        · rw [h]; exact hp
        · exact hall x h
    · rintro ⟨pre, post, hs, hall, hk'⟩
      cases pre with
      | nil =>
        left
        simp only [List.nil_append] at hs
        rw [hs]
        exact hk'
      | cons a pre =>
        right
        simp only [List.cons_append, List.cons.injEq] at hs
        obtain ⟨rfl, rfl⟩ := hs
        exact ⟨hall _ (List.mem_cons_self _ _), pre, post, rfl,
          fun x hx => hall x (List.mem_cons_of_mem _ hx), hk'⟩

end Regex

theorem homeRegex_iff (s : String) : homeRegex.MatchString s = true ↔ s = "HOM" := by
  rw [homeRegex, Regex.MatchString_anchored, String.ext_iff]
  rcases s.data with _ | ⟨a, _ | ⟨b, _ | ⟨c, _ | ⟨d, t⟩⟩⟩⟩ <;>
    simp [Regex.run, Regex.lit]

theorem vacationRegex_iff (s : String) : vacationRegex.MatchString s = true ↔ s = "V" := by
  rw [vacationRegex, Regex.MatchString_anchored, String.ext_iff]
  rcases s.data with _ | ⟨a, _ | ⟨b, t⟩⟩ <;> simp [Regex.run, Regex.lit]

theorem libraryRegex_iff (s : String) :
    libraryRegex.MatchString s = true ↔ ∃ rest : String, s = "LIB" ++ rest := by
  rw [libraryRegex, Regex.MatchString_anchored]
  constructor
  · intro h
    rcases hs : s.data with _ | ⟨a, _ | ⟨b, _ | ⟨c, t⟩⟩⟩ <;> rw [hs] at h <;>
      simp [Regex.run, Regex.lit] at h
    refine ⟨⟨t⟩, ?_⟩
    rw [String.ext_iff, hs, String.data_append]
    obtain ⟨rfl, rfl, rfl, -⟩ := h
    rfl
  · rintro ⟨rest, rfl⟩
    rw [String.data_append]
    simp [Regex.run, Regex.lit, Regex.starRun_true]

theorem three_digits_iff (post : List Char) :
    Regex.run (Regex.repThen Char.isDigit 3 Regex.endText) false post (fun _ _ => true) = true ↔
      ∃ d₃ d₄ d₅ : Char, d₃.isDigit = true ∧ d₄.isDigit = true ∧ d₅.isDigit = true ∧
        post = [d₃, d₄, d₅] := by
  rcases post with _ | ⟨a, _ | ⟨b, _ | ⟨c, _ | ⟨d, t⟩⟩⟩⟩ <;>
    simp [Regex.run, Regex.repThen]
  constructor
  · rintro ⟨ha, hb, hc⟩
    exact ⟨a, ha, b, hb, c, hc, rfl, rfl, rfl⟩
  · rintro ⟨_, h₁, _, h₂, _, h₃, rfl, rfl, rfl⟩
    exact ⟨h₁, h₂, h₃⟩

theorem officeRegex_iff (s : String) : officeRegex.MatchString s = true ↔ IsOfficeCode s := by
  rw [officeRegex, Regex.MatchString_anchored, IsOfficeCode]
  have key : ∀ rest : List Char,
      Regex.starRun Char.isUpper
          (fun atStart' s' => Regex.run (Regex.repThen Char.isDigit 3 Regex.endText)
            atStart' s' (fun _ _ => true)) false rest = true ↔
        ∃ pre post, rest = pre ++ post ∧ (∀ c ∈ pre, c.isUpper = true) ∧
          Regex.run (Regex.repThen Char.isDigit 3 Regex.endText) false post
            (fun _ _ => true) = true := by
    intro rest
    apply Regex.starRun_iff
    intro b t
    rcases t with _ | ⟨a, t⟩ <;> simp [Regex.run, Regex.repThen]
  constructor
  · intro h
    rcases hs : s.data with _ | ⟨p, _ | ⟨d₁, _ | ⟨d₂, _ | ⟨u, rest⟩⟩⟩⟩ <;> rw [hs] at h <;>
      simp [Regex.run, Regex.lit, Regex.repThen, Regex.plus] at h
    obtain ⟨rfl, h₁, h₂, hu, hstar⟩ := h
    have hstar' := (key rest).mp (by simpa [Regex.run, Regex.repThen] using hstar)
    obtain ⟨pre, post, rfl, hall, hpost⟩ := hstar'
    obtain ⟨d₃, d₄, d₅, h₃, h₄, h₅, rfl⟩ := (three_digits_iff post).mp hpost
    refine ⟨d₁, d₂, u :: pre, d₃, d₄, d₅, h₁, h₂, by simp, ?_, h₃, h₄, h₅, by simp⟩
    intro c hc
    rcases List.mem_cons.mp hc with h | h
    · rw [h]; exact hu
    · exact hall c h
  · rintro ⟨d₁, d₂, letters, d₃, d₄, d₅, h₁, h₂, hne, hall, h₃, h₄, h₅, hs⟩
    rw [hs]
    cases letters with
    | nil => exact absurd rfl hne
    | cons u pre =>
      have hk := (key (pre ++ [d₃, d₄, d₅])).mpr
        ⟨pre, [d₃, d₄, d₅], rfl, fun c hc => hall c (List.mem_cons_of_mem _ hc),
          (three_digits_iff _).mpr ⟨d₃, d₄, d₅, h₃, h₄, h₅, rfl⟩⟩
      have hu := hall u (List.mem_cons_self _ _)
      simp only [Regex.run, Regex.lit, Regex.repThen, Regex.plus, List.cons_append,
        beq_self_eq_true, Bool.true_and, h₁, h₂, hu]
      exact hk

/-- Claim C9. `DetermineStatus` is a total function whose value is Home exactly
for "HOM", Vacation exactly for "V", Office exactly for the letter P followed by
two decimal digits, one or more upper-case ASCII letters and three decimal
digits, Library exactly for the strings that begin with "LIB", and Unknown for
every other string. -/
theorem DetermineStatus_spec (s : String) :
    (DetermineStatus s = StatusHome ↔ s = "HOM") ∧
    (DetermineStatus s = StatusVacation ↔ s = "V") ∧
    (DetermineStatus s = StatusOffice ↔ IsOfficeCode s) ∧
    (DetermineStatus s = StatusLibrary ↔ ∃ rest : String, s = "LIB" ++ rest) ∧
    (DetermineStatus s = StatusUnknown ↔
      ¬ (s = "HOM" ∨ s = "V" ∨ IsOfficeCode s ∨ ∃ rest : String, s = "LIB" ++ rest)) := by
  have hH := homeRegex_iff s
  have hV := vacationRegex_iff s
  have hO := officeRegex_iff s
  have hL := libraryRegex_iff s
  have hHV : s = "HOM" → s ≠ "V" := by rintro rfl; decide
  have hHO : s = "HOM" → ¬ IsOfficeCode s := by
    rintro rfl ⟨d₁, d₂, letters, d₃, d₄, d₅, -, -, -, -, -, -, -, hs⟩
    simp at hs
  have hHL : s = "HOM" → ¬ ∃ rest : String, s = "LIB" ++ rest := by
    rintro rfl ⟨rest, h⟩
    rw [String.ext_iff, String.data_append] at h
    simp at h
  have hVO : s = "V" → ¬ IsOfficeCode s := by
    rintro rfl ⟨d₁, d₂, letters, d₃, d₄, d₅, -, -, -, -, -, -, -, hs⟩
    simp at hs
  have hVL : s = "V" → ¬ ∃ rest : String, s = "LIB" ++ rest := by
    rintro rfl ⟨rest, h⟩
    rw [String.ext_iff, String.data_append] at h
    simp at h
  have hOL : IsOfficeCode s → ¬ ∃ rest : String, s = "LIB" ++ rest := by
    rintro ⟨d₁, d₂, letters, d₃, d₄, d₅, -, -, -, -, -, -, -, hs⟩ ⟨rest, h⟩
    rw [h, String.data_append] at hs
    simp at hs
  have c1 : StatusHome ≠ StatusVacation := by decide
  have c2 : StatusHome ≠ StatusOffice := by decide
  have c3 : StatusHome ≠ StatusLibrary := by decide
  have c4 : StatusHome ≠ StatusUnknown := by decide
  have c5 : StatusVacation ≠ StatusOffice := by decide
  have c6 : StatusVacation ≠ StatusLibrary := by decide
  have c7 : StatusVacation ≠ StatusUnknown := by decide
  have c8 : StatusOffice ≠ StatusLibrary := by decide
  have c9 : StatusOffice ≠ StatusUnknown := by decide
  have c10 : StatusLibrary ≠ StatusUnknown := by decide
  unfold DetermineStatus
  by_cases h1 : homeRegex.MatchString s = true
  · have e := hH.mp h1
    simp only [h1, if_true]
    exact ⟨by simp [e], by simp [c1, hHV e], by simp [c2, hHO e], by simp [c3, hHL e],
      by simp [c4, e]⟩
  · have e : ¬ s = "HOM" := fun h => h1 (hH.mpr h)
    simp only [h1]
    by_cases h2 : vacationRegex.MatchString s = true
    · have e2 := hV.mp h2
      simp only [h2, if_true]
      exact ⟨by simp [c1.symm, e], by simp [e2], by simp [c5, hVO e2], by simp [c6, hVL e2],
        by simp [c7, e2]⟩
    · have e2 : ¬ s = "V" := fun h => h2 (hV.mpr h)
      simp only [h2]
      by_cases h3 : officeRegex.MatchString s = true
      · have e3 := hO.mp h3
        simp only [h3, if_true]
        exact ⟨by simp [c2.symm, e], by simp [c5.symm, e2], by simp [e3],
          by simp [c8]; exact fun r => fun h => hOL e3 ⟨r, h⟩, by simp [c9, e3]⟩
      · have e3 : ¬ IsOfficeCode s := fun h => h3 (hO.mpr h)
        simp only [h3]
        by_cases h4 : libraryRegex.MatchString s = true
        · have e4 := hL.mp h4
          simp only [h4, if_true]
          exact ⟨by simp [c3.symm, e], by simp [c6.symm, e2], by simp [c8.symm, e3],
            by simp; exact e4, by simp [c10]; intro _ _ _; exact e4⟩
        · have e4 : ¬ ∃ rest : String, s = "LIB" ++ rest := fun h => h4 (hL.mpr h)
          simp only [h4]
          exact ⟨by simp [c4.symm, e], by simp [c7.symm, e2], by simp [c9.symm, e3],
            by simp [c10.symm]; exact fun r h => e4 ⟨r, h⟩, by simp; exact ⟨e, e2, e3, fun r h => e4 ⟨r, h⟩⟩⟩

/-! ## Reconciliation of one date -/

theorem GetScheduleEntry_upsert (db : Db) (e : ScheduleEntry) :
    GetScheduleEntry (UpsertScheduleEntry db e) e.Date = some e := by
  simp [GetScheduleEntry, UpsertScheduleEntry]

theorem GetScheduleEntry_upsert_target (s : Syncer) (db : Db) (date : Int)
    (auth : Option CachedEvent) :
    GetScheduleEntry (UpsertScheduleEntry db (targetEntry s date auth)) date =
      some (targetEntry s date auth) :=
  GetScheduleEntry_upsert db (targetEntry s date auth)

theorem GetScheduleEntry_date (db : Db) (date : Int) (e : ScheduleEntry)
    (h : GetScheduleEntry db date = some e) : e.Date = date := by
  have := List.find?_some h
  simpa using this

/-- Whether `coreReconciliationLogic` finds the stored entry different from the
target (`needsDbUpdate`). -/
theorem needsDbUpdate_false_iff (db : Db) (date : Int) (target : ScheduleEntry)
    (ht : target.Date = date) :
    (match GetScheduleEntry db date with
      | none => true
      | some e => e.LocationCode != target.LocationCode || e.Status != target.Status) = false ↔
    GetScheduleEntry db date = some target := by
  cases h : GetScheduleEntry db date with
  | none => simp
  | some e =>
    have hd := GetScheduleEntry_date db date e h
    cases e with
    | mk d c st =>
      cases target with
      | mk d' c' st' =>
        simp only [] at hd ht
        subst hd
        subst ht
        simp

/-- The database `coreReconciliationLogic` leaves, its `dbChanged` flag, its
error and its schedule upserts, when called as `runSingleReconciliation` calls
it. -/
theorem core_schedule (s : Syncer) (f : Faults) (db : Db) (date : Int)
    (auth : Option CachedEvent) :
    let r := coreReconciliationLogic s f db date auth (GetScheduleEntry db date)
    let target := targetEntry s date auth
    r.finalLocationCode = targetCode s auth ∧
    (GetScheduleEntry db date = some target →
      r.db = db ∧ scheduleUpserts r.ops = [] ∧ r.dbChanged = false ∧
      r.err ≠ some Err.updateScheduleEntry) ∧
    (GetScheduleEntry db date ≠ some target → f.UpsertScheduleEntry target = true →
      r.db = db ∧ scheduleUpserts r.ops = [target] ∧ r.dbChanged = false ∧
      r.err = some Err.updateScheduleEntry) ∧
    (GetScheduleEntry db date ≠ some target → f.UpsertScheduleEntry target = false →
      r.db = UpsertScheduleEntry db target ∧ scheduleUpserts r.ops = [target] ∧
      (r.err = none → r.dbChanged = true) ∧ r.err ≠ some Err.updateScheduleEntry) := by
  intro r target
  have hn := needsDbUpdate_false_iff db date target rfl
  refine ⟨?_, ?_, ?_, ?_⟩
  · simp only [r, coreReconciliationLogic, targetCode]
    cases auth <;> (repeat' split) <;> rfl
  · intro h
    have hn' := hn.mpr h
    simp only [target, targetEntry, targetCode] at hn'
    simp only [r, coreReconciliationLogic]
    cases auth <;> simp only [hn'] <;> (repeat' split) <;>
      simp_all [scheduleUpserts]
  · intro h hf
    have hn' : ¬ _ := fun x => h (hn.mp x)
    simp only [target, targetEntry, targetCode, Bool.not_eq_false] at hn' hf
    simp only [r, coreReconciliationLogic]
    cases auth <;> simp only [hn', hf] <;> simp [scheduleUpserts, target, targetEntry, targetCode]
  · intro h hf
    have hn' : ¬ _ := fun x => h (hn.mp x)
    simp only [target, targetEntry, targetCode, Bool.not_eq_false] at hn' hf
    simp only [r, coreReconciliationLogic]
    cases auth <;> simp only [hn', hf] <;> (repeat' split) <;>
      simp_all [scheduleUpserts, target, targetEntry, targetCode]

theorem runSingle_queryCache_fails (s : Syncer) (f : Faults) (db : Db) (date : Int)
    (h : f.GetCachedEventsByDate date = true) :
    runSingleReconciliation s f db date =
      { locationDiff := "", err := some Err.queryCache, db := db, ops := [] } := by
  simp [runSingleReconciliation, h]

theorem runSingle_fetchSchedule_fails (s : Syncer) (f : Faults) (db : Db) (date : Int)
    (h₁ : f.GetCachedEventsByDate date = false) (h₂ : f.GetScheduleEntry date = true) :
    runSingleReconciliation s f db date =
      { locationDiff := "", err := some Err.fetchScheduleEntry, db := db,
        ops := deleteEventsFromCalendar f
          (identifyAuthoritativeCachedEvent s.sortSlice (GetCachedEventsByDate db date)).2 } := by
  simp [runSingleReconciliation, h₁, h₂, cleanUpDuplicates]

/-- The result of `runSingleReconciliation` when both reads succeed, in terms
of the result of `coreReconciliationLogic`. -/
theorem runSingle_reads_ok (s : Syncer) (f : Faults) (db : Db) (date : Int)
    (h₁ : f.GetCachedEventsByDate date = false) (h₂ : f.GetScheduleEntry date = false) :
    let r := runSingleReconciliation s f db date
    let c := coreReconciliationLogic s f db date (authoritativeFor s db date)
      (GetScheduleEntry db date)
    r.db = c.db ∧ r.err = c.err ∧
    r.ops = deleteEventsFromCalendar f
      (identifyAuthoritativeCachedEvent s.sortSlice (GetCachedEventsByDate db date)).2 ++ c.ops ∧
    r.locationDiff =
      (if c.err.isSome then ""
       else if c.dbChanged && previousCode s db date != c.finalLocationCode &&
          ((authoritativeFor s db date).isSome ||
            c.finalLocationCode != s.cfg.DefaultLocationCode) then
         (if (authoritativeFor s db date).isNone then "<none>" else previousCode s db date)
           ++ " → " ++ c.finalLocationCode
       else "") := by
  intro r c
  simp only [r, c, runSingleReconciliation, h₁, h₂, cleanUpDuplicates, authoritativeFor,
    previousCode, Bool.false_eq_true, if_false]
  generalize coreReconciliationLogic s f db date _ _ = c'
  cases h : c'.err.isSome <;> simp [h]
  cases he : c'.err with
  | none => rfl
  | some e => rw [he] at h; simp at h

theorem err_of_reads (s : Syncer) (f : Faults) (db : Db) (date : Int)
    (hq : (runSingleReconciliation s f db date).err ≠ some Err.queryCache)
    (hf : (runSingleReconciliation s f db date).err ≠ some Err.fetchScheduleEntry) :
    f.GetCachedEventsByDate date = false ∧ f.GetScheduleEntry date = false := by
  cases h₁ : f.GetCachedEventsByDate date with
  | true => rw [runSingle_queryCache_fails s f db date h₁] at hq; exact absurd rfl hq
  | false =>
    cases h₂ : f.GetScheduleEntry date with
    | true => rw [runSingle_fetchSchedule_fails s f db date h₁ h₂] at hf; exact absurd rfl hf
    | false => exact ⟨rfl, rfl⟩

/-- Claim C3. When `runSingleReconciliation` has passed its schedule-store step
without a storage error (neither of the two reads nor the schedule upsert
failed), the schedule entry stored for the date has as location code the title
of the authoritative managed event of the date if there is one and the
configured default code otherwise, and as status `DetermineStatus` of that code. -/
theorem runSingleReconciliation_schedule_entry (s : Syncer) (f : Faults) (db : Db) (date : Int)
    (hq : (runSingleReconciliation s f db date).err ≠ some Err.queryCache)
    (hf : (runSingleReconciliation s f db date).err ≠ some Err.fetchScheduleEntry)
    (hu : (runSingleReconciliation s f db date).err ≠ some Err.updateScheduleEntry) :
    GetScheduleEntry (runSingleReconciliation s f db date).db date =
      some { Date := date
             LocationCode :=
               match authoritativeFor s db date with
               | some a => derefString a.Title
               | none => s.cfg.DefaultLocationCode
             Status := DetermineStatus
               (match authoritativeFor s db date with
                | some a => derefString a.Title
                | none => s.cfg.DefaultLocationCode) } := by
  obtain ⟨h₁, h₂⟩ := err_of_reads s f db date hq hf
  obtain ⟨hdb, herr, -, -⟩ := runSingle_reads_ok s f db date h₁ h₂
  obtain ⟨-, hsame, hfail, hok⟩ := core_schedule s f db date (authoritativeFor s db date)
  rw [herr] at hu
  rw [hdb]
  change _ = some (targetEntry s date (authoritativeFor s db date))
  by_cases hcur : GetScheduleEntry db date = some (targetEntry s date (authoritativeFor s db date))
  · rw [(hsame hcur).1, hcur]
  · cases hup : f.UpsertScheduleEntry (targetEntry s date (authoritativeFor s db date)) with
    | true => exact absurd (hfail hcur hup).2.2.2 hu
    | false =>
      rw [(hok hcur hup).1]
      exact GetScheduleEntry_upsert db _

theorem runSingleReconciliation_schedule_entry_witness :
    GetScheduleEntry (runSingleReconciliation syncerHOM noFaults dbScenario 19884).db 19884 =
      some { Date := 19884, LocationCode := "P12GRAN303", Status := "Office" } :=
  (runSingleReconciliation_schedule_entry syncerHOM noFaults dbScenario 19884
    (by decide) (by decide) (by decide)).trans (by decide)

/-! ### Merging patches -/

theorem lookup_cons_eq (a b k : String) (es : List (String × String)) :
    ((a, b) :: es).lookup k = if k = a then some b else es.lookup k := by
  by_cases h : k = a
  · subst h; simp [List.lookup]
  · have : (k == a) = false := by simpa using h
    simp [List.lookup, this, h]

theorem lookup_map_replace (m : List (String × String)) (k v k' : String) :
    (m.map (fun kv => if kv.1 == k then (k, v) else kv)).lookup k' =
      if k' = k then (m.lookup k).map (fun _ => v) else m.lookup k' := by
  induction m with
  | nil => simp
  | cons kv rest ih =>
    obtain ⟨a, b⟩ := kv
    rw [List.map_cons]
    by_cases hak : a = k
    · subst hak
      rw [if_pos (by simp)]
      simp only [lookup_cons_eq, ih]
      by_cases hk : k' = a
      · subst hk; simp
      · simp [hk]
    · have hak' : ¬ ((a, b).1 == k) = true := by simpa using hak
      rw [if_neg hak']
      simp only [lookup_cons_eq, ih]
      by_cases hk : k' = k
      · subst hk
        have : ¬ k' = a := fun h => hak h.symm
        simp [this]
      · simp [hk]

theorem lookup_append_single (m : List (String × String)) (k v k' : String) :
    (m ++ [(k, v)]).lookup k' =
      match m.lookup k' with
      | some x => some x
      | none => if k' = k then some v else none := by
  induction m with
  | nil => simp [lookup_cons_eq]
  | cons kv rest ih =>
    obtain ⟨a, b⟩ := kv
    rw [List.cons_append, lookup_cons_eq, lookup_cons_eq, ih]
    by_cases hka : k' = a <;> simp [hka]

theorem lookup_mapSet_self (m : List (String × String)) (k v : String) :
    (mapSet m k v).lookup k = some v := by
  unfold mapSet
  cases h : m.lookup k with
  | none => simp [lookup_append_single, h]
  | some x =>
    simp only [Option.isSome_some, if_true]
    rw [lookup_map_replace]
    simp [h]

theorem lookup_mapSet_ne (m : List (String × String)) (k v k' : String) (hne : k' ≠ k) :
    (mapSet m k v).lookup k' = m.lookup k' := by
  unfold mapSet
  cases h : m.lookup k with
  | none =>
    simp only [Option.isSome_none, Bool.false_eq_true, if_false, lookup_append_single, hne]
    cases m.lookup k' <;> rfl
  | some x =>
    simp only [Option.isSome_some, if_true]
    rw [lookup_map_replace]
    simp [hne]

theorem lookup_foldl_mapSet_of_not_mem (m2 : List (String × String)) (m1 : List (String × String))
    (k : String) (h : k ∉ m2.map Prod.fst) :
    (m2.foldl (fun acc kv => mapSet acc kv.1 kv.2) m1).lookup k = m1.lookup k := by
  induction m2 generalizing m1 with
  | nil => rfl
  | cons kv rest ih =>
    simp only [List.map_cons, List.mem_cons, not_or] at h
    simp only [List.foldl_cons]
    rw [ih _ h.2, lookup_mapSet_ne _ _ _ _ h.1]

theorem lookup_foldl_mapSet (m2 : List (String × String)) (m1 : List (String × String))
    (hnd : (m2.map Prod.fst).Nodup) (k v : String) (hkv : (k, v) ∈ m2) :
    (m2.foldl (fun acc kv => mapSet acc kv.1 kv.2) m1).lookup k = some v := by
  induction m2 generalizing m1 with
  | nil => simp at hkv
  | cons kv rest ih =>
    simp only [List.map_cons, List.nodup_cons] at hnd
    simp only [List.foldl_cons]
    rcases List.mem_cons.mp hkv with h | h
    · subst h
      rw [lookup_foldl_mapSet_of_not_mem _ _ _ hnd.1, lookup_mapSet_self]
    · exact ih _ hnd.2 h

/-- What `mergeEventPatches` keeps of each patch: a field the second patch sets
explicitly (a non-empty value, or a force-sent one) takes the value of the
second patch, any other keeps the value of the first; every private property
of the second patch is in the merged patch. -/
theorem mergeEventPatches_later_wins (p1 p2 : Event) :
    ∃ m, mergeEventPatches (some p1) (some p2) = some m ∧
      m.ColorId =
        (if p2.ColorId != "" || contains p2.ForceSendFields "ColorId" then p2.ColorId
         else p1.ColorId) ∧
      m.Description =
        (if p2.Description != "" || contains p2.ForceSendFields "Description" then
           p2.Description
         else p1.Description) ∧
      (∀ m2, p2.ExtendedProperties.bind (fun ep => ep.Private) = some m2 →
        (m2.map Prod.fst).Nodup → ∀ k v, (k, v) ∈ m2 →
        (m.ExtendedProperties.bind (fun ep => ep.Private)).bind (fun priv => priv.lookup k) =
          some v) := by
  simp only [mergeEventPatches]
  generalize (p2.ColorId != "" || contains p2.ForceSendFields "ColorId") = c
  generalize (p2.Description != "" || contains p2.ForceSendFields "Description") = d
  refine ⟨_, rfl, ?_, ?_, ?_⟩
  · cases hep : p2.ExtendedProperties with
    | none => cases c <;> cases d <;> rfl
    | some ep =>
      obtain ⟨priv⟩ := ep
      cases priv <;> cases c <;> cases d <;> rfl
  · cases hep : p2.ExtendedProperties with
    | none => cases c <;> cases d <;> rfl
    | some ep =>
      obtain ⟨priv⟩ := ep
      cases priv <;> cases c <;> cases d <;> rfl
  · intro m2 hm2 hnd k v hkv
    cases hep : p2.ExtendedProperties with
    | none => rw [hep] at hm2; simp at hm2
    | some ep =>
      obtain ⟨priv⟩ := ep
      rw [hep] at hm2
      change priv = some m2 at hm2
      subst hm2
      exact lookup_foldl_mapSet _ _ hnd k v hkv

/-- The patch computed for an authoritative event: none when nothing needs
correcting, otherwise the one patch carrying every needed correction. -/
theorem metadataPatch_eq (s : Syncer) (a : CachedEvent) :
    metadataPatch s a (!a.IsManagedProperty) a.IsManagedDescription
        (derefString a.ColorID != configuredColor s a)
        (DetermineStatus (derefString a.Title)) =
      if a.IsManagedProperty && !legacyMarkerPresent a &&
          derefString a.ColorID == configuredColor s a then none
      else some (correctionPatch s a) := by
  unfold correctionPatch legacyMarkerPresent configuredColor metadataPatch
    RemoveDescriptionTag HasDescriptionTag SetColor AddManagedProperty HasManagedProperty
    strippedDescription
  dsimp only [zeroEvent]
  generalize stringsTrimSpace _ = d
  generalize colorOf s.colorMap _ = expected
  generalize stringsContains (derefString a.Description) descriptionTag = tagged
  generalize derefString a.ColorID = color
  cases a.IsManagedProperty <;> cases a.IsManagedDescription <;> cases tagged <;>
    by_cases hc : color = expected <;>
    simp [mergeEventPatches, zeroEvent, hc, appendIfMissing, contains]

/-- Claim C5, as amended. For an authoritative event `coreReconciliationLogic`
issues at most one patch request. Unless the schedule upsert failed (the
function then returns before patching), and the event id being non-empty: no
patch when the managed marker is present, the legacy marker absent and the
color the configured one; otherwise exactly one patch, which sets the private
marker to "true" if it was missing, the description to the stripped one
(force-sent) if the legacy marker was present, and the color to the configured
one (force-sent) if it differed. In the merge of two patches, a value the later
patch sets explicitly replaces the value of the earlier one. -/
theorem coreReconciliationLogic_single_patch (s : Syncer) (f : Faults) (db : Db) (date : Int)
    (a : CachedEvent) (currentDbEntry : Option ScheduleEntry) :
    (patchRequests (coreReconciliationLogic s f db date (some a) currentDbEntry).ops).length ≤ 1 ∧
    ((coreReconciliationLogic s f db date (some a) currentDbEntry).err ≠
        some Err.updateScheduleEntry → a.EventID ≠ "" →
      patchRequests (coreReconciliationLogic s f db date (some a) currentDbEntry).ops =
        if a.IsManagedProperty && !legacyMarkerPresent a &&
            derefString a.ColorID == configuredColor s a then []
        else [(a.EventID, correctionPatch s a)]) ∧
    (∀ p1 p2 : Event, ∃ m, mergeEventPatches (some p1) (some p2) = some m ∧
      m.ColorId =
        (if p2.ColorId != "" || contains p2.ForceSendFields "ColorId" then p2.ColorId
         else p1.ColorId) ∧
      m.Description =
        (if p2.Description != "" || contains p2.ForceSendFields "Description" then
           p2.Description
         else p1.Description) ∧
      (∀ m2, p2.ExtendedProperties.bind (fun ep => ep.Private) = some m2 →
        (m2.map Prod.fst).Nodup → ∀ k v, (k, v) ∈ m2 →
        (m.ExtendedProperties.bind (fun ep => ep.Private)).bind (fun priv => priv.lookup k) =
          some v)) := by
  refine ⟨?_, ?_, mergeEventPatches_later_wins⟩ <;>
  · have hm := metadataPatch_eq s a
    unfold configuredColor at hm
    simp only [coreReconciliationLogic, configuredColor]
    rw [hm]
    generalize (match currentDbEntry with
      | none => true
      | some e => e.LocationCode != derefString a.Title ||
          e.Status != DetermineStatus (derefString a.Title)) = n
    generalize hp : correctionPatch s a = p
    cases n <;>
      by_cases hcond : (a.IsManagedProperty && !legacyMarkerPresent a &&
        derefString a.ColorID == colorOf s.colorMap (DetermineStatus (derefString a.Title)))
          = true <;>
      by_cases hid : a.EventID = "" <;>
      cases hup : f.UpsertScheduleEntry
        { Date := date, LocationCode := derefString a.Title,
          Status := DetermineStatus (derefString a.Title) } <;>
      cases hpf : f.EventsPatch a.EventID p <;>
      simp [patchRequests, hid, hup, hpf, hcond]

theorem coreReconciliationLogic_single_patch_witness :
    patchRequests (coreReconciliationLogic syncerHOM noFaults dbEmpty 19884 (some evLegacy)
        none).ops =
      [("L", { zeroEvent with
                ExtendedProperties := some { Private := some [("zenithplanner_managed", "true")] }
                Description := "bring laptop"
                ColorId := "3"
                ForceSendFields := ["Description", "ColorId"] })] :=
  ((coreReconciliationLogic_single_patch syncerHOM noFaults dbEmpty 19884 evLegacy none).2.1
    (by decide) (by decide)).trans (by decide)

/-- Claim C5 fails as stated: when the schedule upsert fails, no patch is sent
for an event that lacks the managed marker, carries the legacy marker and has
the wrong color. -/
theorem coreReconciliationLogic_no_patch_after_failed_upsert :
    evLegacy.IsManagedProperty = false ∧ legacyMarkerPresent evLegacy = true ∧
    derefString evLegacy.ColorID ≠ configuredColor syncerHOM evLegacy ∧
    patchRequests (coreReconciliationLogic syncerHOM upsertFails dbEmpty 19884 (some evLegacy)
        (GetScheduleEntry dbEmpty 19884)).ops = [] := by
  decide

theorem not_managed_authoritative_none (s : Syncer) (db : Db) (date : Int)
    (h : ∀ e ∈ db.cache, e.Date = date → isManaged e = false) :
    identifyAuthoritativeCachedEvent s.sortSlice (GetCachedEventsByDate db date) = (none, []) := by
  apply identify_of_managed_nil
  rw [List.filter_eq_nil_iff]
  intro e he
  have he' : e ∈ db.cache.filter (fun e => e.Date == date) :=
    (List.perm_insertionSort _ _).subset he
  have := List.mem_filter.mp he'
  have hd : e.Date = date := by simpa using this.2
  simp [h e this.1 hd]

/-- The text "previous → new" is never empty. -/
theorem arrow_ne_empty (x y : String) : x ++ " → " ++ y ≠ "" := by
  intro h
  have := congrArg String.length h
  simp [String.length_append] at this
  have h3 : " → ".length = 3 := by decide
  omega

/-- Claim C6, as amended. With no authoritative event, and unless the schedule
upsert failed (the function then returns before inserting),
`coreReconciliationLogic` issues exactly one insert request: the event starts
on the date, its end is the following day, it is titled with the default code,
carries the private marker "true" and the color configured for the status of
the default code; the schedule entry is then (default code, that status). When
the date has no managed cached event the change summary is empty, whatever the
previous entry. -/
theorem coreReconciliationLogic_default_creation (s : Syncer) (f : Faults) (db : Db)
    (date : Int) :
    ((coreReconciliationLogic s f db date none (GetScheduleEntry db date)).err ≠
        some Err.updateScheduleEntry →
      insertRequests (coreReconciliationLogic s f db date none (GetScheduleEntry db date)).ops =
        [{ zeroEvent with
            Summary := s.cfg.DefaultLocationCode
            Start := some { Date := formatDate date, DateTime := "" }
            End := some { Date := formatDate (date + 1), DateTime := "" }
            ColorId := colorOf s.colorMap (DetermineStatus s.cfg.DefaultLocationCode)
            ExtendedProperties := some { Private := some [(ManagedPropertyKey, "true")] } }] ∧
      GetScheduleEntry (coreReconciliationLogic s f db date none (GetScheduleEntry db date)).db
          date =
        some { Date := date, LocationCode := s.cfg.DefaultLocationCode,
               Status := DetermineStatus s.cfg.DefaultLocationCode }) ∧
    ((∀ e ∈ db.cache, e.Date = date → isManaged e = false) →
      (runSingleReconciliation s f db date).locationDiff = "") := by
  constructor
  · intro hu
    obtain ⟨-, hsame, hfail, hok⟩ := core_schedule s f db date none
    constructor
    · revert hu
      simp only [coreReconciliationLogic, defaultEvent]
      generalize (match GetScheduleEntry db date with
        | none => true
        | some e => e.LocationCode != s.cfg.DefaultLocationCode ||
            e.Status != DetermineStatus s.cfg.DefaultLocationCode) = n
      generalize f.UpsertScheduleEntry _ = up
      generalize f.EventsInsert _ = ins
      cases n <;> cases up <;> cases ins <;> simp [insertRequests]
    · change _ = some (targetEntry s date none)
      by_cases hcur : GetScheduleEntry db date = some (targetEntry s date none)
      · rw [(hsame hcur).1, hcur]
      · cases hup : f.UpsertScheduleEntry (targetEntry s date none) with
        | true => exact absurd (hfail hcur hup).2.2.2 hu
        | false =>
          rw [(hok hcur hup).1]
          exact GetScheduleEntry_upsert db _
  · intro hno
    have hauth : authoritativeFor s db date = none := by
      unfold authoritativeFor
      rw [not_managed_authoritative_none s db date hno]
    cases h₁ : f.GetCachedEventsByDate date with
    | true => rw [runSingle_queryCache_fails s f db date h₁]
    | false =>
      cases h₂ : f.GetScheduleEntry date with
      | true => rw [runSingle_fetchSchedule_fails s f db date h₁ h₂]
      | false =>
        obtain ⟨-, -, -, hdiff⟩ := runSingle_reads_ok s f db date h₁ h₂
        have hfin := (core_schedule s f db date (authoritativeFor s db date)).1
        rw [hauth] at hfin hdiff
        rw [hdiff, hfin]
        simp [targetCode]

theorem coreReconciliationLogic_default_creation_witness :
    insertRequests (coreReconciliationLogic syncerHOM noFaults dbEmpty 19905 none
        (GetScheduleEntry dbEmpty 19905)).ops =
      [{ zeroEvent with
          Summary := "HOM"
          Start := some { Date := "2024-07-01", DateTime := "" }
          End := some { Date := "2024-07-02", DateTime := "" }
          ColorId := "3"
          ExtendedProperties := some { Private := some [("zenithplanner_managed", "true")] } }] ∧
    GetScheduleEntry (coreReconciliationLogic syncerHOM noFaults dbEmpty 19905 none
        (GetScheduleEntry dbEmpty 19905)).db 19905 =
      some { Date := 19905, LocationCode := "HOM", Status := "Home" } ∧
    (runSingleReconciliation syncerHOM noFaults dbEmpty 19905).locationDiff = "" :=
  ⟨((coreReconciliationLogic_default_creation syncerHOM noFaults dbEmpty 19905).1
      (by decide)).1.trans (by decide),
   ((coreReconciliationLogic_default_creation syncerHOM noFaults dbEmpty 19905).1
      (by decide)).2.trans (by decide),
   (coreReconciliationLogic_default_creation syncerHOM noFaults dbEmpty 19905).2 (by decide)⟩

/-- Claim C6 fails as stated: on a date with no managed cached event whose
schedule upsert fails, no event is inserted and no schedule entry is stored. -/
theorem coreReconciliationLogic_no_insert_after_failed_upsert :
    insertRequests (coreReconciliationLogic syncerHOM upsertFails dbEmpty 19905 none
        (GetScheduleEntry dbEmpty 19905)).ops = [] ∧
    GetScheduleEntry (coreReconciliationLogic syncerHOM upsertFails dbEmpty 19905 none
        (GetScheduleEntry dbEmpty 19905)).db 19905 = none := by
  decide

/-- The summary of `runSingleReconciliation`, case by case. -/
theorem runSingle_summary (s : Syncer) (f : Faults) (db : Db) (date : Int) :
    ((runSingleReconciliation s f db date).locationDiff = "" ∧
      ¬ ((runSingleReconciliation s f db date).err = none ∧
          GetScheduleEntry (runSingleReconciliation s f db date).db date ≠
            GetScheduleEntry db date ∧
          ∃ a, authoritativeFor s db date = some a ∧
            derefString a.Title ≠ previousCode s db date)) ∨
    ((runSingleReconciliation s f db date).err = none ∧
      scheduleUpserts (runSingleReconciliation s f db date).ops ≠ [] ∧
      GetScheduleEntry (runSingleReconciliation s f db date).db date ≠
        GetScheduleEntry db date ∧
      ∃ a, authoritativeFor s db date = some a ∧
        derefString a.Title ≠ previousCode s db date ∧
        (runSingleReconciliation s f db date).locationDiff =
          previousCode s db date ++ " → " ++ derefString a.Title) := by
  cases h₁ : f.GetCachedEventsByDate date with
  | true => left; rw [runSingle_queryCache_fails s f db date h₁]; simp
  | false =>
    cases h₂ : f.GetScheduleEntry date with
    | true => left; rw [runSingle_fetchSchedule_fails s f db date h₁ h₂]; simp
    | false =>
      obtain ⟨hdb, herr, hops, hdiff⟩ := runSingle_reads_ok s f db date h₁ h₂
      obtain ⟨hfin, hsame, hfail, hok⟩ := core_schedule s f db date (authoritativeFor s db date)
      rw [hdb, herr, hdiff, hfin]
      by_cases hcur : GetScheduleEntry db date =
          some (targetEntry s date (authoritativeFor s db date))
      · left
        obtain ⟨hd, -, hch, -⟩ := hsame hcur
        rw [hd, hch]
        simp
      · cases hup : f.UpsertScheduleEntry (targetEntry s date (authoritativeFor s db date)) with
        | true =>
          left
          obtain ⟨-, -, -, he⟩ := hfail hcur hup
          rw [he]
          simp
        | false =>
          obtain ⟨hd, hupserts, hch, -⟩ := hok hcur hup
          cases he : (coreReconciliationLogic s f db date (authoritativeFor s db date)
              (GetScheduleEntry db date)).err with
          | some e => left; simp
          | none =>
            rw [hch he, hd, GetScheduleEntry_upsert_target]
            cases hauth : authoritativeFor s db date with
            | none => left; simp [targetCode]
            | some a =>
              by_cases hne : derefString a.Title = previousCode s db date
              · left; simp [targetCode, hne]
              · right
                refine ⟨rfl, ?_, ?_, a, rfl, hne, ?_⟩
                · rw [hops]
                  intro h
                  have : scheduleUpserts (coreReconciliationLogic s f db date
                      (authoritativeFor s db date) (GetScheduleEntry db date)).ops = [] := by
                    unfold scheduleUpserts at h ⊢
                    rw [List.filterMap_append] at h
                    exact (List.append_eq_nil.mp h).2
                  rw [hupserts] at this
                  exact absurd this (by simp)
                · rw [← hauth]
                  exact fun h => hcur h.symm
                · have hne' : previousCode s db date ≠ derefString a.Title := fun h => hne h.symm
                  simp [targetCode, hne']

/-- Claim C7, as amended. `runSingleReconciliation` returns a non-empty change
summary exactly when it returns without error, the schedule entry of the date
was changed by the run, and there is an authoritative event whose title is not
the previous location code (the code of the stored entry, or the default code
when no entry is stored). -/
theorem runSingleReconciliation_summary_iff (s : Syncer) (f : Faults) (db : Db) (date : Int) :
    (runSingleReconciliation s f db date).locationDiff ≠ "" ↔
      ((runSingleReconciliation s f db date).err = none ∧
        GetScheduleEntry (runSingleReconciliation s f db date).db date ≠
          GetScheduleEntry db date ∧
        ∃ a, authoritativeFor s db date = some a ∧
          derefString a.Title ≠ previousCode s db date) := by
  rcases runSingle_summary s f db date with ⟨h, hn⟩ | ⟨he, -, hc, a, ha, hne, hd⟩
  · constructor
    · intro h'; exact absurd h h'
    · intro h'; exact absurd h' hn
  · constructor
    · intro _; exact ⟨he, hc, a, ha, hne⟩
    · intro _
      rw [hd]
      exact arrow_ne_empty _ _

/-- Claim C7 fails as stated: with no managed event on the date and a stored
entry P12GRAN303 / Office, the run changes the entry to the default HOM / Home,
the previous code is not the default code, and yet the summary is empty. -/
theorem runSingleReconciliation_change_to_default_unreported :
    GetScheduleEntry dbOfficeNoEvent 19884 =
      some { Date := 19884, LocationCode := "P12GRAN303", Status := "Office" } ∧
    GetScheduleEntry (runSingleReconciliation syncerHOM noFaults dbOfficeNoEvent 19884).db 19884 =
      some { Date := 19884, LocationCode := "HOM", Status := "Home" } ∧
    (runSingleReconciliation syncerHOM noFaults dbOfficeNoEvent 19884).err = none ∧
    syncerHOM.cfg.DefaultLocationCode = "HOM" ∧
    (runSingleReconciliation syncerHOM noFaults dbOfficeNoEvent 19884).locationDiff = "" := by
  decide

/-- Claim C8, as amended. For an authoritative event of title `t` and previous
location code `p`: if `p` differs from `t`, the run wrote the schedule entry and
returned without error, the summary is `p`, " → ", `t`. And no summary is ever
built with the placeholder "<none>" in place of the previous code: a summary is
either empty or `p`, " → ", `t` for the authoritative title `t`. -/
theorem runSingleReconciliation_summary_text (s : Syncer) (f : Faults) (db : Db) (date : Int) :
    (∀ a, authoritativeFor s db date = some a →
      previousCode s db date ≠ derefString a.Title →
      scheduleUpserts (runSingleReconciliation s f db date).ops ≠ [] →
      (runSingleReconciliation s f db date).err = none →
      (runSingleReconciliation s f db date).locationDiff =
        previousCode s db date ++ " → " ++ derefString a.Title) ∧
    ((runSingleReconciliation s f db date).locationDiff = "" ∨
      ∃ a, authoritativeFor s db date = some a ∧
        (runSingleReconciliation s f db date).locationDiff =
          previousCode s db date ++ " → " ++ derefString a.Title) := by
  constructor
  · intro a ha hne hw he
    rcases runSingle_summary s f db date with ⟨-, hn⟩ | ⟨-, -, -, a', ha', -, hd⟩
    · exfalso
      apply hn
      refine ⟨he, ?_, a, ha, fun h => hne h.symm⟩
      -- the entry was written: an upsert was issued and the run did not fail
      have hr := err_of_reads s f db date (by rw [he]; simp) (by rw [he]; simp)
      obtain ⟨hdb, herr, hops, -⟩ := runSingle_reads_ok s f db date hr.1 hr.2
      obtain ⟨-, hsame, hfail, hok⟩ := core_schedule s f db date (authoritativeFor s db date)
      by_cases hcur : GetScheduleEntry db date =
          some (targetEntry s date (authoritativeFor s db date))
      · exfalso
        apply hw
        obtain ⟨-, hnone, -, -⟩ := hsame hcur
        rw [hops, ← hcur] at *
        unfold scheduleUpserts at hnone ⊢
        rw [List.filterMap_append, hnone]
        simp [deleteEventsFromCalendar, List.filterMap_map]
      · cases hup : f.UpsertScheduleEntry (targetEntry s date (authoritativeFor s db date)) with
        | true =>
          have := (hfail hcur hup).2.2.2
          rw [← herr, he] at this
          exact absurd this (by simp)
        | false =>
          rw [hdb, (hok hcur hup).1, GetScheduleEntry_upsert_target]
          exact fun h => hcur h.symm
    · rw [ha] at ha'
      cases ha'
      exact hd
  · rcases runSingle_summary s f db date with ⟨h, -⟩ | ⟨-, -, -, a, ha, -, hd⟩
    · left; exact h
    · right; exact ⟨a, ha, hd⟩

theorem runSingleReconciliation_summary_text_witness :
    (runSingleReconciliation syncerHOM noFaults dbScenario 19884).locationDiff =
      "HOM → P12GRAN303" :=
  ((runSingleReconciliation_summary_text syncerHOM noFaults dbScenario 19884).1 evB
    (by decide) (by decide) (by decide) (by decide)).trans (by decide)

/-- Claim C8 fails as stated: for an authoritative event titled "<none>" the
summary is "HOM → <none>", which contains the text of the placeholder. -/
theorem runSingleReconciliation_summary_may_contain_none_text :
    (runSingleReconciliation syncerHOM noFaults dbNoneTitle 19884).locationDiff =
      "HOM → <none>" ∧
    stringsContains (runSingleReconciliation syncerHOM noFaults dbNoneTitle 19884).locationDiff
      "<none>" = true := by
  decide

/-! ## Reconciling a date twice -/

theorem scheduleUpserts_deletes (f : Faults) (ids : List String) :
    scheduleUpserts (deleteEventsFromCalendar f ids) = [] := by
  simp [scheduleUpserts, deleteEventsFromCalendar, List.filterMap_map]

theorem GetCachedEventsByDate_congr (db db' : Db) (date : Int) (h : db'.cache = db.cache) :
    GetCachedEventsByDate db' date = GetCachedEventsByDate db date := by
  simp [GetCachedEventsByDate, h]

/-- With the stored entry equal to the target and an authoritative event that
needs no correction, `coreReconciliationLogic` issues no request. -/
theorem core_ops_settled (s : Syncer) (f : Faults) (db : Db) (date : Int) (a : CachedEvent)
    (hcur : GetScheduleEntry db date = some (targetEntry s date (some a)))
    (hp : a.IsManagedProperty = true) (hl : legacyMarkerPresent a = false)
    (hc : derefString a.ColorID = configuredColor s a) :
    (coreReconciliationLogic s f db date (some a) (GetScheduleEntry db date)).ops = [] := by
  have hn := (needsDbUpdate_false_iff db date (targetEntry s date (some a)) rfl).mpr hcur
  have hm := metadataPatch_eq s a
  unfold configuredColor at hm hc
  simp only [targetEntry, targetCode] at hn
  simp only [coreReconciliationLogic, hn]
  simp [hp, hl, hc] at hm ⊢
  simp [hm]

/-- After a run that passed its schedule-store step without storage error the
stored entry is the target entry; the mirror is what it was in any case. -/
theorem runSingle_leaves_target (s : Syncer) (f : Faults) (db : Db) (date : Int) :
    (runSingleReconciliation s f db date).db.cache = db.cache ∧
    ((runSingleReconciliation s f db date).err ≠ some Err.queryCache →
      (runSingleReconciliation s f db date).err ≠ some Err.fetchScheduleEntry →
      (runSingleReconciliation s f db date).err ≠ some Err.updateScheduleEntry →
      GetScheduleEntry (runSingleReconciliation s f db date).db date =
        some (targetEntry s date (authoritativeFor s db date))) := by
  cases h₁ : f.GetCachedEventsByDate date with
  | true => rw [runSingle_queryCache_fails s f db date h₁]; simp
  | false =>
    cases h₂ : f.GetScheduleEntry date with
    | true => rw [runSingle_fetchSchedule_fails s f db date h₁ h₂]; simp
    | false =>
      obtain ⟨hdb, herr, -, -⟩ := runSingle_reads_ok s f db date h₁ h₂
      obtain ⟨-, hsame, hfail, hok⟩ := core_schedule s f db date (authoritativeFor s db date)
      rw [hdb, herr]
      by_cases hcur : GetScheduleEntry db date =
          some (targetEntry s date (authoritativeFor s db date))
      · rw [(hsame hcur).1]
        exact ⟨rfl, fun _ _ _ => hcur⟩
      · cases hup : f.UpsertScheduleEntry (targetEntry s date (authoritativeFor s db date)) with
        | true =>
          rw [(hfail hcur hup).1, (hfail hcur hup).2.2.2]
          simp
        | false =>
          rw [(hok hcur hup).1]
          exact ⟨rfl, fun _ _ _ => GetScheduleEntry_upsert_target s db date _⟩

/-- A run on a database whose stored entry already is the target entry. -/
theorem runSingle_on_target (s : Syncer) (f : Faults) (db : Db) (date : Int)
    (hcur : GetScheduleEntry db date = some (targetEntry s date (authoritativeFor s db date))) :
    scheduleUpserts (runSingleReconciliation s f db date).ops = [] ∧
    (runSingleReconciliation s f db date).locationDiff = "" ∧
    (runSingleReconciliation s f db date).db = db ∧
    (∀ a, identifyAuthoritativeCachedEvent s.sortSlice (GetCachedEventsByDate db date) =
        (some a, []) →
      a.IsManagedProperty = true → legacyMarkerPresent a = false →
      derefString a.ColorID = configuredColor s a →
      (runSingleReconciliation s f db date).ops = []) := by
  cases h₁ : f.GetCachedEventsByDate date with
  | true => rw [runSingle_queryCache_fails s f db date h₁]; simp [scheduleUpserts]
  | false =>
    cases h₂ : f.GetScheduleEntry date with
    | true =>
      rw [runSingle_fetchSchedule_fails s f db date h₁ h₂]
      refine ⟨scheduleUpserts_deletes f _, rfl, rfl, ?_⟩
      intro a ha _ _ _
      simp [ha, deleteEventsFromCalendar]
    | false =>
      obtain ⟨hdb, herr, hops, hdiff⟩ := runSingle_reads_ok s f db date h₁ h₂
      obtain ⟨-, hsame, -, -⟩ := core_schedule s f db date (authoritativeFor s db date)
      obtain ⟨hd, hnone, hch, -⟩ := hsame hcur
      refine ⟨?_, ?_, ?_, ?_⟩
      · rw [hops]
        unfold scheduleUpserts at hnone ⊢
        rw [List.filterMap_append, hnone]
        exact List.append_nil _ ▸ scheduleUpserts_deletes f _
      · rw [hdiff, hch]
        simp
      · rw [hdb, hd]
      · intro a ha hp hl hc
        have hauth : authoritativeFor s db date = some a := by
          unfold authoritativeFor
          rw [ha]
        rw [hops, ha, hauth]
        rw [hauth] at hcur
        rw [core_ops_settled s f db date a hcur hp hl hc]
        simp [deleteEventsFromCalendar]

/-- Claim C4, as amended. Reconciliation never writes the mirror. When a date
is reconciled twice in a row and the first run passed its schedule-store step
without storage error (neither of the two reads nor the schedule upsert
failed), the second run performs no schedule upsert, produces an empty change
summary and leaves the database as it was; it issues no request at all when the
mirror holds a single managed event for the date (no duplicates) that carries
the managed marker, no legacy marker and the configured color. -/
theorem runSingleReconciliation_second_run (s : Syncer) (f₁ f₂ : Faults) (db : Db)
    (date : Int) :
    (runSingleReconciliation s f₁ db date).db.cache = db.cache ∧
    ((runSingleReconciliation s f₁ db date).err ≠ some Err.queryCache →
      (runSingleReconciliation s f₁ db date).err ≠ some Err.fetchScheduleEntry →
      (runSingleReconciliation s f₁ db date).err ≠ some Err.updateScheduleEntry →
      scheduleUpserts
        (runSingleReconciliation s f₂ (runSingleReconciliation s f₁ db date).db date).ops = [] ∧
      (runSingleReconciliation s f₂ (runSingleReconciliation s f₁ db date).db date).locationDiff
        = "" ∧
      (runSingleReconciliation s f₂ (runSingleReconciliation s f₁ db date).db date).db =
        (runSingleReconciliation s f₁ db date).db ∧
      (∀ a, identifyAuthoritativeCachedEvent s.sortSlice (GetCachedEventsByDate db date) =
          (some a, []) →
        a.IsManagedProperty = true → legacyMarkerPresent a = false →
        derefString a.ColorID = configuredColor s a →
        (runSingleReconciliation s f₂ (runSingleReconciliation s f₁ db date).db date).ops
          = [])) := by
  obtain ⟨hcache, htarget⟩ := runSingle_leaves_target s f₁ db date
  refine ⟨hcache, fun hq hf hu => ?_⟩
  have hevents := GetCachedEventsByDate_congr db _ date hcache
  have hauth : authoritativeFor s (runSingleReconciliation s f₁ db date).db date =
      authoritativeFor s db date := by
    unfold authoritativeFor
    rw [hevents]
  have h := runSingle_on_target s f₂ (runSingleReconciliation s f₁ db date).db date
    (by rw [hauth]; exact htarget hq hf hu)
  rw [hevents] at h
  exact h

theorem runSingleReconciliation_second_run_witness :
    (runSingleReconciliation syncerHOM noFaults
      (runSingleReconciliation syncerHOM noFaults dbOfficeOnly 19884).db 19884).ops = [] :=
  ((runSingleReconciliation_second_run syncerHOM noFaults noFaults dbOfficeOnly 19884).2
    (by decide) (by decide) (by decide)).2.2.2 evB (by decide) (by decide) (by decide)
    (by decide)

/-- Claim C4 fails as stated: on a date with no managed event in the mirror
the first run inserts a default event, and the second run, the mirror being
unchanged, inserts a default event again. -/
theorem runSingleReconciliation_second_run_inserts_again :
    (runSingleReconciliation syncerHOM noFaults dbEmpty 19905).err = none ∧
    (runSingleReconciliation syncerHOM noFaults dbEmpty 19905).db.cache = dbEmpty.cache ∧
    insertRequests (runSingleReconciliation syncerHOM noFaults
      (runSingleReconciliation syncerHOM noFaults dbEmpty 19905).db 19905).ops =
      [{ zeroEvent with
          Summary := "HOM"
          Start := some { Date := "2024-07-01", DateTime := "" }
          End := some { Date := "2024-07-02", DateTime := "" }
          ColorId := "3"
          ExtendedProperties := some { Private := some [("zenithplanner_managed", "true")] } }] := by
  decide

/-! ## Incremental sync -/

theorem GetCachedEventByID_deleted (db : Db) (eventID : String) :
    GetCachedEventByID (DeleteCachedEvent db eventID) eventID = none := by
  simp only [GetCachedEventByID, DeleteCachedEvent]
  rw [List.find?_eq_none]
  intro x hx
  have := (List.mem_filter.mp hx).2
  simpa using this

theorem recurringEventIDs_single (e : Event) :
    recurringEventIDs [e] = if e.RecurringEventId != "" then [e.RecurringEventId] else [] := by
  simp [recurringEventIDs]

/-- Claim C10, as the code has it. When the batch of changed events is a single
cancelled event without start and no call fails, `RunIncrementalSync` hands no
date to reconciliation, whatever the mirror held under the id of the event:
the mirror is updated (the entry deleted) before the affected dates are
computed, so the date of the entry can no longer be looked up. -/
theorem RunIncrementalSync_cancelled_date_missed (parseRFC3339 : String → Option Int)
    (s : Syncer) (db : Db) (e : Event) (nextSyncToken syncToken : String)
    (hc : e.Status = "cancelled") (hs : e.Start = none) :
    (RunIncrementalSync parseRFC3339 s noFaults db [ListAnswer.page [e] "" nextSyncToken]
      syncToken).reconciledDates = [] := by
  have hu : ∃ db', updateDBCache parseRFC3339 s noFaults db [e] =
      { err := none, db := DeleteCachedEvent db' e.Id
        ops := (updateDBCache parseRFC3339 s noFaults db [e]).ops } := by
    by_cases hr : e.RecurringEventId = ""
    · exact ⟨db, by
        simp [updateDBCache, deleteRecurringEventIDsFromDBCache, recurringEventIDs_single, hr,
          deleteCachedEvents, updateDBCacheLoop, hc, noFaults]⟩
    · exact ⟨DeleteCachedEvent db e.RecurringEventId, by
        simp [updateDBCache, deleteRecurringEventIDsFromDBCache, recurringEventIDs_single, hr,
          deleteCachedEvents, updateDBCacheLoop, hc, noFaults]⟩
  obtain ⟨db', hu⟩ := hu
  have hd : getDatesToConciliate noFaults (DeleteCachedEvent db' e.Id) [e] = [] := by
    simp [getDatesToConciliate, shouldStartConciliation, hs, hc, noFaults,
      GetCachedEventByID_deleted, dateStrMapToTimeSlice]
  have herr : (updateDBCache parseRFC3339 s noFaults db [e]).err = none := by rw [hu]
  have hdb : (updateDBCache parseRFC3339 s noFaults db [e]).db = DeleteCachedEvent db' e.Id := by
    rw [hu]
  have hf : fetchIncrementalChanges [ListAnswer.page [e] "" nextSyncToken] syncToken =
      some ([e], nextSyncToken) := by
    simp [fetchIncrementalChanges, fetchPages]
  unfold RunIncrementalSync
  rw [hf]
  simp only [herr, hdb, hd, List.length_singleton]
  by_cases ht : nextSyncToken = "" <;> simp [ht, noFaults]

theorem RunIncrementalSync_cancelled_date_missed_witness :
    GetCachedEventByID dbOfficeOnly cancelledB.Id = some evB ∧ evB.Date = 19884 ∧
    getDatesToConciliate noFaults dbOfficeOnly [cancelledB] = [19884] ∧
    (RunIncrementalSync (fun _ => none) syncerHOM noFaults dbOfficeOnly
      [ListAnswer.page [cancelledB] "" "t2"] "t1").reconciledDates = [] :=
  ⟨by decide, by decide, by decide,
    RunIncrementalSync_cancelled_date_missed (fun _ => none) syncerHOM dbOfficeOnly cancelledB
      "t2" "t1" (by decide) (by decide)⟩

/-! ## Sync dispatch and fallback -/

theorem fetchPages_invalid (answers : List ListAnswer) (acc : List Event)
    (h : reportsInvalidToken answers = true) : fetchPages answers acc = none := by
  induction answers generalizing acc with
  | nil => simp [reportsInvalidToken] at h
  | cons a rest ih =>
    cases a with
    | invalidSyncToken => rfl
    | failure => simp [reportsInvalidToken] at h
    | page items next tok =>
      simp only [reportsInvalidToken, Bool.and_eq_true, bne_iff_ne, ne_eq] at h
      have hn : (next == "") = false := by simpa using h.1
      simp only [fetchPages, hn, Bool.false_eq_true, if_false]
      exact ih _ h.2

theorem GetSyncState_SetSyncState (db : Db) (key value : String) :
    GetSyncState (SetSyncState db key value) key = some value := by
  simp only [GetSyncState, SetSyncState]
  exact lookup_mapSet_self _ _ _

/-- Claim C14, as amended. When the source reports the sync token invalid
during the listing of the changed events, `RunIncrementalSync` issues the write
that sets the stored cursor to the empty string (and nothing else) and returns
an error together with the full-sync directive. The error of that write is
discarded: the stored cursor is the empty string afterwards when the write
succeeded, and the database is what it was when the write failed. -/
theorem RunIncrementalSync_invalid_token (parseRFC3339 : String → Option Int) (s : Syncer)
    (f : Faults) (db : Db) (answers : List ListAnswer) (syncToken : String)
    (h : reportsInvalidToken answers = true) :
    (RunIncrementalSync parseRFC3339 s f db answers syncToken).ops =
      [Op.setSyncState "syncToken" ""] ∧
    (f.SetSyncState "syncToken" "" = false →
      GetSyncState (RunIncrementalSync parseRFC3339 s f db answers syncToken).db "syncToken" =
        some "") ∧
    (RunIncrementalSync parseRFC3339 s f db answers syncToken).err = some Err.fetchChanges ∧
    (RunIncrementalSync parseRFC3339 s f db answers syncToken).performFullSync = true ∧
    (f.SetSyncState "syncToken" "" = true →
      (RunIncrementalSync parseRFC3339 s f db answers syncToken).db = db) := by
  have hf : fetchIncrementalChanges answers syncToken = none := fetchPages_invalid answers [] h
  have hr : RunIncrementalSync parseRFC3339 s f db answers syncToken =
      { err := some Err.fetchChanges, performFullSync := true
        db := if f.SetSyncState "syncToken" "" then db else SetSyncState db "syncToken" ""
        ops := [Op.setSyncState "syncToken" ""], reconciledDates := [] } := by
    simp only [RunIncrementalSync, hf]
  rw [hr]
  refine ⟨rfl, ?_, rfl, rfl, ?_⟩
  · intro hw
    simp only [hw, Bool.false_eq_true, if_false]
    exact GetSyncState_SetSyncState db _ _
  · intro hw
    simp only [hw, if_true]

theorem RunIncrementalSync_invalid_token_witness :
    (RunIncrementalSync parseRFC3339Sample syncerHOM noFaults dbCursor
      [ListAnswer.invalidSyncToken] "t1").ops = [Op.setSyncState "syncToken" ""] ∧
    GetSyncState (RunIncrementalSync parseRFC3339Sample syncerHOM noFaults dbCursor
      [ListAnswer.invalidSyncToken] "t1").db "syncToken" = some "" ∧
    (RunIncrementalSync parseRFC3339Sample syncerHOM noFaults dbCursor
      [ListAnswer.invalidSyncToken] "t1").performFullSync = true :=
  ⟨(RunIncrementalSync_invalid_token parseRFC3339Sample syncerHOM noFaults dbCursor
      [ListAnswer.invalidSyncToken] "t1" (by decide)).1,
   (RunIncrementalSync_invalid_token parseRFC3339Sample syncerHOM noFaults dbCursor
      [ListAnswer.invalidSyncToken] "t1" (by decide)).2.1 (by decide),
   (RunIncrementalSync_invalid_token parseRFC3339Sample syncerHOM noFaults dbCursor
      [ListAnswer.invalidSyncToken] "t1" (by decide)).2.2.2.1⟩

/-- Claim C14 fails as stated: the source reports the sync token "t1" invalid
and the write that clears the stored cursor fails; `RunIncrementalSync` returns
the error and the full-sync directive, and the stored cursor is still "t1". -/
theorem RunIncrementalSync_invalid_token_cursor_kept :
    reportsInvalidToken [ListAnswer.invalidSyncToken] = true ∧
    GetSyncState dbCursor "syncToken" = some "t1" ∧
    (RunIncrementalSync parseRFC3339Sample syncerHOM cursorWriteFails dbCursor
      [ListAnswer.invalidSyncToken] "t1").err = some Err.fetchChanges ∧
    (RunIncrementalSync parseRFC3339Sample syncerHOM cursorWriteFails dbCursor
      [ListAnswer.invalidSyncToken] "t1").performFullSync = true ∧
    GetSyncState (RunIncrementalSync parseRFC3339Sample syncerHOM cursorWriteFails dbCursor
      [ListAnswer.invalidSyncToken] "t1").db "syncToken" = some "t1" := by
  decide

/-- Claim C16. `runSync` runs a full sync and no incremental sync when reading
the stored cursor fails or yields the empty string. For a non-empty stored
cursor it runs an incremental sync with that cursor, followed by a full sync
(whose result it returns) exactly when the incremental sync returned an error
together with the full-sync directive; otherwise it returns the result of the
incremental sync. -/
theorem runSync_dispatch (parseRFC3339 : String → Option Int) (s : Syncer) (f : Faults)
    (db : Db) (incrementalAnswers fullAnswers : List ListAnswer) (now : Time) :
    ((storedCursor f db = none ∨ storedCursor f db = some "") →
      (runSync parseRFC3339 s f db incrementalAnswers fullAnswers now).ran = [SyncKind.full] ∧
      (runSync parseRFC3339 s f db incrementalAnswers fullAnswers now).err =
        (RunFullSync parseRFC3339 s f db fullAnswers now).err ∧
      (runSync parseRFC3339 s f db incrementalAnswers fullAnswers now).db =
        (RunFullSync parseRFC3339 s f db fullAnswers now).db ∧
      (runSync parseRFC3339 s f db incrementalAnswers fullAnswers now).ops =
        (RunFullSync parseRFC3339 s f db fullAnswers now).ops) ∧
    (∀ syncToken, storedCursor f db = some syncToken → syncToken ≠ "" →
      (((RunIncrementalSync parseRFC3339 s f db incrementalAnswers syncToken).err ≠ none ∧
          (RunIncrementalSync parseRFC3339 s f db incrementalAnswers syncToken).performFullSync
            = true) →
        (runSync parseRFC3339 s f db incrementalAnswers fullAnswers now).ran =
          [SyncKind.incremental syncToken, SyncKind.full] ∧
        (runSync parseRFC3339 s f db incrementalAnswers fullAnswers now).err =
          (RunFullSync parseRFC3339 s f
            (RunIncrementalSync parseRFC3339 s f db incrementalAnswers syncToken).db
            fullAnswers now).err ∧
        (runSync parseRFC3339 s f db incrementalAnswers fullAnswers now).db =
          (RunFullSync parseRFC3339 s f
            (RunIncrementalSync parseRFC3339 s f db incrementalAnswers syncToken).db
            fullAnswers now).db ∧
        (runSync parseRFC3339 s f db incrementalAnswers fullAnswers now).ops =
          (RunIncrementalSync parseRFC3339 s f db incrementalAnswers syncToken).ops ++
          (RunFullSync parseRFC3339 s f
            (RunIncrementalSync parseRFC3339 s f db incrementalAnswers syncToken).db
            fullAnswers now).ops) ∧
      (¬ ((RunIncrementalSync parseRFC3339 s f db incrementalAnswers syncToken).err ≠ none ∧
          (RunIncrementalSync parseRFC3339 s f db incrementalAnswers syncToken).performFullSync
            = true) →
        (runSync parseRFC3339 s f db incrementalAnswers fullAnswers now).ran =
          [SyncKind.incremental syncToken] ∧
        (runSync parseRFC3339 s f db incrementalAnswers fullAnswers now).err =
          (RunIncrementalSync parseRFC3339 s f db incrementalAnswers syncToken).err ∧
        (runSync parseRFC3339 s f db incrementalAnswers fullAnswers now).db =
          (RunIncrementalSync parseRFC3339 s f db incrementalAnswers syncToken).db ∧
        (runSync parseRFC3339 s f db incrementalAnswers fullAnswers now).ops =
          (RunIncrementalSync parseRFC3339 s f db incrementalAnswers syncToken).ops)) := by
  constructor
  · intro h
    unfold storedCursor at h
    unfold runSync
    rcases h with h | h <;> simp [h]
  · intro syncToken h hne
    unfold storedCursor at h
    have hne' : (syncToken == "") = false := by simpa using hne
    unfold runSync
    simp only [h, hne', Bool.false_eq_true, if_false]
    generalize RunIncrementalSync parseRFC3339 s f db incrementalAnswers syncToken = ri
    constructor
    · rintro ⟨he, hd⟩
      have : ri.err.isSome = true := by
        cases hri : ri.err with
        | none => exact absurd hri he
        | some e => rfl
      simp [this, hd]
    · intro hn
      have : (ri.err.isSome && ri.performFullSync) = false := by
        cases hri : ri.err with
        | none => simp
        | some e =>
          cases hp : ri.performFullSync with
          | false => simp
          | true => exact absurd ⟨by rw [hri]; simp, hp⟩ hn
      simp [this]

theorem runSync_dispatch_witness :
    (runSync parseRFC3339Sample syncerHOM noFaults dbEmpty [] [ListAnswer.page [] "" "t1"]
      { day := 19905, nanos := 0 }).ran = [SyncKind.full] ∧
    (runSync parseRFC3339Sample syncerHOM noFaults dbCursor [ListAnswer.page [] "" "t2"] []
      { day := 19905, nanos := 0 }).ran = [SyncKind.incremental "t1"] ∧
    (runSync parseRFC3339Sample syncerHOM noFaults dbCursor [ListAnswer.invalidSyncToken] []
      { day := 19905, nanos := 0 }).ran = [SyncKind.incremental "t1", SyncKind.full] :=
  ⟨((runSync_dispatch parseRFC3339Sample syncerHOM noFaults dbEmpty []
      [ListAnswer.page [] "" "t1"] { day := 19905, nanos := 0 }).1 (by decide)).1,
   (((runSync_dispatch parseRFC3339Sample syncerHOM noFaults dbCursor
      [ListAnswer.page [] "" "t2"] [] { day := 19905, nanos := 0 }).2 "t1"
        (by decide) (by decide)).2 (by decide)).1,
   (((runSync_dispatch parseRFC3339Sample syncerHOM noFaults dbCursor
      [ListAnswer.invalidSyncToken] [] { day := 19905, nanos := 0 }).2 "t1"
        (by decide) (by decide)).1 (by decide)).1⟩

/-- Claim C15, as amended. `RunIncrementalSync` returns the full-sync directive
exactly when the listing of the changed events failed (whatever the error, a
sync token reported invalid included) or the update of the mirror returned an
error; the directive always comes with an error, a failure to persist the
cursor does not set it, and after an incremental sync `runSync` runs a full
sync exactly when the directive was returned. -/
theorem RunIncrementalSync_directive_iff (parseRFC3339 : String → Option Int) (s : Syncer)
    (f : Faults) (db : Db) (answers : List ListAnswer) (syncToken : String) :
    ((RunIncrementalSync parseRFC3339 s f db answers syncToken).performFullSync = true ↔
      (fetchIncrementalChanges answers syncToken = none ∨
        ∃ changedEvents nextSyncToken,
          fetchIncrementalChanges answers syncToken = some (changedEvents, nextSyncToken) ∧
          ¬ (changedEvents.length = 0 ∧ nextSyncToken ≠ "") ∧
          ∃ e, (updateDBCache parseRFC3339 s f db changedEvents).err = some e ∧
            e ≠ Err.nilDereference)) ∧
    ((RunIncrementalSync parseRFC3339 s f db answers syncToken).performFullSync = true →
      (RunIncrementalSync parseRFC3339 s f db answers syncToken).err ≠ none) ∧
    ((RunIncrementalSync parseRFC3339 s f db answers syncToken).err =
        some Err.persistSyncToken →
      (RunIncrementalSync parseRFC3339 s f db answers syncToken).performFullSync = false) ∧
    (∀ fullAnswers now, storedCursor f db = some syncToken → syncToken ≠ "" →
      (SyncKind.full ∈ (runSync parseRFC3339 s f db answers fullAnswers now).ran ↔
        (RunIncrementalSync parseRFC3339 s f db answers syncToken).performFullSync = true)) := by
  have key :
      ((RunIncrementalSync parseRFC3339 s f db answers syncToken).performFullSync = true ↔
        (fetchIncrementalChanges answers syncToken = none ∨
          ∃ changedEvents nextSyncToken,
            fetchIncrementalChanges answers syncToken = some (changedEvents, nextSyncToken) ∧
            ¬ (changedEvents.length = 0 ∧ nextSyncToken ≠ "") ∧
            ∃ e, (updateDBCache parseRFC3339 s f db changedEvents).err = some e ∧
              e ≠ Err.nilDereference)) ∧
      ((RunIncrementalSync parseRFC3339 s f db answers syncToken).performFullSync = true →
        (RunIncrementalSync parseRFC3339 s f db answers syncToken).err ≠ none) ∧
      ((RunIncrementalSync parseRFC3339 s f db answers syncToken).err =
          some Err.persistSyncToken →
        (RunIncrementalSync parseRFC3339 s f db answers syncToken).performFullSync = false) := by
    unfold RunIncrementalSync
    cases hf : fetchIncrementalChanges answers syncToken with
    | none => simp
    | some res =>
      obtain ⟨changedEvents, nextSyncToken⟩ := res
      by_cases h0 : (changedEvents.length == 0 && nextSyncToken != "") = true
      · have h0' : changedEvents.length = 0 ∧ nextSyncToken ≠ "" := by simpa using h0
        simp only [h0, if_true]
        have hnil : changedEvents = [] := List.eq_nil_of_length_eq_zero h0'.1
        cases f.SetSyncState "syncToken" nextSyncToken <;> simp [hnil, h0'.2]
      · have h0' : ¬ (changedEvents.length = 0 ∧ nextSyncToken ≠ "") := by simpa using h0
        simp only [h0, if_false]
        cases hu : (updateDBCache parseRFC3339 s f db changedEvents).err with
        | none =>
          by_cases ht : nextSyncToken = "" <;>
            cases f.SetSyncState "syncToken" nextSyncToken <;> simp [ht, hu]
        | some e =>
          have h0'' : changedEvents = [] → nextSyncToken = "" := by
            intro hnil
            by_contra hne
            exact h0' ⟨by rw [hnil]; rfl, hne⟩
          cases e <;> simp [h0', hu] <;>
            exact ⟨changedEvents, nextSyncToken, ⟨rfl, rfl⟩, h0'', _, hu, by simp⟩
  refine ⟨key.1, key.2.1, key.2.2, ?_⟩
  intro fullAnswers now hst hne
  unfold storedCursor at hst
  have hne' : (syncToken == "") = false := by simpa using hne
  unfold runSync
  simp only [hst, hne', Bool.false_eq_true, if_false]
  have herr := key.2.1
  generalize RunIncrementalSync parseRFC3339 s f db answers syncToken = ri at herr ⊢
  cases hp : ri.performFullSync with
  | false => simp
  | true =>
    have : ri.err.isSome = true := by
      cases hri : ri.err with
      | none => exact absurd hri (herr hp)
      | some e => rfl
    simp [this]

/-- Claim C15 fails as stated: a listing error that is not an invalid sync
token, and a failed deletion in the mirror, both make `RunIncrementalSync`
return the full-sync directive. -/
theorem RunIncrementalSync_directive_on_other_failures :
    reportsInvalidToken [ListAnswer.failure] = false ∧
    (RunIncrementalSync parseRFC3339Sample syncerHOM noFaults dbCursor [ListAnswer.failure]
      "t1").performFullSync = true ∧
    reportsInvalidToken [ListAnswer.page [cancelledB] "" "t2"] = false ∧
    (RunIncrementalSync parseRFC3339Sample syncerHOM cacheDeleteFails dbCursor
      [ListAnswer.page [cancelledB] "" "t2"] "t1").performFullSync = true ∧
    (runSync parseRFC3339Sample syncerHOM noFaults dbCursor [ListAnswer.failure]
      [ListAnswer.page [] "" "t3"] { day := 19884, nanos := 0 }).ran =
      [SyncKind.incremental "t1", SyncKind.full] := by
  decide

/-! ## Failed deletions of duplicates -/

/-- Claim C18, as amended. The answers to the delete requests for duplicates
are only logged: whatever they are, `runSingleReconciliation` returns the same
summary and the same error, leaves the same database and issues the same
requests. In the log a not-found or gone answer (HTTP 404 or 410), like a
not-modified one (304), counts as "already gone" and not as an error; every
other failure is logged as an error. -/
theorem runSingleReconciliation_ignores_delete_answers (s : Syncer) (f : Faults) (db : Db)
    (date : Int) (answers : String → DeleteOutcome) :
    runSingleReconciliation s { f with EventsDelete := answers } db date =
      runSingleReconciliation s f db date ∧
    (∀ code, isNotFoundError (DeleteOutcome.apiError code) = true ↔ code = 404 ∨ code = 410) ∧
    deleteLog (DeleteOutcome.apiError 404) = DeleteLog.likelyAlreadyGone ∧
    deleteLog (DeleteOutcome.apiError 410) = DeleteLog.likelyAlreadyGone ∧
    deleteLog DeleteOutcome.ok = DeleteLog.successfullyDeleted ∧
    (∀ answer, deleteLog answer = DeleteLog.errorDeleting ↔
      (answer = DeleteOutcome.otherError ∨
        ∃ code, answer = DeleteOutcome.apiError code ∧ code ≠ 304 ∧ code ≠ 404 ∧ code ≠ 410)) := by
  refine ⟨rfl, ?_, by decide, by decide, by decide, ?_⟩
  · intro code
    simp [isNotFoundError]
  · intro answer
    cases answer with
    | ok => simp [deleteLog]
    | otherError => simp [deleteLog, IsNotModified, isNotFoundError]
    | apiError code =>
      by_cases h1 : code = 304 <;> by_cases h2 : code = 404 <;> by_cases h3 : code = 410 <;>
        simp [deleteLog, IsNotModified, isNotFoundError, h1, h2, h3]

/-- Claim C18 fails as stated: events A and B are duplicates of one day, the
delete request for A is answered with HTTP 500 (neither not-found nor gone),
and `runSingleReconciliation` returns no error for the date. -/
theorem runSingleReconciliation_failed_delete_not_reported :
    deleteRequests (runSingleReconciliation syncerHOM calendarDeleteFails dbScenario 19884).ops =
      ["A"] ∧
    calendarDeleteFails.EventsDelete "A" = DeleteOutcome.apiError 500 ∧
    isNotFoundError (DeleteOutcome.apiError 500) = false ∧
    deleteLog (DeleteOutcome.apiError 500) = DeleteLog.errorDeleting ∧
    (runSingleReconciliation syncerHOM calendarDeleteFails dbScenario 19884).err = none := by
  decide

/-! ## Renewal of the webhook channel -/

/-- Claim C20. In `RunChannelRenewalTask`, when the stored channel expires
within the renewal threshold: if creating the new channel fails, nothing is
stored and nothing is stopped; if the three values of the new channel are
written successfully, the requests are the Watch request, the three writes and
then the stop of the old channel, in this order (the stop of the old channel
comes only after the successful writes); if a write fails, the requests are
the Watch request, the writes up to the failing one and the stop of the new
channel, no stop of the old channel is issued, and an error is returned. The
ids of the channel the source answers with are taken non-empty. -/
theorem RunChannelRenewalTask_stop_order (parseRFC3339Nano : String → Option Time)
    (formatUnixMilli : Int → String) (f : Faults) (db : Db) (watchAnswer : Option Channel)
    (now : Time) (channelID resourceID expirationStr : String) (expirationTime : Time)
    (hinfo : getCurrentChannelInfo f db = some (channelID, resourceID, expirationStr))
    (hparse : parseRFC3339Nano expirationStr = some expirationTime)
    (hsoon : expirationTime.Before (now.AddDate channelRenewalThresholdDays) = true) :
    (watchAnswer = none →
      RunChannelRenewalTask parseRFC3339Nano formatUnixMilli f db watchAnswer now =
        { err := some Err.createChannel, db := db, ops := [Op.eventsWatch] }) ∧
    (∀ ch, watchAnswer = some ch → ch.Id ≠ "" → ch.ResourceId ≠ "" →
      ((f.SetSyncState dbKeyChannelID ch.Id = false ∧
          f.SetSyncState dbKeyResourceID ch.ResourceId = false ∧
          f.SetSyncState dbKeyChannelExpiration (formatUnixMilli ch.Expiration) = false) →
        (RunChannelRenewalTask parseRFC3339Nano formatUnixMilli f db watchAnswer now).err
          = none ∧
        (RunChannelRenewalTask parseRFC3339Nano formatUnixMilli f db watchAnswer now).ops =
          [Op.eventsWatch, Op.setSyncState dbKeyChannelID ch.Id,
            Op.setSyncState dbKeyResourceID ch.ResourceId,
            Op.setSyncState dbKeyChannelExpiration (formatUnixMilli ch.Expiration)] ++
          stopCalendarWebhookChannel channelID resourceID) ∧
      (¬ (f.SetSyncState dbKeyChannelID ch.Id = false ∧
          f.SetSyncState dbKeyResourceID ch.ResourceId = false ∧
          f.SetSyncState dbKeyChannelExpiration (formatUnixMilli ch.Expiration) = false) →
        (RunChannelRenewalTask parseRFC3339Nano formatUnixMilli f db watchAnswer now).err =
          some Err.storeChannelInfo ∧
        (∃ k, k ≤ 3 ∧
          (RunChannelRenewalTask parseRFC3339Nano formatUnixMilli f db watchAnswer now).ops =
            [Op.eventsWatch] ++
            ([Op.setSyncState dbKeyChannelID ch.Id,
              Op.setSyncState dbKeyResourceID ch.ResourceId,
              Op.setSyncState dbKeyChannelExpiration (formatUnixMilli ch.Expiration)].take k) ++
            [Op.channelsStop ch.Id ch.ResourceId]) ∧
        stopRequests
            (RunChannelRenewalTask parseRFC3339Nano formatUnixMilli f db watchAnswer now).ops =
          [(ch.Id, ch.ResourceId)])) := by
  constructor
  · intro hw
    subst hw
    simp [RunChannelRenewalTask, hinfo, hparse, hsoon, createCalendarWebhookChannel]
  · intro ch hw hid hres
    subst hw
    have hstop : stopCalendarWebhookChannel ch.Id ch.ResourceId =
        [Op.channelsStop ch.Id ch.ResourceId] := by
      simp [stopCalendarWebhookChannel, hid, hres]
    constructor
    · rintro ⟨h₁, h₂, h₃⟩
      simp [RunChannelRenewalTask, hinfo, hparse, hsoon, createCalendarWebhookChannel,
        storeChannelInfo, h₁, h₂, h₃]
    · intro hfail
      simp only [RunChannelRenewalTask, hinfo, hparse, hsoon, createCalendarWebhookChannel,
        storeChannelInfo, hstop, Bool.not_true, Bool.false_eq_true, if_false]
      cases h₁ : f.SetSyncState dbKeyChannelID ch.Id with
      | true =>
        refine ⟨by simp, ⟨1, by omega, by simp⟩, by simp [stopRequests]⟩
      | false =>
        cases h₂ : f.SetSyncState dbKeyResourceID ch.ResourceId with
        | true =>
          refine ⟨by simp, ⟨2, by omega, by simp⟩, by simp [stopRequests]⟩
        | false =>
          cases h₃ : f.SetSyncState dbKeyChannelExpiration (formatUnixMilli ch.Expiration) with
          | true =>
            refine ⟨by simp, ⟨3, by omega, by simp⟩, by simp [stopRequests]⟩
          | false => exact absurd ⟨h₁, h₂, h₃⟩ hfail

theorem RunChannelRenewalTask_stop_order_witness :
    (RunChannelRenewalTask parseRFC3339NanoSample formatUnixMilliSample noFaults dbChannel
      (some newChannel) { day := 19884, nanos := 36000000000000 }).ops =
      [Op.eventsWatch, Op.setSyncState "channelId" "new-channel",
        Op.setSyncState "resourceId" "new-resource",
        Op.setSyncState "channelExpiration" "2024-06-18T00:00:00Z",
        Op.channelsStop "old-channel" "old-resource"] ∧
    (RunChannelRenewalTask parseRFC3339NanoSample formatUnixMilliSample resourceIdWriteFails
      dbChannel (some newChannel) { day := 19884, nanos := 36000000000000 }).ops =
      [Op.eventsWatch, Op.setSyncState "channelId" "new-channel",
        Op.setSyncState "resourceId" "new-resource",
        Op.channelsStop "new-channel" "new-resource"] ∧
    RunChannelRenewalTask parseRFC3339NanoSample formatUnixMilliSample noFaults dbChannel
      none { day := 19884, nanos := 36000000000000 } =
      { err := some Err.createChannel, db := dbChannel, ops := [Op.eventsWatch] } :=
  ⟨(((RunChannelRenewalTask_stop_order parseRFC3339NanoSample formatUnixMilliSample noFaults
      dbChannel (some newChannel) { day := 19884, nanos := 36000000000000 }
      "old-channel" "old-resource" "2024-06-11T00:00:00Z" { day := 19885, nanos := 0 }
      (by decide) (by decide) (by decide)).2 newChannel rfl (by decide) (by decide)).1
      (by decide)).2.trans (by decide),
   by decide,
   (RunChannelRenewalTask_stop_order parseRFC3339NanoSample formatUnixMilliSample noFaults
      dbChannel none { day := 19884, nanos := 36000000000000 }
      "old-channel" "old-resource" "2024-06-11T00:00:00Z" { day := 19885, nanos := 0 }
      (by decide) (by decide) (by decide)).1 rfl⟩

/-! ## Reconciliation of a list of dates -/

/-- The loop of `RunReconciliation` in terms of the successive runs. -/
theorem reconcileDates_runs (s : Syncer) (f : Faults) (dates : List Int)
    (acc : ReconciliationResult) :
    (reconcileDates s f dates acc).err = acc.err ∧
    (reconcileDates s f dates acc).ops =
      acc.ops ++ ((reconciliationRuns s f dates acc.db).map (fun dr => dr.2.ops)).flatten ∧
    (reconcileDates s f dates acc).failed =
      acc.failed ++ (reconciliationRuns s f dates acc.db).filterMap
        (fun dr => dr.2.err.map (fun e => (dr.1, e))) ∧
    (∀ k, ((reconcileDates s f dates acc).changesForEmail.lookup k).isSome = true ↔
      ((acc.changesForEmail.lookup k).isSome = true ∨
        ∃ dr ∈ reconciliationRuns s f dates acc.db,
          formatDate dr.1 = k ∧ dr.2.locationDiff ≠ "")) ∧
    (∀ k v, (reconcileDates s f dates acc).changesForEmail.lookup k = some v →
      (acc.changesForEmail.lookup k = some v ∨
        ∃ dr ∈ reconciliationRuns s f dates acc.db,
          formatDate dr.1 = k ∧ dr.2.locationDiff = v ∧ v ≠ "")) := by
  induction dates generalizing acc with
  | nil => simp [reconcileDates, reconciliationRuns]
  | cons date rest ih =>
    simp only [reconcileDates, reconciliationRuns]
    obtain ⟨h₁, h₂, h₃, h₄, h₅⟩ := ih
      { err := acc.err
        changesForEmail :=
          if (runSingleReconciliation s f acc.db date).locationDiff != "" then
            mapSet acc.changesForEmail (formatDate date)
              (runSingleReconciliation s f acc.db date).locationDiff
          else acc.changesForEmail
        failed :=
          match (runSingleReconciliation s f acc.db date).err with
          | some e => acc.failed ++ [(date, e)]
          | none => acc.failed
        db := (runSingleReconciliation s f acc.db date).db
        ops := acc.ops ++ (runSingleReconciliation s f acc.db date).ops }
    simp only [] at h₁ h₂ h₃ h₄ h₅
    generalize runSingleReconciliation s f acc.db date = r at h₁ h₂ h₃ h₄ h₅ ⊢
    refine ⟨h₁, ?_, ?_, ?_, ?_⟩
    · rw [h₂]
      simp [List.append_assoc]
    · rw [h₃]
      cases hre : r.err <;> simp [List.append_assoc, List.filterMap_cons, hre]
    · intro k
      rw [h₄ k]
      by_cases hd : r.locationDiff = ""
      · simp [hd]
      · have hd' : (r.locationDiff != "") = true := by simpa using hd
        simp only [hd', if_true, List.mem_cons]
        by_cases hk : k = formatDate date
        · subst hk
          rw [lookup_mapSet_self]
          simp [hd]
        · rw [lookup_mapSet_ne _ _ _ _ hk]
          constructor
          · rintro (h | ⟨dr, hdr, hf, hn⟩)
            · exact Or.inl h
            · exact Or.inr ⟨dr, Or.inr hdr, hf, hn⟩
          · rintro (h | ⟨dr, hdr | hdr, hf, hn⟩)
            · exact Or.inl h
            · subst hdr
              exact absurd hf.symm hk
            · exact Or.inr ⟨dr, hdr, hf, hn⟩
    · intro k v hv
      rcases h₅ k v hv with h | ⟨dr, hdr, hf, hn⟩
      · by_cases hd : r.locationDiff = ""
        · simp only [hd, bne_self_eq_false, Bool.false_eq_true, if_false] at h
          exact Or.inl h
        · have hd' : (r.locationDiff != "") = true := by simpa using hd
          simp only [hd', if_true] at h
          by_cases hk : k = formatDate date
          · subst hk
            rw [lookup_mapSet_self] at h
            cases h
            exact Or.inr ⟨(date, r), List.mem_cons_self _ _, rfl, rfl, hd⟩
          · rw [lookup_mapSet_ne _ _ _ _ hk] at h
            exact Or.inl h
      · exact Or.inr ⟨dr, List.mem_cons_of_mem _ hdr, hf, hn⟩

theorem reconciliationRuns_dates (s : Syncer) (f : Faults) (dates : List Int) (db : Db) :
    (reconciliationRuns s f dates db).map (fun dr => dr.1) = dates := by
  induction dates generalizing db with
  | nil => rfl
  | cons date rest ih => simp [reconciliationRuns, ih]

/-- Claim C17. `RunReconciliation` reconciles every date of the list, in
order, each on the database the previous date left, whether or not an earlier
date returned an error, and itself returns no error. The change batch has an
entry under a date string exactly when the reconciliation of a date with that
string returned a non-empty change summary, the entry being such a summary; the
dates that returned an error are only recorded. -/
theorem RunReconciliation_isolates_dates (s : Syncer) (f : Faults) (db : Db)
    (dates : List Int) (triggeredByIncremental : Bool) :
    (RunReconciliation s f db dates triggeredByIncremental).err = none ∧
    (reconciliationRuns s f dates db).map (fun dr => dr.1) = dates ∧
    (∃ mail, (RunReconciliation s f db dates triggeredByIncremental).ops =
        ((reconciliationRuns s f dates db).map (fun dr => dr.2.ops)).flatten ++ mail ∧
      (mail = [] ∨ mail = [Op.sendConfirmation
        (RunReconciliation s f db dates triggeredByIncremental).changesForEmail])) ∧
    (RunReconciliation s f db dates triggeredByIncremental).failed =
      (reconciliationRuns s f dates db).filterMap
        (fun dr => dr.2.err.map (fun e => (dr.1, e))) ∧
    (∀ k, ((RunReconciliation s f db dates triggeredByIncremental).changesForEmail.lookup
          k).isSome = true ↔
      ∃ dr ∈ reconciliationRuns s f dates db,
        formatDate dr.1 = k ∧ dr.2.locationDiff ≠ "") ∧
    (∀ k v, (RunReconciliation s f db dates triggeredByIncremental).changesForEmail.lookup k =
        some v →
      ∃ dr ∈ reconciliationRuns s f dates db,
        formatDate dr.1 = k ∧ dr.2.locationDiff = v ∧ v ≠ "") := by
  obtain ⟨h₁, h₂, h₃, h₄, h₅⟩ := reconcileDates_runs s f dates
    { err := none, changesForEmail := [], failed := [], db := db, ops := [] }
  simp only [List.nil_append, List.lookup_nil, Option.isSome_none, Bool.false_eq_true,
    false_or] at h₁ h₂ h₃ h₄ h₅
  have h₅' : ∀ k v,
      (reconcileDates s f dates
        { err := none, changesForEmail := [], failed := [], db := db, ops := [] }
        ).changesForEmail.lookup k = some v →
      ∃ dr ∈ reconciliationRuns s f dates db,
        formatDate dr.1 = k ∧ dr.2.locationDiff = v ∧ v ≠ "" := by
    intro k v hv
    rcases h₅ k v hv with h | h
    · exact absurd h (by simp)
    · exact h
  unfold RunReconciliation
  simp only []
  split
  · exact ⟨h₁, reconciliationRuns_dates s f dates db, ⟨_, by rw [h₂], Or.inr rfl⟩, h₃, h₄, h₅'⟩
  · exact ⟨h₁, reconciliationRuns_dates s f dates db, ⟨[], by rw [h₂]; simp, Or.inl rfl⟩, h₃,
      h₄, h₅'⟩

/-! ## The mirror update -/

theorem ParseEvent_EventID (parseRFC3339 : String → Option Int) (event : Event)
    (colorMap : List (LocationStatus × String)) (info : ManagedEventInfo) (managed : Bool)
    (h : ParseEvent parseRFC3339 (some event) colorMap = some (some info, managed)) :
    info.EventID = event.Id := by
  unfold ParseEvent at h
  simp only [] at h
  repeat' split at h
  all_goals first
    | (exfalso; simp at h; done)
    | (simp only [Option.some.injEq, Prod.mk.injEq] at h
       rw [← h.1])

theorem mem_recurring_foldl (events : List Event) (acc : List String) (x : String) :
    x ∈ events.foldl
        (fun acc event =>
          if event.RecurringEventId != "" && !acc.contains event.RecurringEventId then
            acc ++ [event.RecurringEventId]
          else acc) acc ↔
      x ∈ acc ∨ (x ≠ "" ∧ ∃ e ∈ events, e.RecurringEventId = x) := by
  induction events generalizing acc with
  | nil => simp
  | cons e rest ih =>
    rw [List.foldl_cons, ih]
    by_cases h1 : e.RecurringEventId = ""
    · simp only [h1, bne_self_eq_false, Bool.false_and, Bool.false_eq_true, if_false,
        List.mem_cons, exists_eq_or_imp]
      constructor
      · rintro (h | ⟨hx, h⟩)
        · exact Or.inl h
        · exact Or.inr ⟨hx, Or.inr h⟩
      · rintro (h | ⟨hx, h | h⟩)
        · exact Or.inl h
        · exact absurd h.symm hx
        · exact Or.inr ⟨hx, h⟩
    · have h1' : (e.RecurringEventId != "") = true := by simpa using h1
      by_cases h2 : e.RecurringEventId ∈ acc
      · have h2' : acc.contains e.RecurringEventId = true := by simpa using h2
        simp only [h1', h2', Bool.not_true, Bool.and_false, Bool.false_eq_true, if_false,
          List.mem_cons, exists_eq_or_imp]
        constructor
        · rintro (h | ⟨hx, h⟩)
          · exact Or.inl h
          · exact Or.inr ⟨hx, Or.inr h⟩
        · rintro (h | ⟨hx, h | h⟩)
          · exact Or.inl h
          · exact Or.inl (h ▸ h2)
          · exact Or.inr ⟨hx, h⟩
      · have h2' : acc.contains e.RecurringEventId = false := by simpa using h2
        simp only [h1', h2', Bool.not_false, Bool.and_true, if_true, List.mem_append,
          List.mem_cons, List.not_mem_nil, or_false, exists_eq_or_imp]
        constructor
        · rintro ((h | h) | ⟨hx, h⟩)
          · exact Or.inl h
          · exact Or.inr ⟨h ▸ h1, Or.inl h.symm⟩
          · exact Or.inr ⟨hx, Or.inr h⟩
        · rintro (h | ⟨hx, h | h⟩)
          · exact Or.inl (Or.inl h)
          · exact Or.inl (Or.inr h.symm)
          · exact Or.inr ⟨hx, h⟩

/-- The ids `deleteRecurringEventIDsFromDBCache` collects are the non-empty
recurring-series identifiers of the events of the batch. -/
theorem mem_recurringEventIDs (events : List Event) (x : String) :
    x ∈ recurringEventIDs events ↔ x ≠ "" ∧ ∃ e ∈ events, e.RecurringEventId = x := by
  unfold recurringEventIDs
  rw [mem_recurring_foldl]
  simp

theorem mirrorWriteFailed_append (f : Faults) (a b : List Op) :
    mirrorWriteFailed f (a ++ b) = (mirrorWriteFailed f a || mirrorWriteFailed f b) := by
  simp [mirrorWriteFailed, List.any_append]

/-- The deletion loop: the rows it leaves, the requests it issues, and the
failed write behind its error. -/
theorem deleteCachedEvents_spec (f : Faults) (ids : List String) (db : Db) (ops : List Op) :
    (deleteCachedEvents f ids db ops).db.schedule = db.schedule ∧
    (deleteCachedEvents f ids db ops).db.syncState = db.syncState ∧
    (∀ c ∈ (deleteCachedEvents f ids db ops).db.cache, c ∈ db.cache) ∧
    ((deleteCachedEvents f ids db ops).err = none →
      (deleteCachedEvents f ids db ops).ops = ops ++ ids.map Op.deleteCachedEvent ∧
      (∀ c ∈ (deleteCachedEvents f ids db ops).db.cache, c.EventID ∉ ids) ∧
      mirrorWriteFailed f (deleteCachedEvents f ids db ops).ops = mirrorWriteFailed f ops) ∧
    ((deleteCachedEvents f ids db ops).err ≠ none →
      (deleteCachedEvents f ids db ops).err = some Err.updateCache ∧
      (∃ done, done <+: ids ∧
        (deleteCachedEvents f ids db ops).ops = ops ++ done.map Op.deleteCachedEvent) ∧
      mirrorWriteFailed f (deleteCachedEvents f ids db ops).ops = true) := by
  induction ids generalizing db ops with
  | nil => simp [deleteCachedEvents]
  | cons id rest ih =>
    simp only [deleteCachedEvents]
    cases hf : f.DeleteCachedEvent id with
    | true =>
      rw [if_pos rfl]
      refine ⟨rfl, rfl, fun c hc => hc, fun h => absurd h (by simp), fun _ => ⟨rfl, ?_, ?_⟩⟩
      · exact ⟨[id], by simp, rfl⟩
      · simp [mirrorWriteFailed, hf]
    | false =>
      rw [if_neg (by simp)]
      obtain ⟨h₁, h₂, h₃, h₄, h₅⟩ := ih (DeleteCachedEvent db id) (ops ++ [Op.deleteCachedEvent id])
      have hcache : ∀ c ∈ (DeleteCachedEvent db id).cache, c ∈ db.cache ∧ c.EventID ≠ id := by
        intro c hc
        simpa [DeleteCachedEvent] using hc
      refine ⟨h₁, h₂, fun c hc => (hcache c (h₃ c hc)).1, ?_, ?_⟩
      · intro herr
        obtain ⟨ho, hc, hm⟩ := h₄ herr
        refine ⟨by rw [ho]; simp, ?_, ?_⟩
        · intro c hc'
          simp only [List.mem_cons, not_or]
          exact ⟨(hcache c (h₃ c hc')).2, hc c hc'⟩
        · rw [hm, mirrorWriteFailed_append]
          simp [mirrorWriteFailed, hf]
      · intro herr
        obtain ⟨he, ⟨done, hd, ho⟩, hm⟩ := h₅ herr
        refine ⟨he, ⟨id :: done, ?_, by rw [ho]; simp⟩, hm⟩
        exact List.prefix_cons_inj id |>.mpr hd

/-- The requests already issued do not influence the loop of `updateDBCache`. -/
theorem updateDBCacheLoop_ops (parseRFC3339 : String → Option Int) (s : Syncer) (f : Faults)
    (events : List Event) (db : Db) (ops : List Op) :
    (updateDBCacheLoop parseRFC3339 s f events db ops).ops =
      ops ++ (updateDBCacheLoop parseRFC3339 s f events db []).ops ∧
    (updateDBCacheLoop parseRFC3339 s f events db ops).db =
      (updateDBCacheLoop parseRFC3339 s f events db []).db ∧
    (updateDBCacheLoop parseRFC3339 s f events db ops).err =
      (updateDBCacheLoop parseRFC3339 s f events db []).err := by
  induction events generalizing db ops with
  | nil => simp [updateDBCacheLoop]
  | cons event rest ih =>
    simp only [updateDBCacheLoop]
    split
    · split
      · simp
      · obtain ⟨h₁, h₂, h₃⟩ := ih (DeleteCachedEvent db event.Id)
          (ops ++ [Op.deleteCachedEvent event.Id])
        obtain ⟨k₁, k₂, k₃⟩ := ih (DeleteCachedEvent db event.Id)
          ([] ++ [Op.deleteCachedEvent event.Id])
        rw [h₁, h₂, h₃, k₁, k₂, k₃]
        simp
    · split
      · simp
      · exact ih db ops
      · split
        · simp
        · rename_i parsedInfo _ _ _
          obtain ⟨h₁, h₂, h₃⟩ := ih (UpsertCachedEvent db (cachedEventOf event parsedInfo))
            (ops ++ [Op.upsertCachedEvent (cachedEventOf event parsedInfo)])
          obtain ⟨k₁, k₂, k₃⟩ := ih (UpsertCachedEvent db (cachedEventOf event parsedInfo))
            ([] ++ [Op.upsertCachedEvent (cachedEventOf event parsedInfo)])
          rw [h₁, h₂, h₃, k₁, k₂, k₃]
          simp

/-- The loop of `updateDBCache`: what it leaves untouched, the failed write
behind a returned error, and where the rows of the mirror come from. -/
theorem updateDBCacheLoop_spec (parseRFC3339 : String → Option Int) (s : Syncer) (f : Faults)
    (events : List Event) (db : Db) (ops : List Op) :
    (updateDBCacheLoop parseRFC3339 s f events db ops).db.schedule = db.schedule ∧
    (updateDBCacheLoop parseRFC3339 s f events db ops).db.syncState = db.syncState ∧
    ((updateDBCacheLoop parseRFC3339 s f events db ops).err = none →
      mirrorWriteFailed f (updateDBCacheLoop parseRFC3339 s f events db ops).ops =
        mirrorWriteFailed f ops) ∧
    ((updateDBCacheLoop parseRFC3339 s f events db ops).err = some Err.updateCache →
      mirrorWriteFailed f (updateDBCacheLoop parseRFC3339 s f events db ops).ops = true) ∧
    ((updateDBCacheLoop parseRFC3339 s f events db ops).err = none ∨
      (updateDBCacheLoop parseRFC3339 s f events db ops).err = some Err.updateCache ∨
      (updateDBCacheLoop parseRFC3339 s f events db ops).err = some Err.nilDereference) ∧
    (∀ c ∈ (updateDBCacheLoop parseRFC3339 s f events db ops).db.cache,
      c ∈ db.cache ∨
      ∃ e ∈ events, e.Status ≠ "cancelled" ∧ ∃ info managed,
        ParseEvent parseRFC3339 (some e) s.colorMap = some (some info, managed) ∧
        c = cachedEventOf e info ∧
        Op.upsertCachedEvent c ∈
          (updateDBCacheLoop parseRFC3339 s f events db []).ops) := by
  induction events generalizing db ops with
  | nil => simp [updateDBCacheLoop]
  | cons event rest ih =>
    have hops := fun db₁ ops₁ => (updateDBCacheLoop_ops parseRFC3339 s f rest db₁ ops₁).1
    simp only [updateDBCacheLoop]
    split
    · split
      · rename_i hf
        simp [mirrorWriteFailed, hf]
      · rename_i hc hf
        obtain ⟨h₁, h₂, h₃, h₄, h₅, h₆⟩ := ih (DeleteCachedEvent db event.Id)
          (ops ++ [Op.deleteCachedEvent event.Id])
        refine ⟨h₁, h₂, ?_, h₄, h₅, ?_⟩
        · intro he
          rw [h₃ he, mirrorWriteFailed_append]
          simp [mirrorWriteFailed, hf]
        · intro c hc'
          rcases h₆ c hc' with h | ⟨e, he, hs, info, managed, hp, hce, ho⟩
          · left
            have : c ∈ db.cache ∧ c.EventID ≠ event.Id := by
              simpa [DeleteCachedEvent] using h
            exact this.1
          · right
            refine ⟨e, List.mem_cons_of_mem _ he, hs, info, managed, hp, hce, ?_⟩
            rw [hops]
            exact List.mem_append_right _ ho
    · split
      · simp
      · rename_i hc _ _ hp
        obtain ⟨h₁, h₂, h₃, h₄, h₅, h₆⟩ := ih db ops
        refine ⟨h₁, h₂, h₃, h₄, h₅, ?_⟩
        intro c hc'
        rcases h₆ c hc' with h | ⟨e, he, hs, info, managed, hp, hce, ho⟩
        · exact Or.inl h
        · exact Or.inr ⟨e, List.mem_cons_of_mem _ he, hs, info, managed, hp, hce, ho⟩
      · split
        · rename_i hf
          exact ⟨rfl, rfl, by simp, by simp [mirrorWriteFailed, hf], by simp,
            fun c hc => Or.inl hc⟩
        · rename_i hc _ parsedInfo managed₀ hp hf
          obtain ⟨h₁, h₂, h₃, h₄, h₅, h₆⟩ :=
            ih (UpsertCachedEvent db (cachedEventOf event parsedInfo))
              (ops ++ [Op.upsertCachedEvent (cachedEventOf event parsedInfo)])
          refine ⟨h₁, h₂, ?_, h₄, h₅, ?_⟩
          · intro he
            rw [h₃ he, mirrorWriteFailed_append]
            simp [mirrorWriteFailed, hf]
          · intro c hc'
            rcases h₆ c hc' with h | ⟨e, he, hs, info, managed, hp', hce, ho⟩
            · have : c = cachedEventOf event parsedInfo ∨
                  (c ∈ db.cache ∧ c.EventID ≠ (cachedEventOf event parsedInfo).EventID) := by
                simpa [UpsertCachedEvent] using h
              rcases this with h | h
              · right
                refine ⟨event, List.mem_cons_self _ _, by simpa using hc, parsedInfo, managed₀,
                  hp, h, ?_⟩
                rw [hops, h]
                simp
              · exact Or.inl h.1
            · right
              refine ⟨e, List.mem_cons_of_mem _ he, hs, info, managed, hp', hce, ?_⟩
              rw [hops]
              exact List.mem_append_right _ ho

/-! ## Eviction of series masters -/

/-- Claim C19. The ids `updateDBCache` deletes first are exactly the non-empty
recurring-series identifiers of the events of the batch. When these deletions
succeed, their requests come before every request of the loop over the events
and no row under such an id is left for the loop; when one fails, no event of
the batch is handled at all. Hence after a successful `updateDBCache` a row of
the mirror under such an id was upserted from an event of the same batch that
has that very id. -/
theorem updateDBCache_evicts_series_ids (parseRFC3339 : String → Option Int) (s : Syncer)
    (f : Faults) (db : Db) (changedEvents : List Event) :
    (∀ x, x ∈ recurringEventIDs changedEvents ↔
      x ≠ "" ∧ ∃ e ∈ changedEvents, e.RecurringEventId = x) ∧
    ((deleteRecurringEventIDsFromDBCache f db changedEvents).err = none →
      (∀ c ∈ (deleteRecurringEventIDsFromDBCache f db changedEvents).db.cache,
        c ∈ db.cache ∧ c.EventID ∉ recurringEventIDs changedEvents) ∧
      (updateDBCache parseRFC3339 s f db changedEvents).ops =
        (recurringEventIDs changedEvents).map Op.deleteCachedEvent ++
          (updateDBCacheLoop parseRFC3339 s f changedEvents
            (deleteRecurringEventIDsFromDBCache f db changedEvents).db []).ops ∧
      (updateDBCache parseRFC3339 s f db changedEvents).db =
        (updateDBCacheLoop parseRFC3339 s f changedEvents
          (deleteRecurringEventIDsFromDBCache f db changedEvents).db []).db) ∧
    ((deleteRecurringEventIDsFromDBCache f db changedEvents).err ≠ none →
      (updateDBCache parseRFC3339 s f db changedEvents).err = some Err.updateCache ∧
      ∃ done, done <+: recurringEventIDs changedEvents ∧
        (updateDBCache parseRFC3339 s f db changedEvents).ops =
          done.map Op.deleteCachedEvent) ∧
    ((updateDBCache parseRFC3339 s f db changedEvents).err = none →
      ∀ c ∈ (updateDBCache parseRFC3339 s f db changedEvents).db.cache,
        c.EventID ∈ recurringEventIDs changedEvents →
        ∃ e ∈ changedEvents, e.Id = c.EventID ∧ e.Status ≠ "cancelled" ∧
          Op.upsertCachedEvent c ∈ (updateDBCache parseRFC3339 s f db changedEvents).ops) := by
  obtain ⟨-, -, hsub, hok, hfail⟩ :=
    deleteCachedEvents_spec f (recurringEventIDs changedEvents) db []
  obtain ⟨lo, ld, le⟩ := updateDBCacheLoop_ops parseRFC3339 s f changedEvents
    (deleteRecurringEventIDsFromDBCache f db changedEvents).db
    (deleteRecurringEventIDsFromDBCache f db changedEvents).ops
  have hu : (deleteRecurringEventIDsFromDBCache f db changedEvents).err = none →
      updateDBCache parseRFC3339 s f db changedEvents =
        updateDBCacheLoop parseRFC3339 s f changedEvents
          (deleteRecurringEventIDsFromDBCache f db changedEvents).db
          (deleteRecurringEventIDsFromDBCache f db changedEvents).ops := by
    intro h
    simp [updateDBCache, h]
  have hu' : (deleteRecurringEventIDsFromDBCache f db changedEvents).err ≠ none →
      updateDBCache parseRFC3339 s f db changedEvents =
        deleteRecurringEventIDsFromDBCache f db changedEvents := by
    intro h
    have : (deleteRecurringEventIDsFromDBCache f db changedEvents).err.isSome = true :=
      Option.isSome_iff_ne_none.mpr h
    simp [updateDBCache, this]
  refine ⟨mem_recurringEventIDs changedEvents, ?_, ?_, ?_⟩
  · intro h
    obtain ⟨ho, hc, -⟩ := hok h
    refine ⟨fun c hc' => ⟨hsub c hc', hc c hc'⟩, ?_, ?_⟩
    · rw [hu h, lo]
      unfold deleteRecurringEventIDsFromDBCache
      rw [ho]
      rfl
    · rw [hu h, ld]
  · intro h
    obtain ⟨he, ⟨done, hd, ho⟩, -⟩ := hfail h
    rw [hu' h]
    exact ⟨he, done, hd, by simpa using ho⟩
  · intro herr c hc hid
    by_cases h : (deleteRecurringEventIDsFromDBCache f db changedEvents).err = none
    · obtain ⟨-, hcl, -⟩ := hok h
      rw [hu h] at hc ⊢
      obtain ⟨-, -, -, -, -, hrows⟩ := updateDBCacheLoop_spec parseRFC3339 s f changedEvents
        (deleteRecurringEventIDsFromDBCache f db changedEvents).db
        (deleteRecurringEventIDsFromDBCache f db changedEvents).ops
      rcases hrows c hc with hin | ⟨e, he, hs, info, managed, hp, hce, hop⟩
      · exact absurd hid (hcl c hin)
      · refine ⟨e, he, ?_, hs, ?_⟩
        · rw [hce]
          exact (ParseEvent_EventID parseRFC3339 e s.colorMap info managed hp).symm
        · rw [lo]
          exact List.mem_append_right _ hop
    · rw [hu' h] at herr
      exact absurd herr h

/-! ## Reconciliation leaves the mirror and the sync state alone -/

theorem runSingle_keeps (s : Syncer) (f : Faults) (db : Db) (date : Int) :
    (runSingleReconciliation s f db date).db.cache = db.cache ∧
    (runSingleReconciliation s f db date).db.syncState = db.syncState := by
  refine ⟨(runSingle_leaves_target s f db date).1, ?_⟩
  cases h₁ : f.GetCachedEventsByDate date with
  | true => rw [runSingle_queryCache_fails s f db date h₁]
  | false =>
    cases h₂ : f.GetScheduleEntry date with
    | true => rw [runSingle_fetchSchedule_fails s f db date h₁ h₂]
    | false =>
      obtain ⟨hdb, -, -, -⟩ := runSingle_reads_ok s f db date h₁ h₂
      obtain ⟨-, hsame, hfail, hok⟩ := core_schedule s f db date (authoritativeFor s db date)
      rw [hdb]
      by_cases hcur : GetScheduleEntry db date =
          some (targetEntry s date (authoritativeFor s db date))
      · rw [(hsame hcur).1]
      · cases hup : f.UpsertScheduleEntry (targetEntry s date (authoritativeFor s db date)) with
        | true => rw [(hfail hcur hup).1]
        | false =>
          rw [(hok hcur hup).1]
          rfl

theorem reconcileDates_keeps (s : Syncer) (f : Faults) (dates : List Int)
    (acc : ReconciliationResult) :
    (reconcileDates s f dates acc).db.cache = acc.db.cache ∧
    (reconcileDates s f dates acc).db.syncState = acc.db.syncState := by
  induction dates generalizing acc with
  | nil => simp [reconcileDates]
  | cons date rest ih =>
    simp only [reconcileDates]
    obtain ⟨h₁, h₂⟩ := runSingle_keeps s f acc.db date
    constructor
    · rw [(ih _).1]
      exact h₁
    · rw [(ih _).2]
      exact h₂

theorem RunReconciliation_keeps (s : Syncer) (f : Faults) (db : Db) (dates : List Int)
    (triggeredByIncremental : Bool) :
    (RunReconciliation s f db dates triggeredByIncremental).db.cache = db.cache ∧
    (RunReconciliation s f db dates triggeredByIncremental).db.syncState = db.syncState := by
  obtain ⟨h₁, h₂⟩ := reconcileDates_keeps s f dates
    { err := none, changesForEmail := [], failed := [], db := db, ops := [] }
  unfold RunReconciliation
  simp only []
  split <;> exact ⟨h₁, h₂⟩

/-! ## The cursor and the mirror writes -/

/-- Method `updateDBCache` as a whole: it leaves the sync state alone, and it
returns the error `Err.updateCache` exactly when one of its writes failed. -/
theorem updateDBCache_spec (parseRFC3339 : String → Option Int) (s : Syncer) (f : Faults)
    (db : Db) (changedEvents : List Event) :
    (updateDBCache parseRFC3339 s f db changedEvents).db.syncState = db.syncState ∧
    ((updateDBCache parseRFC3339 s f db changedEvents).err = none →
      mirrorWriteFailed f (updateDBCache parseRFC3339 s f db changedEvents).ops = false) ∧
    ((updateDBCache parseRFC3339 s f db changedEvents).err = some Err.updateCache →
      mirrorWriteFailed f (updateDBCache parseRFC3339 s f db changedEvents).ops = true) ∧
    ((updateDBCache parseRFC3339 s f db changedEvents).err = none ∨
      (updateDBCache parseRFC3339 s f db changedEvents).err = some Err.updateCache ∨
      (updateDBCache parseRFC3339 s f db changedEvents).err = some Err.nilDereference) := by
  obtain ⟨-, hs, -, hok, hfail⟩ :=
    deleteCachedEvents_spec f (recurringEventIDs changedEvents) db []
  obtain ⟨-, ls, lok, lfail, lerr, -⟩ := updateDBCacheLoop_spec parseRFC3339 s f changedEvents
    (deleteRecurringEventIDsFromDBCache f db changedEvents).db
    (deleteRecurringEventIDsFromDBCache f db changedEvents).ops
  by_cases h : (deleteRecurringEventIDsFromDBCache f db changedEvents).err = none
  · have hu : updateDBCache parseRFC3339 s f db changedEvents =
        updateDBCacheLoop parseRFC3339 s f changedEvents
          (deleteRecurringEventIDsFromDBCache f db changedEvents).db
          (deleteRecurringEventIDsFromDBCache f db changedEvents).ops := by
      simp [updateDBCache, h]
    rw [hu]
    refine ⟨ls.trans hs, ?_, lfail, lerr⟩
    intro he
    rw [lok he]
    exact (hok h).2.2.trans (by simp [mirrorWriteFailed])
  · have hu : updateDBCache parseRFC3339 s f db changedEvents =
        deleteRecurringEventIDsFromDBCache f db changedEvents := by
      have : (deleteRecurringEventIDsFromDBCache f db changedEvents).err.isSome = true :=
        Option.isSome_iff_ne_none.mpr h
      simp [updateDBCache, this]
    rw [hu]
    obtain ⟨he, -, hm⟩ := hfail h
    exact ⟨hs, fun h' => absurd h' h, fun _ => hm, Or.inr (Or.inl he)⟩

/-- Claim C11. `RunFullSync` persists the new cursor although a mirror write of
its batch failed: when the listing and the clearing succeed, `updateDBCache`
returns the error of a failed write and the write of the cursor succeeds, the
run reports no error and the stored cursor is the new one. `RunIncrementalSync`
in the same situation returns the error and leaves the stored cursor as it was. -/
theorem RunFullSync_persists_cursor_after_failed_write (parseRFC3339 : String → Option Int)
    (s : Syncer) (f : Faults) (db : Db) (answers : List ListAnswer) (now : Time)
    (allEvents : List Event) (nextSyncToken : String)
    (hfetch : fetchAllEvents answers = some (allEvents, nextSyncToken))
    (hclear : f.ClearCachedEvents = false)
    (hwrite : (updateDBCache parseRFC3339 s f (ClearCachedEvents db) allEvents).err =
      some Err.updateCache)
    (hset : f.SetSyncState "syncToken" nextSyncToken = false) :
    (mirrorWriteFailed f (RunFullSync parseRFC3339 s f db answers now).ops = true ∧
      (RunFullSync parseRFC3339 s f db answers now).err = none ∧
      GetSyncState (RunFullSync parseRFC3339 s f db answers now).db "syncToken" =
        some nextSyncToken) ∧
    (∀ incrementalAnswers syncToken changedEvents token,
      fetchIncrementalChanges incrementalAnswers syncToken = some (changedEvents, token) →
      (updateDBCache parseRFC3339 s f db changedEvents).err = some Err.updateCache →
      (RunIncrementalSync parseRFC3339 s f db incrementalAnswers syncToken).err =
        some Err.updateCache ∧
      (RunIncrementalSync parseRFC3339 s f db incrementalAnswers syncToken).db.syncState =
        db.syncState) := by
  constructor
  · obtain ⟨-, -, hm, -⟩ := updateDBCache_spec parseRFC3339 s f (ClearCachedEvents db) allEvents
    have hc : rebuildEventCache parseRFC3339 s f db allEvents =
        { err := none
          db := (updateDBCache parseRFC3339 s f (ClearCachedEvents db) allEvents).db
          ops := [Op.clearCachedEvents] ++
            (updateDBCache parseRFC3339 s f (ClearCachedEvents db) allEvents).ops } := by
      simp [rebuildEventCache, hclear, hwrite]
    have hr : RunFullSync parseRFC3339 s f db answers now =
        { err := none
          db := (RunReconciliation s f
            (SetSyncState (rebuildEventCache parseRFC3339 s f db allEvents).db "syncToken"
              nextSyncToken)
            (getDatesToConciliateWithDefaultWindow s f
              (SetSyncState (rebuildEventCache parseRFC3339 s f db allEvents).db "syncToken"
                nextSyncToken) allEvents now) false).db
          ops := (rebuildEventCache parseRFC3339 s f db allEvents).ops ++
            [Op.setSyncState "syncToken" nextSyncToken] ++
            (RunReconciliation s f
              (SetSyncState (rebuildEventCache parseRFC3339 s f db allEvents).db "syncToken"
                nextSyncToken)
              (getDatesToConciliateWithDefaultWindow s f
                (SetSyncState (rebuildEventCache parseRFC3339 s f db allEvents).db "syncToken"
                  nextSyncToken) allEvents now) false).ops
          reconciledDates := getDatesToConciliateWithDefaultWindow s f
            (SetSyncState (rebuildEventCache parseRFC3339 s f db allEvents).db "syncToken"
              nextSyncToken) allEvents now } := by
      have hce : (rebuildEventCache parseRFC3339 s f db allEvents).err = none := by rw [hc]
      simp only [RunFullSync, hfetch, hce, hset]
      rfl
    rw [hr]
    refine ⟨?_, rfl, ?_⟩
    · simp only [mirrorWriteFailed_append, hc, hm hwrite]
      simp
    · simp only [GetSyncState]
      rw [(RunReconciliation_keeps s f _ _ false).2]
      exact GetSyncState_SetSyncState _ _ _
  · intro incrementalAnswers syncToken changedEvents token hf hu
    obtain ⟨hs, -, -, -⟩ := updateDBCache_spec parseRFC3339 s f db changedEvents
    have hne : ¬ (changedEvents.length == 0 && token != "") = true := by
      intro h
      simp only [Bool.and_eq_true, beq_iff_eq] at h
      have hnil := List.eq_nil_of_length_eq_zero h.1
      rw [hnil] at hu
      simp [updateDBCache, deleteRecurringEventIDsFromDBCache, recurringEventIDs,
        deleteCachedEvents, updateDBCacheLoop] at hu
    simp only [RunIncrementalSync, hf, hne, hu]
    exact ⟨rfl, hs⟩

theorem RunFullSync_persists_cursor_after_failed_write_witness :
    GetSyncState dbCursor "syncToken" = some "t1" ∧
    mirrorWriteFailed cacheDeleteFails
      (RunFullSync parseRFC3339Sample syncerHOM cacheDeleteFails dbCursor
        [ListAnswer.page [instanceOfM] "" "t2"] { day := 19884, nanos := 0 }).ops = true ∧
    (RunFullSync parseRFC3339Sample syncerHOM cacheDeleteFails dbCursor
      [ListAnswer.page [instanceOfM] "" "t2"] { day := 19884, nanos := 0 }).err = none ∧
    GetSyncState (RunFullSync parseRFC3339Sample syncerHOM cacheDeleteFails dbCursor
      [ListAnswer.page [instanceOfM] "" "t2"] { day := 19884, nanos := 0 }).db "syncToken" =
        some "t2" :=
  ⟨by decide,
   (RunFullSync_persists_cursor_after_failed_write parseRFC3339Sample syncerHOM
      cacheDeleteFails dbCursor [ListAnswer.page [instanceOfM] "" "t2"]
      { day := 19884, nanos := 0 } [instanceOfM] "t2"
      (by decide) (by decide) (by decide) (by decide)).1⟩

/-! ## The mirror after a full sync -/

theorem mirrorRows_cons (parseRFC3339 : String → Option Int) (s : Syncer) (event : Event)
    (rest : List Event) :
    mirrorRows parseRFC3339 s (event :: rest) =
      (if event.Status == "cancelled" then []
       else
        match ParseEvent parseRFC3339 (some event) s.colorMap with
        | some (some parsedInfo, _) => [cachedEventOf event parsedInfo]
        | _ => []) ++ mirrorRows parseRFC3339 s rest := by
  by_cases hc : event.Status = "cancelled"
  · simp [mirrorRows, List.filterMap_cons, hc]
  · cases hp : ParseEvent parseRFC3339 (some event) s.colorMap with
    | none => simp [mirrorRows, List.filterMap_cons, hc, hp]
    | some pr =>
      obtain ⟨info, managed⟩ := pr
      cases info <;> simp [mirrorRows, List.filterMap_cons, hc, hp]

/-- The loop of `updateDBCache` on a batch of pairwise distinct ids none of
which is in the mirror: the rows of the batch are put before the old ones, last
event first. -/
theorem updateDBCacheLoop_rows (parseRFC3339 : String → Option Int) (s : Syncer) (f : Faults)
    (events : List Event) (db : Db) (ops : List Op)
    (herr : (updateDBCacheLoop parseRFC3339 s f events db ops).err = none)
    (hids : (events.map (fun e => e.Id)).Nodup)
    (hfresh : ∀ c ∈ db.cache, c.EventID ∉ events.map (fun e => e.Id)) :
    (updateDBCacheLoop parseRFC3339 s f events db ops).db.cache =
      (mirrorRows parseRFC3339 s events).reverse ++ db.cache := by
  induction events generalizing db ops with
  | nil => simp [updateDBCacheLoop, mirrorRows]
  | cons event rest ih =>
    rw [mirrorRows_cons]
    simp only [List.map_cons, List.nodup_cons] at hids
    have hfresh₁ : ∀ c ∈ db.cache, c.EventID ≠ event.Id := by
      intro c hc h
      exact hfresh c hc (by simp [h])
    have hfresh₂ : ∀ c ∈ db.cache, c.EventID ∉ rest.map (fun e => e.Id) := by
      intro c hc h
      exact hfresh c hc (by simp only [List.map_cons, List.mem_cons]; exact Or.inr h)
    have hfilter : db.cache.filter (fun e => e.EventID != event.Id) = db.cache := by
      rw [List.filter_eq_self]
      intro c hc
      simpa using hfresh₁ c hc
    simp only [updateDBCacheLoop] at herr ⊢
    split
    · rename_i hc
      simp only [hc, if_true] at herr
      split at herr
      · simp at herr
      · rename_i hf
        simp only [hf, Bool.false_eq_true, if_false]
        have hdb : DeleteCachedEvent db event.Id = db := by
          simp only [DeleteCachedEvent, hfilter]
        rw [hdb] at herr ⊢
        rw [ih db _ herr hids.2 hfresh₂]
        simp
    · rename_i hc
      simp only [hc, Bool.false_eq_true, if_false] at herr
      split at herr
      · simp at herr
      · rename_i hp
        simp only [hp]
        rw [ih db _ herr hids.2 hfresh₂]
        simp
      · rename_i parsedInfo managed hp
        simp only [hp]
        split at herr
        · simp at herr
        · rename_i hf
          simp only [hf, Bool.false_eq_true, if_false]
          have hid : (cachedEventOf event parsedInfo).EventID = event.Id :=
            ParseEvent_EventID parseRFC3339 event s.colorMap parsedInfo managed hp
          have hdb : (UpsertCachedEvent db (cachedEventOf event parsedInfo)).cache =
              cachedEventOf event parsedInfo :: db.cache := by
            simp only [UpsertCachedEvent, hid, hfilter]
          rw [ih _ _ herr hids.2, hdb]
          · simp
          · intro c hc'
            rw [hdb] at hc'
            rcases List.mem_cons.mp hc' with h | h
            · rw [h, hid]
              exact hids.1
            · exact hfresh₂ c h

theorem mem_mirrorRows (parseRFC3339 : String → Option Int) (s : Syncer) (events : List Event)
    (c : CachedEvent) :
    c ∈ mirrorRows parseRFC3339 s events ↔
      ∃ e ∈ events, e.Status ≠ "cancelled" ∧ ∃ info managed,
        ParseEvent parseRFC3339 (some e) s.colorMap = some (some info, managed) ∧
        c = cachedEventOf e info := by
  induction events with
  | nil => simp [mirrorRows]
  | cons event rest ih =>
    rw [mirrorRows_cons, List.mem_append, ih]
    simp only [List.mem_cons, exists_eq_or_imp]
    apply or_congr_left
    by_cases hc : event.Status = "cancelled"
    · simp [hc]
    · cases hp : ParseEvent parseRFC3339 (some event) s.colorMap with
      | none => simp [hc]
      | some pr =>
        obtain ⟨info, managed⟩ := pr
        cases info with
        | none => simp [hc]
        | some info => simp [hc]

theorem mirrorRows_ids_sublist (parseRFC3339 : String → Option Int) (s : Syncer)
    (events : List Event) :
    List.Sublist ((mirrorRows parseRFC3339 s events).map (fun c => c.EventID))
      (events.map (fun e => e.Id)) := by
  induction events with
  | nil => simp [mirrorRows]
  | cons event rest ih =>
    rw [mirrorRows_cons, List.map_append, List.map_cons]
    by_cases hc : event.Status = "cancelled"
    · simpa [hc] using List.Sublist.cons _ ih
    · cases hp : ParseEvent parseRFC3339 (some event) s.colorMap with
      | none => simpa [hc] using List.Sublist.cons _ ih
      | some pr =>
        obtain ⟨info, managed⟩ := pr
        cases info with
        | none => simpa [hc] using List.Sublist.cons _ ih
        | some info =>
          have hid : (cachedEventOf event info).EventID = event.Id :=
            ParseEvent_EventID parseRFC3339 event s.colorMap info managed hp
          simp only [hc, beq_iff_eq, if_false, List.map_cons, List.map_nil,
            List.singleton_append, hid]
          exact List.Sublist.cons₂ _ ih

theorem filter_EventID_of_nodup (l : List CachedEvent) (x : CachedEvent) (hx : x ∈ l)
    (hn : (l.map (fun c => c.EventID)).Nodup) :
    l.filter (fun c => c.EventID == x.EventID) = [x] := by
  induction l with
  | nil => simp at hx
  | cons a t ih =>
    simp only [List.map_cons, List.nodup_cons, List.mem_map, not_exists, not_and] at hn
    rcases List.mem_cons.mp hx with h | h
    · subst h
      have : t.filter (fun c => c.EventID == x.EventID) = [] := by
        rw [List.filter_eq_nil_iff]
        intro c hc
        simpa using hn.1 c hc
      simp [List.filter_cons, this]
    · have hne : ¬ a.EventID = x.EventID := fun e => hn.1 x h e.symm
      simp [List.filter_cons, hne, ih h hn.2]

theorem updateDBCache_eq (parseRFC3339 : String → Option Int) (s : Syncer) (f : Faults)
    (db : Db) (changedEvents : List Event) :
    ((deleteRecurringEventIDsFromDBCache f db changedEvents).err = none →
      updateDBCache parseRFC3339 s f db changedEvents =
        updateDBCacheLoop parseRFC3339 s f changedEvents
          (deleteRecurringEventIDsFromDBCache f db changedEvents).db
          (deleteRecurringEventIDsFromDBCache f db changedEvents).ops) ∧
    ((deleteRecurringEventIDsFromDBCache f db changedEvents).err ≠ none →
      updateDBCache parseRFC3339 s f db changedEvents =
        deleteRecurringEventIDsFromDBCache f db changedEvents) := by
  constructor
  · intro h
    simp [updateDBCache, h]
  · intro h
    have : (deleteRecurringEventIDsFromDBCache f db changedEvents).err.isSome = true :=
      Option.isSome_iff_ne_none.mpr h
    simp [updateDBCache, this]

/-- The shape of a `RunFullSync` whose listing, clearing and cursor write
succeed and whose mirror update does not panic. -/
theorem RunFullSync_shape (parseRFC3339 : String → Option Int) (s : Syncer) (f : Faults)
    (db : Db) (answers : List ListAnswer) (now : Time) (allEvents : List Event)
    (nextSyncToken : String)
    (hfetch : fetchAllEvents answers = some (allEvents, nextSyncToken))
    (hclear : f.ClearCachedEvents = false)
    (hnil : (updateDBCache parseRFC3339 s f (ClearCachedEvents db) allEvents).err ≠
      some Err.nilDereference)
    (hset : f.SetSyncState "syncToken" nextSyncToken = false) :
    (RunFullSync parseRFC3339 s f db answers now).err = none ∧
    (RunFullSync parseRFC3339 s f db answers now).db.cache =
      (updateDBCache parseRFC3339 s f (ClearCachedEvents db) allEvents).db.cache ∧
    ∃ more, (RunFullSync parseRFC3339 s f db answers now).ops =
      [Op.clearCachedEvents] ++
        (updateDBCache parseRFC3339 s f (ClearCachedEvents db) allEvents).ops ++
        [Op.setSyncState "syncToken" nextSyncToken] ++ more := by
  have hc : rebuildEventCache parseRFC3339 s f db allEvents =
      { err := none
        db := (updateDBCache parseRFC3339 s f (ClearCachedEvents db) allEvents).db
        ops := [Op.clearCachedEvents] ++
          (updateDBCache parseRFC3339 s f (ClearCachedEvents db) allEvents).ops } := by
    simp [rebuildEventCache, hclear, hnil]
  simp only [RunFullSync, hfetch, hc, hset]
  refine ⟨rfl, ?_, ⟨_, rfl⟩⟩
  exact (RunReconciliation_keeps s f _ _ false).1

/-- Claim C12, as amended. After a `RunFullSync` that returns no error and in
which no mirror write failed, on a listing whose ids are pairwise distinct, the
mirror consists of the rows of the listed events that are not cancelled and
that `ParseEvent` accepts, one row each and under the event's id, and of
nothing else. -/
theorem RunFullSync_mirror_rows (parseRFC3339 : String → Option Int) (s : Syncer) (f : Faults)
    (db : Db) (answers : List ListAnswer) (now : Time) (allEvents : List Event)
    (nextSyncToken : String)
    (hfetch : fetchAllEvents answers = some (allEvents, nextSyncToken))
    (herr : (RunFullSync parseRFC3339 s f db answers now).err = none)
    (hwrites : mirrorWriteFailed f (RunFullSync parseRFC3339 s f db answers now).ops = false)
    (hids : (allEvents.map (fun e => e.Id)).Nodup) :
    (RunFullSync parseRFC3339 s f db answers now).db.cache =
      (mirrorRows parseRFC3339 s allEvents).reverse ∧
    ((RunFullSync parseRFC3339 s f db answers now).db.cache.map
      (fun c => c.EventID)).Nodup ∧
    (∀ e ∈ allEvents, e.Status ≠ "cancelled" → ∀ info managed,
      ParseEvent parseRFC3339 (some e) s.colorMap = some (some info, managed) →
      (RunFullSync parseRFC3339 s f db answers now).db.cache.filter
        (fun c => c.EventID == e.Id) = [cachedEventOf e info]) ∧
    (∀ c ∈ (RunFullSync parseRFC3339 s f db answers now).db.cache,
      ∃ e ∈ allEvents, e.Status ≠ "cancelled" ∧ ∃ info managed,
        ParseEvent parseRFC3339 (some e) s.colorMap = some (some info, managed) ∧
        c = cachedEventOf e info) := by
  have hclear : f.ClearCachedEvents = false := by
    cases h : f.ClearCachedEvents with
    | false => rfl
    | true => simp [RunFullSync, hfetch, rebuildEventCache, h] at herr
  have hnil : (updateDBCache parseRFC3339 s f (ClearCachedEvents db) allEvents).err ≠
      some Err.nilDereference := by
    intro h
    simp [RunFullSync, hfetch, rebuildEventCache, hclear, h] at herr
  have hset : f.SetSyncState "syncToken" nextSyncToken = false := by
    cases h : f.SetSyncState "syncToken" nextSyncToken with
    | false => rfl
    | true => simp [RunFullSync, hfetch, rebuildEventCache, hclear, hnil, h] at herr
  obtain ⟨-, hcache, more, hops⟩ :=
    RunFullSync_shape parseRFC3339 s f db answers now allEvents nextSyncToken hfetch hclear
      hnil hset
  obtain ⟨-, -, hfailed, hkinds⟩ :=
    updateDBCache_spec parseRFC3339 s f (ClearCachedEvents db) allEvents
  have hu : (updateDBCache parseRFC3339 s f (ClearCachedEvents db) allEvents).err = none := by
    rcases hkinds with h | h | h
    · exact h
    · have := hfailed h
      rw [hops] at hwrites
      simp only [mirrorWriteFailed_append, this, Bool.or_true, Bool.true_or] at hwrites
      exact absurd hwrites (by simp)
    · exact absurd h hnil
  obtain ⟨heq, hne⟩ := updateDBCache_eq parseRFC3339 s f (ClearCachedEvents db) allEvents
  have hdel : (deleteRecurringEventIDsFromDBCache f (ClearCachedEvents db) allEvents).err =
      none := by
    by_contra h
    rw [hne h] at hu
    exact h hu
  obtain ⟨-, -, hsub, -, -⟩ :=
    deleteCachedEvents_spec f (recurringEventIDs allEvents) (ClearCachedEvents db) []
  have hempty : (deleteRecurringEventIDsFromDBCache f (ClearCachedEvents db)
      allEvents).db.cache = [] := by
    apply List.eq_nil_iff_forall_not_mem.mpr
    intro c hc
    have := hsub c hc
    simp [ClearCachedEvents] at this
  have hrows : (RunFullSync parseRFC3339 s f db answers now).db.cache =
      (mirrorRows parseRFC3339 s allEvents).reverse := by
    rw [hcache]
    rw [heq hdel] at hu ⊢
    rw [updateDBCacheLoop_rows parseRFC3339 s f allEvents _ _ hu hids
      (by rw [hempty]; simp), hempty]
    simp
  have hnodup : ((RunFullSync parseRFC3339 s f db answers now).db.cache.map
      (fun c => c.EventID)).Nodup := by
    rw [hrows, List.map_reverse, List.nodup_reverse]
    exact List.Nodup.sublist (mirrorRows_ids_sublist parseRFC3339 s allEvents) hids
  have hmem : ∀ c, c ∈ (RunFullSync parseRFC3339 s f db answers now).db.cache ↔
      c ∈ mirrorRows parseRFC3339 s allEvents := by
    intro c
    rw [hrows, List.mem_reverse]
  refine ⟨hrows, hnodup, ?_, ?_⟩
  · intro e he hs info managed hp
    have hin : cachedEventOf e info ∈
        (RunFullSync parseRFC3339 s f db answers now).db.cache :=
      (hmem _).mpr ((mem_mirrorRows parseRFC3339 s allEvents _).mpr
        ⟨e, he, hs, info, managed, hp, rfl⟩)
    have hid : (cachedEventOf e info).EventID = e.Id :=
      ParseEvent_EventID parseRFC3339 e s.colorMap info managed hp
    rw [← hid]
    exact filter_EventID_of_nodup _ _ hin hnodup
  · intro c hc
    exact (mem_mirrorRows parseRFC3339 s allEvents c).mp ((hmem c).mp hc)

theorem mirrorWriteFailed_noFaults (ops : List Op) : mirrorWriteFailed noFaults ops = false := by
  induction ops with
  | nil => rfl
  | cons op rest ih =>
    have h : mirrorWriteFailed noFaults (op :: rest) =
        (mirrorWriteFailed noFaults [op] || mirrorWriteFailed noFaults rest) :=
      mirrorWriteFailed_append noFaults [op] rest
    rw [h, ih]
    cases op <;> rfl

theorem RunFullSync_mirror_rows_witness :
    fetchAllEvents [ListAnswer.page [managedHome, dentist] "" "t2"] =
      some ([managedHome, dentist], "t2") ∧
    (RunFullSync parseRFC3339Sample syncerHOM noFaults dbCursor
      [ListAnswer.page [managedHome, dentist] "" "t2"] { day := 19884, nanos := 0 }).err =
        none ∧
    (RunFullSync parseRFC3339Sample syncerHOM noFaults dbCursor
      [ListAnswer.page [managedHome, dentist] "" "t2"] { day := 19884, nanos := 0 }).db.cache =
        [rowHome] :=
  ⟨by decide,
   (RunFullSync_shape parseRFC3339Sample syncerHOM noFaults dbCursor
      [ListAnswer.page [managedHome, dentist] "" "t2"] { day := 19884, nanos := 0 }
      [managedHome, dentist] "t2" (by decide) (by decide) (by decide) (by decide)).1,
   (RunFullSync_mirror_rows parseRFC3339Sample syncerHOM noFaults dbCursor
      [ListAnswer.page [managedHome, dentist] "" "t2"] { day := 19884, nanos := 0 }
      [managedHome, dentist] "t2" (by decide)
      (RunFullSync_shape parseRFC3339Sample syncerHOM noFaults dbCursor
        [ListAnswer.page [managedHome, dentist] "" "t2"] { day := 19884, nanos := 0 }
        [managedHome, dentist] "t2" (by decide) (by decide) (by decide) (by decide)).1
      (mirrorWriteFailed_noFaults _) (by decide)).1.trans (by decide)⟩

/-- Claim C12, counterexample. The full listing returns the event "U", which
carries no marker; `RunFullSync` returns no error, no mirror write fails, and
the mirror holds no entry under "U". -/
theorem RunFullSync_unmanaged_event_not_mirrored :
    fetchAllEvents [ListAnswer.page [dentist] "" "t2"] = some ([dentist], "t2") ∧
    (RunFullSync parseRFC3339Sample syncerHOM noFaults dbEmpty
      [ListAnswer.page [dentist] "" "t2"] { day := 19884, nanos := 0 }).err = none ∧
    mirrorWriteFailed noFaults (RunFullSync parseRFC3339Sample syncerHOM noFaults dbEmpty
      [ListAnswer.page [dentist] "" "t2"] { day := 19884, nanos := 0 }).ops = false ∧
    (RunFullSync parseRFC3339Sample syncerHOM noFaults dbEmpty
      [ListAnswer.page [dentist] "" "t2"] { day := 19884, nanos := 0 }).db.cache.filter
        (fun c => c.EventID == dentist.Id) = [] := by
  obtain ⟨h₁, h₂, -⟩ := RunFullSync_shape parseRFC3339Sample syncerHOM noFaults dbEmpty
    [ListAnswer.page [dentist] "" "t2"] { day := 19884, nanos := 0 } [dentist] "t2"
    (by decide) (by decide) (by decide) (by decide)
  refine ⟨by decide, h₁, mirrorWriteFailed_noFaults _, ?_⟩
  rw [h₂]
  decide

/-! ## Changed events the parser rejects -/

/-- Claim C13. A changed event that is not cancelled and that `ParseEvent`
rejects (it lost its markers, or is no longer a single all-day event) makes
`updateDBCache` issue no write at all: the incremental sync returns no error
and the mirror still holds, under the id of that event, the row it held before,
whereas a full sync of a listing with that event leaves no row at all. -/
theorem RunIncrementalSync_keeps_stale_row (parseRFC3339 : String → Option Int) (s : Syncer)
    (f : Faults) (db : Db) (answers : List ListAnswer) (syncToken nextSyncToken : String)
    (event : Event) (managed : Bool) (old : CachedEvent)
    (hfetch : fetchIncrementalChanges answers syncToken = some ([event], nextSyncToken))
    (hstatus : event.Status ≠ "cancelled")
    (hseries : event.RecurringEventId = "")
    (hparse : ParseEvent parseRFC3339 (some event) s.colorMap = some (none, managed))
    (hold : GetCachedEventByID db event.Id = some old)
    (hset : f.SetSyncState "syncToken" nextSyncToken = false) :
    (updateDBCache parseRFC3339 s f db [event]).ops = [] ∧
    (RunIncrementalSync parseRFC3339 s f db answers syncToken).err = none ∧
    GetCachedEventByID (RunIncrementalSync parseRFC3339 s f db answers syncToken).db event.Id =
      some old ∧
    (∀ fullAnswers now, fetchAllEvents fullAnswers = some ([event], nextSyncToken) →
      f.ClearCachedEvents = false →
      (RunFullSync parseRFC3339 s f db fullAnswers now).err = none ∧
      (RunFullSync parseRFC3339 s f db fullAnswers now).db.cache = []) := by
  have hu : ∀ db₀ : Db, updateDBCache parseRFC3339 s f db₀ [event] =
      { err := none, db := db₀, ops := [] } := by
    intro db₀
    simp [updateDBCache, deleteRecurringEventIDsFromDBCache, recurringEventIDs, hseries,
      deleteCachedEvents, updateDBCacheLoop, hstatus, hparse]
  refine ⟨by rw [hu], ?_, ?_, ?_⟩
  · simp only [RunIncrementalSync, hfetch, hu]
    by_cases ht : nextSyncToken = "" <;> simp [ht, hset]
  · have hcache : (RunIncrementalSync parseRFC3339 s f db answers syncToken).db.cache =
        db.cache := by
      have hrec : (reconciliate s f db (getDatesToConciliate f db [event])).1.cache =
          db.cache := by
        unfold reconciliate
        split
        · exact (RunReconciliation_keeps s f db _ true).1
        · rfl
      simp only [RunIncrementalSync, hfetch, hu]
      by_cases ht : nextSyncToken = "" <;> simp [ht, hset, hrec, SetSyncState]
    simp only [GetCachedEventByID] at hold ⊢
    rw [hcache]
    exact hold
  · intro fullAnswers now hfull hclear
    obtain ⟨h₁, h₂, -⟩ := RunFullSync_shape parseRFC3339 s f db fullAnswers now [event]
      nextSyncToken hfull hclear (by rw [hu]; simp) hset
    refine ⟨h₁, ?_⟩
    rw [h₂, hu]
    rfl

theorem RunIncrementalSync_keeps_stale_row_witness :
    GetCachedEventByID dbHome "H" = some rowHome ∧
    (RunIncrementalSync parseRFC3339Sample syncerHOM noFaults dbHome
      [ListAnswer.page [stretchedHome] "" "t2"] "t1").err = none ∧
    GetCachedEventByID (RunIncrementalSync parseRFC3339Sample syncerHOM noFaults dbHome
      [ListAnswer.page [stretchedHome] "" "t2"] "t1").db stretchedHome.Id = some rowHome ∧
    rowHome.Title ≠ some stretchedHome.Summary :=
  ⟨by decide,
   (RunIncrementalSync_keeps_stale_row parseRFC3339Sample syncerHOM noFaults dbHome
      [ListAnswer.page [stretchedHome] "" "t2"] "t1" "t2" stretchedHome false rowHome
      (by decide) (by decide) (by decide) (by decide) (by decide) (by decide)).2.1,
   (RunIncrementalSync_keeps_stale_row parseRFC3339Sample syncerHOM noFaults dbHome
      [ListAnswer.page [stretchedHome] "" "t2"] "t1" "t2" stretchedHome false rowHome
      (by decide) (by decide) (by decide) (by decide) (by decide) (by decide)).2.2.1,
   by decide⟩

/-! ## Webhook notifications -/

/-- Claim C23. For every POST notification that passes the token validation,
`HandleWebhook` calls `RequestSync` once when the resource state is "exists" or
"not_exists" and not at all for every other state (the "sync" handshake
included), and it answers with HTTP 200 in both cases. -/
theorem HandleWebhook_validated (h : WebhookHandler) (r : Request)
    (hpost : r.Method = "POST") (hvalid : passesTokenValidation h r = true) :
    ((HandleWebhook h r).syncRequests = 1 ↔
      (r.channelState = "exists" ∨ r.channelState = "not_exists")) ∧
    (¬ (r.channelState = "exists" ∨ r.channelState = "not_exists") →
      (HandleWebhook h r).syncRequests = 0) ∧
    (HandleWebhook h r).status = StatusOK := by
  have hrej : (if h.verificationToken == "" then false
      else if r.channelToken != h.verificationToken then true else false) = false := by
    simp only [passesTokenValidation, Bool.or_eq_true, beq_iff_eq] at hvalid
    rcases hvalid with hv | hv
    · simp [hv]
    · simp [hv]
  simp only [HandleWebhook, hpost, hrej]
  by_cases h₁ : r.channelState = "exists"
  · simp [h₁]
  · by_cases h₂ : r.channelState = "not_exists"
    · simp [h₂]
    · simp [h₁, h₂]

theorem HandleWebhook_validated_witness :
    (HandleWebhook (NewWebhookHandler "secret")
      { Method := "POST", channelToken := "secret", channelState := "exists" }).syncRequests
        = 1 ∧
    (HandleWebhook (NewWebhookHandler "secret")
      { Method := "POST", channelToken := "secret", channelState := "sync" }).syncRequests
        = 0 ∧
    (HandleWebhook (NewWebhookHandler "secret")
      { Method := "POST", channelToken := "secret", channelState := "sync" }).status
        = StatusOK :=
  ⟨(HandleWebhook_validated (NewWebhookHandler "secret")
      { Method := "POST", channelToken := "secret", channelState := "exists" }
      (by decide) (by decide)).1.mpr (by decide),
   (HandleWebhook_validated (NewWebhookHandler "secret")
      { Method := "POST", channelToken := "secret", channelState := "sync" }
      (by decide) (by decide)).2.1 (by decide),
   (HandleWebhook_validated (NewWebhookHandler "secret")
      { Method := "POST", channelToken := "secret", channelState := "sync" }
      (by decide) (by decide)).2.2⟩

/-- A configuration `LoadConfig` returns has a non-empty verification token,
the value of the variable `WEBHOOK_VERIFICATION_TOKEN`. -/
theorem LoadConfig_token (atoi : String → Option Int) (env : String → Option String)
    (cfg : Config) (h : LoadConfig atoi env = some cfg) :
    cfg.Google.WebhookVerificationToken ≠ "" ∧
    env "WEBHOOK_VERIFICATION_TOKEN" = some cfg.Google.WebhookVerificationToken := by
  unfold LoadConfig at h
  repeat' split at h
  all_goals try (exfalso; simp at h; done)
  all_goals
    simp only [] at h
    split_ifs at h with h₁ h₂ h₃ h₄ h₅
    simp only [Option.some.injEq] at h
    subst h
    simp only [getEnvOrErr] at *
    exact ⟨by simpa using h₂, by assumption⟩

/-- A handler with a configured token rejects every notification with another
channel token. -/
theorem HandleWebhook_rejects (h : WebhookHandler) (r : Request)
    (hconfigured : h.verificationToken ≠ "")
    (hdiff : r.channelToken ≠ h.verificationToken) :
    (HandleWebhook h r).status ≠ StatusOK ∧
    (HandleWebhook h r).syncRequests = 0 ∧
    (r.Method = "POST" → (HandleWebhook h r).status = StatusForbidden) := by
  by_cases hm : r.Method = "POST"
  · simp [HandleWebhook, hm, hconfigured, hdiff, StatusOK, StatusForbidden]
  · simp [HandleWebhook, hm, StatusOK, StatusMethodNotAllowed]

/-- Claim C24. The handler of the server is built from a configuration
`LoadConfig` returned, so its verification token is not empty. For every
notification whose channel token differs from that token, `HandleWebhook`
rejects the request: it does not answer with success (a POST request is
answered with HTTP 403) and calls `RequestSync` not at all, whatever the
resource state. -/
theorem HandleWebhook_token_mismatch (atoi : String → Option Int)
    (env : String → Option String) (cfg : Config) (r : Request)
    (hload : LoadConfig atoi env = some cfg)
    (hdiff : r.channelToken ≠ (serverHandler cfg).verificationToken) :
    (serverHandler cfg).verificationToken ≠ "" ∧
    (HandleWebhook (serverHandler cfg) r).status ≠ StatusOK ∧
    (HandleWebhook (serverHandler cfg) r).syncRequests = 0 ∧
    (r.Method = "POST" → (HandleWebhook (serverHandler cfg) r).status = StatusForbidden) :=
  ⟨(LoadConfig_token atoi env cfg hload).1,
    HandleWebhook_rejects (serverHandler cfg) r (LoadConfig_token atoi env cfg hload).1 hdiff⟩

theorem HandleWebhook_token_mismatch_witness :
    (LoadConfig atoiSample envSample).map
        (fun cfg => (serverHandler cfg).verificationToken) = some "secret" ∧
    (LoadConfig atoiSample envSample).map
        (fun cfg => HandleWebhook (serverHandler cfg)
          { Method := "POST", channelToken := "forged", channelState := "exists" }) =
      some { status := StatusForbidden, syncRequests := 0 } := by
  cases hload : LoadConfig atoiSample envSample with
  | none => exact absurd hload (by decide)
  | some cfg =>
    have htoken : (serverHandler cfg).verificationToken = "secret" := by
      have h := (LoadConfig_token atoiSample envSample cfg hload).2
      have h' : envSample "WEBHOOK_VERIFICATION_TOKEN" = some "secret" := by decide
      rw [h'] at h
      exact (Option.some.inj h).symm
    obtain ⟨-, -, hsync, hstatus⟩ := HandleWebhook_token_mismatch atoiSample envSample cfg
      { Method := "POST", channelToken := "forged", channelState := "exists" } hload
      (by rw [htoken]; decide)
    refine ⟨by rw [Option.map_some', htoken], ?_⟩
    rw [Option.map_some']
    congr 1
    cases hr : HandleWebhook (serverHandler cfg)
      { Method := "POST", channelToken := "forged", channelState := "exists" } with
    | mk status syncRequests =>
      rw [hr] at hsync hstatus
      simp only at hsync hstatus
      rw [hsync, hstatus trivial]

/-! ## The events `ParseEvent` accepts -/

theorem HasManagedProperty_iff (event : Event) :
    HasManagedProperty event = true ↔
      ∃ ep m, event.ExtendedProperties = some ep ∧ ep.Private = some m ∧
        m.lookup ManagedPropertyKey = some "true" := by
  unfold HasManagedProperty
  cases hep : event.ExtendedProperties with
  | none => simp
  | some ep =>
    cases hm : ep.Private with
    | none => simp [hm]
    | some m =>
      cases hl : m.lookup ManagedPropertyKey with
      | none => simp [hm, hl]
      | some val => simp [hm, hl]

/-- The result of `ParseEvent` on an event with a start and an end, by cases. -/
theorem ParseEvent_cases (parseRFC3339 : String → Option Int) (event : Event)
    (colorMap : List (LocationStatus × String)) (start ending : EventDateTime)
    (hs : event.Start = some start) (he : event.End = some ending) :
    ((HasManagedProperty event || HasDescriptionTag event) = true →
      ∀ d ts, parseDate start.Date = some d → parseDate ending.Date = some (d + 1) →
        parseRFC3339 event.Updated = some ts →
        ∃ info, ParseEvent parseRFC3339 (some event) colorMap = some (some info, true) ∧
          info.EventID = event.Id ∧ info.Date = d ∧
          info.LocationCode = stringsTrimSpace event.Summary ∧
          info.Status = DetermineStatus (stringsTrimSpace event.Summary) ∧
          info.UpdatedTs = ts) ∧
    (¬ ((HasManagedProperty event || HasDescriptionTag event) = true ∧
        ∃ d, parseDate start.Date = some d ∧ parseDate ending.Date = some (d + 1) ∧
          ∃ ts, parseRFC3339 event.Updated = some ts) →
      ParseEvent parseRFC3339 (some event) colorMap = some (none, false)) := by
  have hempty : parseDate "" = none := by decide
  constructor
  · intro hm d ts hd hend hts
    have hne : start.Date ≠ "" := by
      intro h
      rw [h, hempty] at hd
      exact absurd hd (by simp)
    have hm' : (!HasManagedProperty event && !HasDescriptionTag event) = false := by
      cases h₁ : HasManagedProperty event <;> cases h₂ : HasDescriptionTag event <;>
        simp_all
    simp only [ParseEvent, hm', hs, he, hd, hend, hts]
    simp [hne]
  · intro hnot
    by_cases hm : (!HasManagedProperty event && !HasDescriptionTag event) = true
    · simp [ParseEvent, hm]
    · have hm' : (HasManagedProperty event || HasDescriptionTag event) = true := by
        cases h₁ : HasManagedProperty event <;> cases h₂ : HasDescriptionTag event <;>
          simp_all
      simp only [ParseEvent, hm, hs, he]
      by_cases hne : start.Date = ""
      · simp [hne]
      · cases hd : parseDate start.Date with
        | none => simp [hne]
        | some d =>
          cases hend : parseDate ending.Date with
          | none => simp [hne]
          | some e =>
            by_cases hde : d + 1 = e
            · cases hts : parseRFC3339 event.Updated with
              | none => simp [hne, hde]
              | some ts =>
                exact absurd ⟨hm', d, hd, by rw [hend, hde], ts, hts⟩ hnot
            · simp [hne, hde]

/-- Trimming by a predicate: the text is the trimmed text between two runs of
characters that satisfy the predicate, and the trimmed text neither starts
nor ends with such a character. -/
theorem trim_chars_spec (p : Char → Bool) (l : List Char) :
    ∃ a b, l = a ++ ((l.dropWhile p).reverse.dropWhile p).reverse ++ b ∧
      (∀ c ∈ a, p c = true) ∧ (∀ c ∈ b, p c = true) ∧
      (∀ c, ((l.dropWhile p).reverse.dropWhile p).reverse.head? = some c → p c = false) ∧
      (∀ c, ((l.dropWhile p).reverse.dropWhile p).reverse.getLast? = some c →
        p c = false) := by
  have hdrop : ∀ (m : List Char) (c : Char), (m.dropWhile p).head? = some c → p c = false := by
    intro m c hc
    have := List.head?_dropWhile_not p m
    rw [hc] at this
    exact this
  have hm : l.dropWhile p =
      ((l.dropWhile p).reverse.dropWhile p).reverse ++
        ((l.dropWhile p).reverse.takeWhile p).reverse := by
    rw [← List.reverse_append, List.takeWhile_append_dropWhile, List.reverse_reverse]
  refine ⟨l.takeWhile p, ((l.dropWhile p).reverse.takeWhile p).reverse, ?_, ?_, ?_, ?_, ?_⟩
  · rw [List.append_assoc, ← hm, List.takeWhile_append_dropWhile]
  · exact fun c hc => List.mem_takeWhile_imp hc
  · exact fun c hc => List.mem_takeWhile_imp (List.mem_reverse.mp hc)
  · intro c hc
    apply hdrop l c
    have hne : ((l.dropWhile p).reverse.dropWhile p).reverse ≠ [] := by
      intro h
      rw [h] at hc
      simp at hc
    rw [hm, List.head?_append_of_ne_nil _ hne]
    exact hc
  · intro c hc
    rw [List.getLast?_reverse] at hc
    exact hdrop _ c hc

/-- Function `strings.TrimSpace` removes exactly the white space at both ends. -/
theorem stringsTrimSpace_spec (s : String) :
    ∃ a b, s.data = a ++ (stringsTrimSpace s).data ++ b ∧
      (∀ c ∈ a, unicodeIsSpace c = true) ∧ (∀ c ∈ b, unicodeIsSpace c = true) ∧
      (∀ c, (stringsTrimSpace s).data.head? = some c → unicodeIsSpace c = false) ∧
      (∀ c, (stringsTrimSpace s).data.getLast? = some c → unicodeIsSpace c = false) :=
  trim_chars_spec unicodeIsSpace s.data

/-- Letters and digits are not white space, while blank, tab, newline and
carriage return are. -/
theorem unicodeIsSpace_ascii :
    (∀ c : Char, c.isAlphanum = true → unicodeIsSpace c = false) ∧
    (∀ c ∈ [' ', '\t', '\n', '\r'], unicodeIsSpace c = true) := by
  constructor
  · intro c h
    simp only [Char.isAlphanum, Char.isAlpha, Char.isUpper, Char.isLower, Char.isDigit,
      Bool.or_eq_true, Bool.and_eq_true, decide_eq_true_eq] at h
    have hle : ∀ a b : UInt32, a ≤ b ↔ a.toNat ≤ b.toNat := fun a b => Iff.rfl
    simp only [hle] at h
    norm_num at h
    simp only [unicodeIsSpace, Char.toNat, Bool.or_eq_false_iff, Bool.and_eq_false_imp,
      decide_eq_true_eq, decide_eq_false_iff_not, beq_eq_false_iff_ne, ne_eq]
    omega
  · decide

/-- Claim C26. For every event with a start and an end, `ParseEvent` returns an
info record, with the flag true, exactly when the event is managed (private
marker equal to "true", or description containing the legacy marker), its
start and end dates parse as days with the end one day after the start, and its
update timestamp parses; in every other case it returns no record and the flag
false. A returned record has the id of the event, the start day, the trimmed
title as location code and `DetermineStatus` of that code as status: the title
is the location code between two runs of white space, and the location code
neither starts nor ends with white space (blank, tab, newline and carriage
return are white space, letters and digits are not). -/
theorem ParseEvent_accepts_iff (parseRFC3339 : String → Option Int) (event : Event)
    (colorMap : List (LocationStatus × String)) (start ending : EventDateTime)
    (hs : event.Start = some start) (he : event.End = some ending) :
    ((∃ info managed,
        ParseEvent parseRFC3339 (some event) colorMap = some (some info, managed)) ↔
      ((HasManagedProperty event = true ∨ HasDescriptionTag event = true) ∧
        ∃ d, parseDate start.Date = some d ∧ parseDate ending.Date = some (d + 1) ∧
          ∃ ts, parseRFC3339 event.Updated = some ts)) ∧
    (qualifiesForParseEvent parseRFC3339 event start ending = true ↔
      ∃ info managed,
        ParseEvent parseRFC3339 (some event) colorMap = some (some info, managed)) ∧
    (qualifiesForParseEvent parseRFC3339 event start ending = false →
      ParseEvent parseRFC3339 (some event) colorMap = some (none, false)) ∧
    (∀ info managed,
      ParseEvent parseRFC3339 (some event) colorMap = some (some info, managed) →
      managed = true ∧ info.EventID = event.Id ∧ parseDate start.Date = some info.Date ∧
      info.LocationCode = stringsTrimSpace event.Summary ∧
      info.Status = DetermineStatus info.LocationCode ∧
      ∃ before after, event.Summary.data = before ++ info.LocationCode.data ++ after ∧
        (∀ c ∈ before, unicodeIsSpace c = true) ∧ (∀ c ∈ after, unicodeIsSpace c = true) ∧
        (∀ c, info.LocationCode.data.head? = some c → unicodeIsSpace c = false) ∧
        (∀ c, info.LocationCode.data.getLast? = some c → unicodeIsSpace c = false)) ∧
    (HasManagedProperty event = true ↔
      ∃ ep m, event.ExtendedProperties = some ep ∧ ep.Private = some m ∧
        m.lookup ManagedPropertyKey = some "true") ∧
    (HasDescriptionTag event = true ↔
      stringsContains event.Description "Add-To-ZenithPlanner: true" = true) ∧
    parseDate "" = none ∧
    (∀ c : Char, c.isAlphanum = true → unicodeIsSpace c = false) ∧
    (∀ c ∈ [' ', '\t', '\n', '\r'], unicodeIsSpace c = true) := by
  obtain ⟨hyes, hno⟩ := ParseEvent_cases parseRFC3339 event colorMap start ending hs he
  have hor : (HasManagedProperty event || HasDescriptionTag event) = true ↔
      (HasManagedProperty event = true ∨ HasDescriptionTag event = true) := by
    simp
  have hiff : (∃ info managed,
        ParseEvent parseRFC3339 (some event) colorMap = some (some info, managed)) ↔
      ((HasManagedProperty event = true ∨ HasDescriptionTag event = true) ∧
        ∃ d, parseDate start.Date = some d ∧ parseDate ending.Date = some (d + 1) ∧
          ∃ ts, parseRFC3339 event.Updated = some ts) := by
    constructor
    · rintro ⟨info, managed, hp⟩
      by_contra hn
      rw [hno (fun h => hn ⟨hor.mp h.1, h.2⟩)] at hp
      simp at hp
    · rintro ⟨hm, d, hd, hend, ts, hts⟩
      obtain ⟨info, hp, -⟩ := hyes (hor.mpr hm) d ts hd hend hts
      exact ⟨info, true, hp⟩
  have hq : qualifiesForParseEvent parseRFC3339 event start ending = true ↔
      ((HasManagedProperty event = true ∨ HasDescriptionTag event = true) ∧
        ∃ d, parseDate start.Date = some d ∧ parseDate ending.Date = some (d + 1) ∧
          ∃ ts, parseRFC3339 event.Updated = some ts) := by
    unfold qualifiesForParseEvent
    cases hd : parseDate start.Date with
    | none => simp
    | some d =>
      cases hend : parseDate ending.Date with
      | none => simp
      | some e =>
        cases hts : parseRFC3339 event.Updated with
        | none => simp
        | some ts =>
          simp only [Bool.and_eq_true, Bool.or_eq_true, beq_iff_eq, Option.isSome_some,
            and_true, Option.some.injEq, exists_eq_left', exists_const]
          constructor
          · rintro ⟨hm, hde⟩
            exact ⟨hm, hde.symm, ts, rfl⟩
          · rintro ⟨hm, hde, -⟩
            exact ⟨hm, hde.symm⟩
  refine ⟨hiff, hq.trans hiff.symm, ?_, ?_, HasManagedProperty_iff event, Iff.rfl, by decide,
    unicodeIsSpace_ascii⟩
  · intro hn
    have hn' : ¬ qualifiesForParseEvent parseRFC3339 event start ending = true := by
      rw [hn]
      simp
    exact hno (fun h => hn' (hq.mpr ⟨hor.mp h.1, h.2⟩))
  · intro info managed hp
    obtain ⟨hm, d, hd, hend, ts, hts⟩ := hiff.mp ⟨info, managed, hp⟩
    obtain ⟨info', hp', h₁, h₂, h₃, h₄, -⟩ := hyes (hor.mpr hm) d ts hd hend hts
    rw [hp'] at hp
    simp only [Option.some.injEq, Prod.mk.injEq] at hp
    obtain ⟨hi, hmg⟩ := hp
    subst hi
    refine ⟨hmg.symm, h₁, by rw [hd, h₂], h₃, by rw [h₄, h₃], ?_⟩
    rw [h₃]
    exact stringsTrimSpace_spec event.Summary

theorem ParseEvent_accepts_iff_witness :
    (∃ info managed,
      ParseEvent parseRFC3339Sample (some managedHome) syncerHOM.colorMap =
        some (some info, managed)) ∧
    ParseEvent parseRFC3339Sample (some stretchedHome) syncerHOM.colorMap = some (none, false) ∧
    ParseEvent parseRFC3339Sample (some timedHome) syncerHOM.colorMap = some (none, false) ∧
    ParseEvent parseRFC3339Sample (some dentist) syncerHOM.colorMap = some (none, false) ∧
    (∃ info, ParseEvent parseRFC3339Sample (some paddedHome) syncerHOM.colorMap =
        some (some info, true) ∧
      paddedHome.Summary = "  HOM \n" ∧ info.LocationCode = "HOM" ∧
      info.Status = DetermineStatus "HOM") :=
  ⟨(ParseEvent_accepts_iff parseRFC3339Sample managedHome syncerHOM.colorMap
      { Date := "2024-06-10", DateTime := "" } { Date := "2024-06-11", DateTime := "" }
      rfl rfl).1.mpr
      ⟨Or.inl (by decide), 19884, by decide, by decide, 1717930800, by decide⟩,
   (ParseEvent_accepts_iff parseRFC3339Sample stretchedHome syncerHOM.colorMap
      { Date := "2024-06-10", DateTime := "" } { Date := "2024-06-12", DateTime := "" }
      rfl rfl).2.2.1 (by decide),
   (ParseEvent_accepts_iff parseRFC3339Sample timedHome syncerHOM.colorMap
      { Date := "", DateTime := "2024-06-10T09:00:00Z" }
      { Date := "", DateTime := "2024-06-10T17:00:00Z" } rfl rfl).2.2.1 (by decide),
   (ParseEvent_accepts_iff parseRFC3339Sample dentist syncerHOM.colorMap
      { Date := "2024-06-10", DateTime := "" } { Date := "2024-06-11", DateTime := "" }
      rfl rfl).2.2.1 (by decide),
   by
    obtain ⟨info, managed, hp⟩ :=
      (ParseEvent_accepts_iff parseRFC3339Sample paddedHome syncerHOM.colorMap
        { Date := "2024-06-10", DateTime := "" } { Date := "2024-06-11", DateTime := "" }
        rfl rfl).1.mpr
        ⟨Or.inl (by decide), 19884, by decide, by decide, 1717930800, by decide⟩
    obtain ⟨hm, -, -, hcode, hstatus, -⟩ :=
      (ParseEvent_accepts_iff parseRFC3339Sample paddedHome syncerHOM.colorMap
        { Date := "2024-06-10", DateTime := "" } { Date := "2024-06-11", DateTime := "" }
        rfl rfl).2.2.2.1 info managed hp
    have hcode' : info.LocationCode = "HOM" := hcode.trans (by decide)
    exact ⟨info, by rw [hp, hm], rfl, hcode', by rw [hstatus, hcode']⟩⟩

/-- Claim C30. `ParseEvent` fails on a missing value instead of returning no
record: on an absent (nil) event, which `HasManagedProperty` dereferences
before the nil test is reached, and on every managed event with a valid
full-day start date and no end, whose end date is read without a test. The
failure (a nil pointer dereference) is the result `none`. -/
theorem ParseEvent_nil_dereference (parseRFC3339 : String → Option Int)
    (colorMap : List (LocationStatus × String)) :
    ParseEvent parseRFC3339 none colorMap = none ∧
    (∀ event start d,
      (HasManagedProperty event = true ∨ HasDescriptionTag event = true) →
      event.Start = some start → parseDate start.Date = some d → event.End = none →
      ParseEvent parseRFC3339 (some event) colorMap = none) ∧
    ParseEvent parseRFC3339 none colorMap ≠ some (none, false) := by
  refine ⟨rfl, ?_, by simp [ParseEvent]⟩
  intro event start d hm hs hd he
  have hempty : parseDate "" = none := by decide
  have hne : start.Date ≠ "" := by
    intro h
    rw [h, hempty] at hd
    exact absurd hd (by simp)
  have hm' : (!HasManagedProperty event && !HasDescriptionTag event) = false := by
    cases h₁ : HasManagedProperty event <;> cases h₂ : HasDescriptionTag event <;> simp_all
  simp only [ParseEvent, hm', hs, he, hd]
  simp [hne]

theorem ParseEvent_nil_dereference_witness :
    HasManagedProperty homeWithoutEnd = true ∧
    parseDate "2024-06-10" = some 19884 ∧
    ParseEvent parseRFC3339Sample (some homeWithoutEnd) syncerHOM.colorMap = none ∧
    ParseEvent parseRFC3339Sample none syncerHOM.colorMap = none :=
  ⟨by decide, by decide,
   (ParseEvent_nil_dereference parseRFC3339Sample syncerHOM.colorMap).2.1 homeWithoutEnd
      { Date := "2024-06-10", DateTime := "" } 19884 (Or.inl (by decide)) rfl (by decide) rfl,
   (ParseEvent_nil_dereference parseRFC3339Sample syncerHOM.colorMap).1⟩

/-! ## The change flag of `coreReconciliationLogic` -/

/-- Claim C28. `coreReconciliationLogic` returns `dbChanged = true` only when
it returns no error: then the flag says exactly whether the schedule upsert was
executed (and succeeded). When the patch or the insert request fails after a
successful upsert, the schedule entry has been updated and the flag is false. -/
theorem coreReconciliationLogic_dbChanged (s : Syncer) (f : Faults) (db : Db) (date : Int)
    (auth : Option CachedEvent) (cur : Option ScheduleEntry) :
    ((coreReconciliationLogic s f db date auth cur).err = none →
      ((coreReconciliationLogic s f db date auth cur).dbChanged = true ↔
        (Op.upsertScheduleEntry (targetEntry s date auth) ∈
            (coreReconciliationLogic s f db date auth cur).ops ∧
          f.UpsertScheduleEntry (targetEntry s date auth) = false))) ∧
    ((coreReconciliationLogic s f db date auth cur).err ≠ none →
      (coreReconciliationLogic s f db date auth cur).dbChanged = false) ∧
    (∀ e, (coreReconciliationLogic s f db date auth cur).err = some e →
      e ≠ Err.updateScheduleEntry →
      Op.upsertScheduleEntry (targetEntry s date auth) ∈
        (coreReconciliationLogic s f db date auth cur).ops →
      f.UpsertScheduleEntry (targetEntry s date auth) = false ∧
      (coreReconciliationLogic s f db date auth cur).db =
        UpsertScheduleEntry db (targetEntry s date auth) ∧
      (coreReconciliationLogic s f db date auth cur).dbChanged = false) := by
  cases auth <;> cases cur <;>
    simp only [coreReconciliationLogic, targetEntry, targetCode] <;>
    (repeat' split) <;> simp_all

theorem coreReconciliationLogic_dbChanged_witness :
    (coreReconciliationLogic syncerHOM insertFails dbEmpty 19905 none none).err =
      some Err.createDefaultEvent ∧
    GetScheduleEntry (coreReconciliationLogic syncerHOM insertFails dbEmpty 19905 none none).db
      19905 = some (targetEntry syncerHOM 19905 none) ∧
    GetScheduleEntry dbEmpty 19905 = none ∧
    (coreReconciliationLogic syncerHOM insertFails dbEmpty 19905 none none).dbChanged = false :=
  ⟨by decide,
   by
    rw [((coreReconciliationLogic_dbChanged syncerHOM insertFails dbEmpty 19905 none none).2.2
      Err.createDefaultEvent (by decide) (by decide) (by decide)).2.1]
    decide,
   by decide,
   ((coreReconciliationLogic_dbChanged syncerHOM insertFails dbEmpty 19905 none none).2.2
      Err.createDefaultEvent (by decide) (by decide) (by decide)).2.2⟩

/-! ## Partial writes of `storeChannelInfo` -/

theorem GetSyncState_SetSyncState_ne (db : Db) (key other value : String) (h : other ≠ key) :
    GetSyncState (SetSyncState db key value) other = GetSyncState db other := by
  simp only [GetSyncState, SetSyncState]
  exact lookup_mapSet_ne _ _ _ _ h

/-- Claim C29, as amended. When `storeChannelInfo` returns an error, one of the
three writes failed and no later write was attempted: the stored expiry is what
it was before the call; the stored values are all what they were before when
the write of the channel id failed; otherwise the stored channel id is that of
the new channel, and the stored resource id is that of the new channel when the
write of the expiry failed, and what it was before when its own write failed. -/
theorem storeChannelInfo_partial_writes (formatUnixMilli : Int → String) (f : Faults) (db : Db)
    (channel : Channel)
    (herr : (storeChannelInfo formatUnixMilli f db channel).err ≠ none) :
    GetSyncState (storeChannelInfo formatUnixMilli f db channel).db dbKeyChannelExpiration =
      GetSyncState db dbKeyChannelExpiration ∧
    (f.SetSyncState dbKeyChannelID channel.Id = true →
      (storeChannelInfo formatUnixMilli f db channel).db = db) ∧
    (f.SetSyncState dbKeyChannelID channel.Id = false →
      GetSyncState (storeChannelInfo formatUnixMilli f db channel).db dbKeyChannelID =
        some channel.Id) ∧
    (f.SetSyncState dbKeyChannelID channel.Id = false →
      f.SetSyncState dbKeyResourceID channel.ResourceId = true →
      GetSyncState (storeChannelInfo formatUnixMilli f db channel).db dbKeyResourceID =
        GetSyncState db dbKeyResourceID) ∧
    (f.SetSyncState dbKeyChannelID channel.Id = false →
      f.SetSyncState dbKeyResourceID channel.ResourceId = false →
      f.SetSyncState dbKeyChannelExpiration (formatUnixMilli channel.Expiration) = true ∧
      GetSyncState (storeChannelInfo formatUnixMilli f db channel).db dbKeyResourceID =
        some channel.ResourceId) := by
  have h₁₂ : dbKeyChannelID ≠ dbKeyResourceID := by decide
  have h₁₃ : dbKeyChannelExpiration ≠ dbKeyChannelID := by decide
  have h₂₃ : dbKeyChannelExpiration ≠ dbKeyResourceID := by decide
  cases hf₁ : f.SetSyncState dbKeyChannelID channel.Id with
  | true => simp [storeChannelInfo, hf₁]
  | false =>
    cases hf₂ : f.SetSyncState dbKeyResourceID channel.ResourceId with
    | true =>
      simp only [storeChannelInfo, hf₁, hf₂, Bool.false_eq_true, if_false, if_true]
      refine ⟨GetSyncState_SetSyncState_ne _ _ _ _ h₁₃, by simp, fun _ => ?_, fun _ _ => ?_,
        by simp⟩
      · exact GetSyncState_SetSyncState _ _ _
      · exact GetSyncState_SetSyncState_ne _ _ _ _ h₁₂.symm
    | false =>
      cases hf₃ : f.SetSyncState dbKeyChannelExpiration (formatUnixMilli channel.Expiration) with
      | true =>
        simp only [storeChannelInfo, hf₁, hf₂, hf₃, Bool.false_eq_true, if_false, if_true]
        refine ⟨?_, by simp, fun _ => ?_, by simp, fun _ _ => ⟨trivial, ?_⟩⟩
        · rw [GetSyncState_SetSyncState_ne _ _ _ _ h₂₃,
            GetSyncState_SetSyncState_ne _ _ _ _ h₁₃]
        · rw [GetSyncState_SetSyncState_ne _ _ _ _ h₁₂]
          exact GetSyncState_SetSyncState _ _ _
        · exact GetSyncState_SetSyncState _ _ _
      | false =>
        simp [storeChannelInfo, hf₁, hf₂, hf₃] at herr

theorem storeChannelInfo_partial_writes_witness :
    GetSyncState (storeChannelInfo formatUnixMilliSample resourceIdWriteFails dbChannel
      newChannel).db dbKeyChannelExpiration = GetSyncState dbChannel dbKeyChannelExpiration ∧
    GetSyncState (storeChannelInfo formatUnixMilliSample resourceIdWriteFails dbChannel
      newChannel).db dbKeyChannelID = some "new-channel" ∧
    GetSyncState (storeChannelInfo formatUnixMilliSample resourceIdWriteFails dbChannel
      newChannel).db dbKeyResourceID = GetSyncState dbChannel dbKeyResourceID :=
  ⟨(storeChannelInfo_partial_writes formatUnixMilliSample resourceIdWriteFails dbChannel
      newChannel (by decide)).1,
   (storeChannelInfo_partial_writes formatUnixMilliSample resourceIdWriteFails dbChannel
      newChannel (by decide)).2.2.1 (by decide),
   (storeChannelInfo_partial_writes formatUnixMilliSample resourceIdWriteFails dbChannel
      newChannel (by decide)).2.2.2.1 (by decide) (by decide)⟩

/-- Claim C29 fails as stated: the write of the resource id fails,
`storeChannelInfo` returns an error, and the stored channel id is that of the
new channel while the stored resource id and expiry are those of the old one. -/
theorem storeChannelInfo_leaves_new_channel_id :
    (storeChannelInfo formatUnixMilliSample resourceIdWriteFails dbChannel newChannel).err =
      some Err.storeChannelInfo ∧
    GetSyncState dbChannel dbKeyChannelID = some "old-channel" ∧
    GetSyncState (storeChannelInfo formatUnixMilliSample resourceIdWriteFails dbChannel
      newChannel).db dbKeyChannelID = some "new-channel" ∧
    GetSyncState (storeChannelInfo formatUnixMilliSample resourceIdWriteFails dbChannel
      newChannel).db dbKeyResourceID = some "old-resource" ∧
    GetSyncState (storeChannelInfo formatUnixMilliSample resourceIdWriteFails dbChannel
      newChannel).db dbKeyChannelExpiration = some "2024-06-11T00:00:00Z" := by
  decide

/-! ## The date range -/

/-- The loop of `generateDateRange` with enough fuel: the days from the current
one through the day of the bound when the current instant is at midnight,
through the day before otherwise. -/
theorem generateDateRangeLoop_eq (e : Int) (fuel : Nat) (current : Time)
    (hfuel : (if current.nanos = 0 then e + 1 - current.day else e - current.day).toNat ≤ fuel) :
    generateDateRangeLoop { day := e, nanos := 0 } fuel current =
      daysFrom current.day
        (if current.nanos = 0 then e + 1 - current.day else e - current.day).toNat := by
  induction fuel generalizing current with
  | zero =>
    have h0 := Nat.le_zero.mp hfuel
    rw [h0]
    rfl
  | succ fuel ih =>
    simp only [generateDateRangeLoop]
    by_cases hafter : current.After { day := e, nanos := 0 } = true
    · rw [if_pos hafter]
      simp only [Time.After, decide_eq_true_eq] at hafter
      have hk : (if current.nanos = 0 then e + 1 - current.day else e - current.day).toNat
          = 0 := by
        by_cases hn : current.nanos = 0
        · simp only [hn, if_true]
          rcases hafter with h | ⟨-, h⟩
          · omega
          · omega
        · simp only [hn, if_false]
          rcases hafter with h | ⟨h, -⟩
          · omega
          · omega
      rw [hk]
      rfl
    · rw [if_neg hafter]
      simp only [Time.After, decide_eq_true_eq, not_or, not_and, not_lt] at hafter
      have hstep : (if (current.AddDate 1).nanos = 0 then e + 1 - (current.AddDate 1).day
            else e - (current.AddDate 1).day).toNat + 1 =
          (if current.nanos = 0 then e + 1 - current.day else e - current.day).toNat := by
        simp only [Time.AddDate]
        by_cases hn : current.nanos = 0
        · simp only [hn, if_true]
          omega
        · simp only [hn, if_false]
          have hlt : current.day < e := by
            rcases lt_or_eq_of_le hafter.1 with h | h
            · exact h
            · have := hafter.2 h.symm
              omega
          omega
      rw [← hstep, daysFrom]
      rw [← hstep] at hfuel
      rw [ih (current.AddDate 1) (by omega)]
      rfl

/-- Claim C27. `generateDateRange` terminates (more iterations than
`endTime.day + 1 - start.day` are never made) and returns consecutive days in
increasing order from the day of `start` on: through the day of `endTime`
when `start` is at midnight, and only through the day before when `start` has a
time of day, since the loop compares the unnormalized current instant with
midnight of the last day. It returns the empty list when the day of `start` is
after the day of `endTime`. -/
theorem generateDateRange_spec (start endTime : Time) :
    (start.nanos = 0 →
      generateDateRange start endTime =
        daysFrom start.day (endTime.day + 1 - start.day).toNat) ∧
    (start.nanos ≠ 0 →
      generateDateRange start endTime =
        daysFrom start.day (endTime.day - start.day).toNat) ∧
    (start.nanos ≠ 0 → start.day ≤ endTime.day →
      endTime.day ∉ generateDateRange start endTime ∧
      (generateDateRange start endTime).length + 1 =
        (daysFrom start.day (endTime.day + 1 - start.day).toNat).length) ∧
    (endTime.day < start.day → generateDateRange start endTime = []) ∧
    (∀ fuel, (endTime.day + 1 - start.day).toNat ≤ fuel →
      generateDateRangeLoop { day := endTime.day, nanos := 0 } fuel start =
        generateDateRange start endTime) := by
  have hlen : ∀ (a : Int) (n : Nat), (daysFrom a n).length = n := by
    intro a n
    induction n generalizing a with
    | zero => rfl
    | succ n ih => simp [daysFrom, ih]
  have hmem : ∀ (n : Nat) (a x : Int), x ∈ daysFrom a n → x < a + n := by
    intro n
    induction n with
    | zero =>
      intro a x hx
      simp [daysFrom] at hx
    | succ n ih =>
      intro a x hx
      simp only [daysFrom, List.mem_cons] at hx
      rcases hx with h | h
      · omega
      · have := ih (a + 1) x h
        push_cast
        omega
  have hle : ∀ fuel, (endTime.day + 1 - start.day).toNat ≤ fuel →
      (if start.nanos = 0 then endTime.day + 1 - start.day
        else endTime.day - start.day).toNat ≤ fuel := by
    intro fuel h
    by_cases hn : start.nanos = 0
    · simpa [hn] using h
    · simp only [hn, if_false]
      omega
  have hgen : generateDateRange start endTime =
      daysFrom start.day
        (if start.nanos = 0 then endTime.day + 1 - start.day
          else endTime.day - start.day).toNat :=
    generateDateRangeLoop_eq endTime.day _ start (hle _ (le_refl _))
  refine ⟨fun hn => by rw [hgen]; simp [hn], fun hn => by rw [hgen]; simp [hn], ?_, ?_, ?_⟩
  · intro hn hd
    rw [hgen]
    simp only [hn, if_false, hlen]
    refine ⟨fun hx => ?_, by omega⟩
    have := hmem _ _ _ hx
    omega
  · intro hd
    rw [hgen]
    have h0 : (if start.nanos = 0 then endTime.day + 1 - start.day
        else endTime.day - start.day).toNat = 0 := by
      by_cases hn : start.nanos = 0
      · simp only [hn, if_true]
        omega
      · simp only [hn, if_false]
        omega
    rw [h0]
    rfl
  · intro fuel hf
    rw [hgen]
    exact generateDateRangeLoop_eq endTime.day fuel start (hle fuel hf)

theorem generateDateRange_spec_witness :
    generateDateRange { day := 19884, nanos := 7200000000000 }
      { day := 19886, nanos := 7200000000000 } = [19884, 19885] ∧
    (19886 : Int) ∉ generateDateRange { day := 19884, nanos := 7200000000000 }
      { day := 19886, nanos := 7200000000000 } ∧
    generateDateRange { day := 19884, nanos := 0 }
      { day := 19886, nanos := 7200000000000 } = [19884, 19885, 19886] :=
  ⟨((generateDateRange_spec { day := 19884, nanos := 7200000000000 }
      { day := 19886, nanos := 7200000000000 }).2.1 (by decide)).trans (by decide),
   ((generateDateRange_spec { day := 19884, nanos := 7200000000000 }
      { day := 19886, nanos := 7200000000000 }).2.2.1 (by decide) (by decide)).1,
   ((generateDateRange_spec { day := 19884, nanos := 0 }
      { day := 19886, nanos := 7200000000000 }).1 rfl).trans (by decide)⟩

/-! ## The sync queue -/

theorem queueRun_append (a b : List QueueEvent) (st : WorkerState) :
    queueRun (a ++ b) st = (queueRun a st).bind (queueRun b) := by
  induction a generalizing st with
  | nil => rfl
  | cons event rest ih =>
    simp only [List.cons_append, queueRun]
    cases queueStep event st with
    | none => rfl
    | some st₁ => exact ih st₁

theorem RequestSync_spec (st : WorkerState) :
    (RequestSync st).syncing = st.syncing ∧ (RequestSync st).executions = st.executions ∧
    (st.queued = 0 → (RequestSync st).queued = 1) ∧
    (1 ≤ st.queued → RequestSync st = st) := by
  unfold RequestSync trySend syncQueueCapacity
  by_cases h : st.queued < 1
  · rw [if_pos h]
    exact ⟨rfl, rfl, fun h0 => by simp [h0], fun h1 => by omega⟩
  · rw [if_neg h]
    exact ⟨rfl, rfl, fun h0 => by omega, fun _ => rfl⟩

theorem queueStep_queued_le (event : QueueEvent) (st st₁ : WorkerState)
    (h : queueStep event st = some st₁) (hq : st.queued ≤ 1) : st₁.queued ≤ 1 := by
  cases event with
  | request =>
    simp only [queueStep, Option.some.injEq] at h
    subst h
    obtain ⟨-, -, h0, h1⟩ := RequestSync_spec st
    by_cases hz : st.queued = 0
    · rw [h0 hz]
    · rw [h1 (by omega)]
      exact hq
  | workerReceives =>
    simp only [queueStep] at h
    split at h
    · simp at h
    · split at h
      · simp at h
      · simp only [Option.some.injEq] at h
        subst h
        simp only
        omega
  | syncEnds =>
    simp only [queueStep] at h
    split at h
    · simp only [Option.some.injEq] at h
      subst h
      exact hq
    · simp at h

theorem queueRun_queued_le (events : List QueueEvent) (st st₁ : WorkerState)
    (h : queueRun events st = some st₁) (hq : st.queued ≤ 1) : st₁.queued ≤ 1 := by
  induction events generalizing st with
  | nil =>
    simp only [queueRun, Option.some.injEq] at h
    subst h
    exact hq
  | cons event rest ih =>
    simp only [queueRun] at h
    cases hs : queueStep event st with
    | none => simp [hs] at h
    | some st₂ =>
      rw [hs] at h
      exact ih st₂ h (queueStep_queued_le event st st₂ hs hq)

theorem queueRun_requests (n : Nat) (st : WorkerState) (hq : st.queued ≤ 1) :
    ∃ st₁, queueRun (List.replicate n QueueEvent.request) st = some st₁ ∧
      st₁.syncing = st.syncing ∧ st₁.executions = st.executions ∧ st₁.queued ≤ 1 ∧
      (st₁.queued = 0 ↔ (st.queued = 0 ∧ n = 0)) := by
  induction n generalizing st with
  | zero => exact ⟨st, rfl, rfl, rfl, hq, by simp⟩
  | succ n ih =>
    obtain ⟨hs, he, h0, h1⟩ := RequestSync_spec st
    have hq' : (RequestSync st).queued = 1 := by
      by_cases hz : st.queued = 0
      · exact h0 hz
      · rw [h1 (by omega)]
        omega
    obtain ⟨st₁, hr, hs₁, he₁, hq₁, hz₁⟩ := ih (RequestSync st) (by omega)
    refine ⟨st₁, ?_, hs₁.trans hs, he₁.trans he, hq₁, ?_⟩
    · simp only [List.replicate_succ, queueRun, queueStep]
      exact hr
    · rw [hz₁, hq']
      simp

theorem queueRun_worker_only (events : List QueueEvent) (st st₁ : WorkerState)
    (hw : ∀ e ∈ events, e ≠ QueueEvent.request)
    (h : queueRun events st = some st₁) :
    st₁.executions + st₁.queued = st.executions + st.queued := by
  induction events generalizing st with
  | nil =>
    simp only [queueRun, Option.some.injEq] at h
    subst h
    rfl
  | cons event rest ih =>
    simp only [queueRun] at h
    cases hs : queueStep event st with
    | none => simp [hs] at h
    | some st₂ =>
      rw [hs] at h
      rw [ih st₂ (fun e he => hw e (List.mem_cons_of_mem _ he)) h]
      cases event with
      | request => exact absurd rfl (hw _ (List.mem_cons_self _ _))
      | workerReceives =>
        simp only [queueStep] at hs
        split at hs
        · simp at hs
        · split at hs
          · simp at hs
          · simp only [Option.some.injEq] at hs
            subst hs
            simp only
            omega
      | syncEnds =>
        simp only [queueStep] at hs
        split at hs
        · simp only [Option.some.injEq] at hs
          subst hs
          rfl
        · simp at hs

/-- Claim C22. In the state machine of the sync queue (capacity 1, one worker
that takes a request from the queue before it starts a sync): `RequestSync`
can happen in every state (it never blocks), at most one request is pending
after any sequence of events, a request arriving while one is pending leaves the
state unchanged, and when any number of requests arrive while one sync is
executing, whatever the worker does afterwards, at most one further sync is
started, and only after the running one has ended: at most 2 executions in
total. -/
theorem syncQueue_single_flight (st st₁ : WorkerState) (n : Nat) (later : List QueueEvent)
    (hsync : st.syncing = true) (hq : st.queued ≤ syncQueueCapacity)
    (hone : st.executions = 1)
    (hlater : ∀ e ∈ later, e ≠ QueueEvent.request)
    (hrun : queueRun (List.replicate n QueueEvent.request ++ later) st = some st₁) :
    (∀ st₂, (queueStep QueueEvent.request st₂).isSome = true) ∧
    (∀ events st₂, queueRun events st = some st₂ → st₂.queued ≤ syncQueueCapacity) ∧
    (∀ st₂, st₂.queued = syncQueueCapacity → RequestSync st₂ = st₂) ∧
    st₁.executions ≤ 2 ∧
    (st₁.executions = 2 → 1 ≤ n + st.queued ∧ QueueEvent.syncEnds ∈ later) := by
  refine ⟨fun _ => rfl, fun events st₂ h => queueRun_queued_le events st st₂ h hq,
    fun st₂ h => (RequestSync_spec st₂).2.2.2 (by rw [h]; decide), ?_⟩
  obtain ⟨mid, hmid, hs, he, hq₁, hz⟩ := queueRun_requests n st hq
  rw [queueRun_append, hmid] at hrun
  have hpot := queueRun_worker_only later mid st₁ hlater hrun
  refine ⟨by omega, fun h2 => ⟨?_, ?_⟩⟩
  · by_contra hn
    have : mid.queued = 0 := hz.mpr ⟨by omega, by omega⟩
    omega
  · cases later with
    | nil =>
      simp only [Option.bind_some, queueRun, Option.some.injEq] at hrun
      subst hrun
      omega
    | cons e rest =>
      cases e with
      | request => exact absurd rfl (hlater _ (List.mem_cons_self _ _))
      | workerReceives =>
        simp [queueRun, queueStep, hs, hsync] at hrun
      | syncEnds => exact List.mem_cons_self _ _

theorem syncQueue_single_flight_witness :
    queueRun (List.replicate 5 QueueEvent.request ++
        [QueueEvent.syncEnds, QueueEvent.workerReceives, QueueEvent.syncEnds])
      { queued := 0, syncing := true, executions := 1 } =
        some { queued := 0, syncing := false, executions := 2 } ∧
    ({ queued := 0, syncing := false, executions := 2 } : WorkerState).executions ≤ 2 ∧
    queueRun (List.replicate 5 QueueEvent.request ++
        [QueueEvent.syncEnds, QueueEvent.workerReceives, QueueEvent.syncEnds,
          QueueEvent.workerReceives])
      { queued := 0, syncing := true, executions := 1 } = none :=
  ⟨by decide,
   (syncQueue_single_flight { queued := 0, syncing := true, executions := 1 }
      { queued := 0, syncing := false, executions := 2 } 5
      [QueueEvent.syncEnds, QueueEvent.workerReceives, QueueEvent.syncEnds]
      rfl (by decide) rfl (by decide) (by decide)).2.2.2.1,
   by decide⟩

/-! ## Mutual exclusion of the entry points -/

theorem countP_set_thread (p : Thread → Bool) (ts : List Thread) (i : Nat) (t t₁ : Thread)
    (h : ts[i]? = some t) :
    (ts.set i t₁).countP p + (if p t then 1 else 0) =
      ts.countP p + (if p t₁ then 1 else 0) := by
  induction ts generalizing i with
  | nil => simp at h
  | cons a rest ih =>
    cases i with
    | zero =>
      simp only [List.getElem?_cons_zero, Option.some.injEq] at h
      subst h
      simp only [List.set_cons_zero, List.countP_cons]
      omega
    | succ i =>
      simp only [List.getElem?_cons_succ] at h
      simp only [List.set_cons_succ, List.countP_cons]
      have := ih i h
      omega

/-- What a step of a thread does to the mutex and to the thread. -/
theorem stepThread_spec (locked locked₁ : Bool) (t t₁ : Thread)
    (h : stepThread locked t = some (locked₁, t₁)) :
    t₁.entry = t.entry ∧
    ((locked = false ∧ locked₁ = true ∧ holdsMutex t = false ∧ holdsMutex t₁ = true) ∨
      (locked₁ = false ∧ holdsMutex t = true ∧ holdsMutex t₁ = false) ∨
      (locked₁ = locked ∧ holdsMutex t₁ = holdsMutex t)) := by
  obtain ⟨entry, pc⟩ := t
  cases entry <;>
    (rcases pc with _ | _ | _ | _ | pc) <;>
    simp [stepThread, entryProgram] at h <;>
    (try (cases locked <;> simp at h)) <;>
    (try (obtain ⟨h₁, h₂⟩ := h; subst h₁; subst h₂; simp [holdsMutex, entryProgram]))

/-- The invariant of the mutex: it is locked exactly when one thread holds it,
and no two threads hold it. -/
theorem mutexStep_invariant (i : Nat) (st st₁ : MutexState)
    (h : mutexStep i st = some st₁)
    (hinv : st.threads.countP holdsMutex = if st.locked then 1 else 0) :
    (st₁.threads.countP holdsMutex = if st₁.locked then 1 else 0) ∧
    st₁.threads.map (fun t => t.entry) = st.threads.map (fun t => t.entry) := by
  simp only [mutexStep] at h
  cases ht : st.threads[i]? with
  | none => simp [ht] at h
  | some t =>
    rw [ht] at h
    cases hs : stepThread st.locked t with
    | none => simp [hs] at h
    | some r =>
      obtain ⟨locked₁, t₁⟩ := r
      simp only [hs, Option.some.injEq] at h
      subst h
      obtain ⟨hentry, hcases⟩ := stepThread_spec st.locked locked₁ t t₁ hs
      have hcount := countP_set_thread holdsMutex st.threads i t t₁ ht
      have hle : (if holdsMutex t then 1 else 0) ≤ st.threads.countP holdsMutex := by
        by_cases hh : holdsMutex t = true
        · have hmem : t ∈ st.threads := List.getElem?_mem ht
          have := List.countP_pos_iff.mpr ⟨t, hmem, hh⟩
          simp only [hh, if_true]
          omega
        · simp [hh]
      constructor
      · simp only
        rcases hcases with ⟨hl, hl₁, hh, hh₁⟩ | ⟨hl₁, hh, hh₁⟩ | ⟨hl₁, hh₁⟩
        · simp only [hl, hl₁, hh, hh₁, if_true, Bool.false_eq_true, if_false] at hcount hinv ⊢
          omega
        · simp only [hl₁, hh, hh₁, if_true, Bool.false_eq_true, if_false] at hcount hle ⊢
          cases hlk : st.locked <;> simp only [hlk, if_true, Bool.false_eq_true, if_false]
            at hinv <;> omega
        · simp only [hl₁, hh₁] at hcount ⊢
          omega
      · simp only
        apply List.ext_getElem?
        intro j
        simp only [List.getElem?_map, List.getElem?_set]
        by_cases hij : i = j
        · subst hij
          simp only [if_true]
          split
          · simp [ht, hentry]
          · rename_i hlen
            rw [List.getElem?_eq_none (by omega)]
        · simp [hij]

theorem mutexRun_invariant (schedule : List Nat) (st st₁ : MutexState)
    (h : mutexRun schedule st = some st₁)
    (hinv : st.threads.countP holdsMutex = if st.locked then 1 else 0) :
    (st₁.threads.countP holdsMutex = if st₁.locked then 1 else 0) ∧
    st₁.threads.map (fun t => t.entry) = st.threads.map (fun t => t.entry) := by
  induction schedule generalizing st with
  | nil =>
    simp only [mutexRun, Option.some.injEq] at h
    subst h
    exact ⟨hinv, rfl⟩
  | cons i rest ih =>
    simp only [mutexRun] at h
    cases hs : mutexStep i st with
    | none => simp [hs] at h
    | some st₂ =>
      rw [hs] at h
      obtain ⟨h₁, h₂⟩ := mutexStep_invariant i st st₂ hs hinv
      obtain ⟨h₃, h₄⟩ := ih st₂ h h₁
      exact ⟨h₃, h₄.trans h₂⟩

theorem inDomainLogic_holdsMutex (t : Thread) (hentry : t.entry ≠ EntryPoint.weeklyFullSync)
    (h : inDomainLogic t = true) : holdsMutex t = true := by
  obtain ⟨entry, pc⟩ := t
  cases entry <;>
    (rcases pc with _ | _ | _ | _ | pc) <;>
    simp [inDomainLogic, entryProgram, holdsMutex] at h hentry ⊢

theorem invoked_invariant (entries : List EntryPoint) :
    (invoked entries).threads.countP holdsMutex =
      if (invoked entries).locked then 1 else 0 := by
  simp only [invoked, Bool.false_eq_true, if_false]
  rw [List.countP_eq_zero]
  intro t ht
  simp only [List.mem_map] at ht
  obtain ⟨e, -, rfl⟩ := ht
  simp [holdsMutex]

/-- Claim C21. The worker's sync and the horizon maintenance take the mutex
around their domain logic, the scheduled full sync does not: its steps contain
no lock. So among any number of invocations of the first two, in every
interleaving, at most one is inside its domain logic; but a scheduled full sync
can be inside `RunFullSync` while the worker is inside `runSync` under the
mutex. -/
theorem weeklyFullSync_runs_without_mutex :
    Instr.lock ∉ entryProgram EntryPoint.weeklyFullSync ∧
    (∃ schedule st,
      mutexRun schedule (invoked [EntryPoint.workerSync, EntryPoint.weeklyFullSync]) =
        some st ∧
      st.threads.countP inDomainLogic = 2) ∧
    (∀ entries schedule st, EntryPoint.weeklyFullSync ∉ entries →
      mutexRun schedule (invoked entries) = some st →
      st.threads.countP inDomainLogic ≤ 1) := by
  refine ⟨by decide, ⟨[0, 0, 1], _, rfl, by decide⟩, ?_⟩
  intro entries schedule st hno hrun
  obtain ⟨hcount, hentries⟩ :=
    mutexRun_invariant schedule (invoked entries) st hrun (invoked_invariant entries)
  have hmono : st.threads.countP inDomainLogic ≤ st.threads.countP holdsMutex := by
    apply List.countP_mono_left
    intro t ht hd
    apply inDomainLogic_holdsMutex t _ hd
    intro he
    apply hno
    have hmem : t.entry ∈ st.threads.map (fun t => t.entry) :=
      List.mem_map.mpr ⟨t, ht, rfl⟩
    rw [hentries] at hmem
    simp only [invoked, List.map_map, List.mem_map, Function.comp] at hmem
    obtain ⟨e, he', heq⟩ := hmem
    rw [← he, ← heq]
    exact he'
  rw [hcount] at hmono
  split at hmono <;> omega

/-! ## Removal of the legacy marker -/

theorem containsChars_iff (l sub : List Char) : containsChars l sub = true ↔ sub <:+: l := by
  induction l with
  | nil =>
    simp only [containsChars, List.infix_nil, List.isEmpty_iff]
  | cons c cs ih =>
    simp only [containsChars, Bool.or_eq_true, List.isPrefixOf_iff_prefix, ih,
      List.infix_cons_iff]

theorem containsChars_false_iff (l sub : List Char) :
    containsChars l sub = false ↔ ¬ sub <:+: l := by
  rw [← containsChars_iff]
  simp

/-- An occurrence of `sub` in `l` starts at some position. -/
theorem infix_position (l sub : List Char) (h : sub <:+: l) :
    ∃ i, i ≤ l.length ∧ sub.isPrefixOf (l.drop i) = true := by
  induction l with
  | nil =>
    refine ⟨0, le_refl _, ?_⟩
    rw [List.infix_nil] at h
    simp [h]
  | cons c cs ih =>
    rcases List.infix_cons_iff.mp h with hp | hi
    · exact ⟨0, Nat.zero_le _, by simpa [List.isPrefixOf_iff_prefix] using hp⟩
    · obtain ⟨i, hi₁, hi₂⟩ := ih hi
      exact ⟨i + 1, by simpa using hi₁, by simpa using hi₂⟩

/-- Where `old` does not occur nothing is replaced. -/
theorem replaceAllChars_unchanged (old new s : List Char) (h : ¬ old <:+: s) :
    replaceAllChars old new 0 s = s := by
  induction s with
  | nil => rfl
  | cons c cs ih =>
    have h₁ : old.isPrefixOf (c :: cs) = false := by
      cases hp : old.isPrefixOf (c :: cs) with
      | false => rfl
      | true =>
        exact absurd (List.infix_cons_iff.mpr (Or.inl (List.isPrefixOf_iff_prefix.mp hp))) h
    have h₂ : ¬ old <:+: cs := fun hi => h (List.infix_cons_iff.mpr (Or.inr hi))
    simp only [replaceAllChars, h₁, Bool.false_eq_true, if_false, ih h₂]

theorem replaceAllChars_skip (old new xs rest : List Char) :
    replaceAllChars old new xs.length (xs ++ rest) = replaceAllChars old new 0 rest := by
  induction xs with
  | nil => rfl
  | cons x xs ih =>
    simp only [List.length_cons, List.cons_append, replaceAllChars]
    exact ih

theorem replaceAllChars_cons_zero (old new : List Char) (c : Char) (cs : List Char) :
    replaceAllChars old new 0 (c :: cs) =
      if old.isPrefixOf (c :: cs) then new ++ replaceAllChars old new (old.length - 1) cs
      else c :: replaceAllChars old new 0 cs := by
  rw [replaceAllChars]

/-- The leftmost occurrence of `old` is replaced and the replacement goes on
behind it. -/
theorem replaceAllChars_first (old new pre post : List Char) (hold : old ≠ [])
    (h : ∀ i, i < pre.length → old.isPrefixOf ((pre ++ old ++ post).drop i) = false) :
    replaceAllChars old new 0 (pre ++ old ++ post) =
      pre ++ new ++ replaceAllChars old new 0 post := by
  induction pre with
  | nil =>
    cases old with
    | nil => exact absurd rfl hold
    | cons o os =>
      have hp : (o :: os).isPrefixOf (o :: (os ++ post)) = true := by
        rw [List.isPrefixOf_iff_prefix]
        exact List.prefix_append (o :: os) post
      rw [List.nil_append, List.nil_append, List.cons_append, replaceAllChars_cons_zero, hp,
        if_pos rfl]
      have hlen : (o :: os).length - 1 = os.length := by simp
      rw [hlen, replaceAllChars_skip]
  | cons p pre ih =>
    have h₀ := h 0 (by simp)
    simp only [List.drop_zero, List.cons_append] at h₀
    have ih' := ih (fun i hi => by
      have := h (i + 1) (by simpa using hi)
      simpa using this)
    rw [List.cons_append, List.cons_append, replaceAllChars_cons_zero, h₀, if_neg (by simp),
      ih']
    simp

/-- Trimming white space leaves a block of consecutive characters. -/
theorem stringsTrimSpace_block (s : String) : (stringsTrimSpace s).data <:+: s.data := by
  simp only [stringsTrimSpace]
  have h₁ : s.data.dropWhile unicodeIsSpace <:+ s.data := List.dropWhile_suffix _
  have h₂ : ((s.data.dropWhile unicodeIsSpace).reverse.dropWhile unicodeIsSpace).reverse <+:
      s.data.dropWhile unicodeIsSpace := by
    rw [← List.reverse_suffix, List.reverse_reverse]
    exact List.dropWhile_suffix _
  exact List.IsInfix.trans h₂.isInfix h₁.isInfix

theorem isPrefixOf_of_append (tag extra x : List Char)
    (h : (tag ++ extra).isPrefixOf x = true) : tag.isPrefixOf x = true := by
  rw [List.isPrefixOf_iff_prefix] at h ⊢
  exact (List.prefix_append tag extra).trans h

/-- When `tag` occurs in `pre ++ tag ++ post` only at the position behind `pre`,
it does not occur in `post`. -/
theorem not_infix_behind (tag pre post : List Char) (htag : tag ≠ [])
    (honce : ∀ i, i ≤ (pre ++ tag ++ post).length →
      (tag.isPrefixOf ((pre ++ tag ++ post).drop i) = true ↔ i = pre.length)) :
    ¬ tag <:+: post := by
  intro h
  obtain ⟨j, hj, hp⟩ := infix_position post tag h
  have hlen : 0 < tag.length := List.length_pos.mpr htag
  have := (honce ((pre ++ tag).length + j)
    (by simp only [List.length_append] at hj ⊢; omega)).mp
    (by rw [List.drop_append]; exact hp)
  simp only [List.length_append] at this
  omega

/-- The two replacement passes of `RemoveDescriptionTag` on a text in which
the marker occurs once. -/
theorem replace_twice_single (tag pre post : List Char) (nl : Char) (htag : tag ≠ [])
    (honce : ∀ i, i ≤ (pre ++ tag ++ post).length →
      (tag.isPrefixOf ((pre ++ tag ++ post).drop i) = true ↔ i = pre.length))
    (hjoin : ¬ tag <:+: pre ++ (if post.head? = some nl then post.tail else post)) :
    replaceAllChars tag [] 0 (replaceAllChars (tag ++ [nl]) [] 0 (pre ++ tag ++ post)) =
      pre ++ (if post.head? = some nl then post.tail else post) := by
  have hbehind := not_infix_behind tag pre post htag honce
  have hbefore : ∀ i, i < pre.length →
      tag.isPrefixOf ((pre ++ tag ++ post).drop i) = false := by
    intro i hi
    cases hp : tag.isPrefixOf ((pre ++ tag ++ post).drop i) with
    | false => rfl
    | true =>
      have := (honce i (by simp only [List.length_append]; omega)).mp hp
      omega
  by_cases hnl : post.head? = some nl
  · obtain ⟨rest, hpost⟩ : ∃ rest, post = nl :: rest := by
      cases post with
      | nil => simp at hnl
      | cons c rest =>
        simp only [List.head?_cons, Option.some.injEq] at hnl
        exact ⟨rest, by rw [hnl]⟩
    subst hpost
    simp only [List.head?_cons, if_true, List.tail_cons] at hjoin ⊢
    have hs : pre ++ tag ++ nl :: rest = pre ++ (tag ++ [nl]) ++ rest := by simp
    have hrest : ¬ (tag ++ [nl]) <:+: rest := by
      intro h
      apply hbehind
      exact List.infix_cons_iff.mpr
        (Or.inr ((List.prefix_append tag [nl]).isInfix.trans h))
    rw [hs, replaceAllChars_first (tag ++ [nl]) [] pre rest (by simp)
      (fun i hi => by
        cases hp : (tag ++ [nl]).isPrefixOf ((pre ++ (tag ++ [nl]) ++ rest).drop i) with
        | false => rfl
        | true =>
          have := isPrefixOf_of_append tag [nl] _ hp
          rw [← hs, hbefore i hi] at this
          exact absurd this (by simp)),
      replaceAllChars_unchanged _ _ _ hrest, List.append_nil,
      replaceAllChars_unchanged _ _ _ hjoin]
  · simp only [hnl, if_false] at hjoin ⊢
    have hnone : ¬ (tag ++ [nl]) <:+: pre ++ tag ++ post := by
      intro h
      obtain ⟨i, hi, hp⟩ := infix_position _ _ h
      have hi' := (honce i hi).mp (isPrefixOf_of_append tag [nl] _ hp)
      subst hi'
      have hd : (pre ++ tag ++ post).drop pre.length = tag ++ post := by
        rw [List.append_assoc, List.drop_left]
      rw [hd, List.isPrefixOf_iff_prefix, List.prefix_append_right_inj] at hp
      apply hnl
      obtain ⟨t, ht⟩ := hp
      rw [← ht]
      rfl
    rw [replaceAllChars_unchanged _ _ _ hnone,
      replaceAllChars_first tag [] pre post htag hbefore,
      replaceAllChars_unchanged _ _ _ hbehind, List.append_nil]

theorem withoutLeadingNewline_data (post : String) :
    (withoutLeadingNewline post).data =
      if post.data.head? = some '\n' then post.data.tail else post.data := by
  unfold withoutLeadingNewline
  split
  · rename_i rest heq
    simp [heq]
  · rename_i hne
    have hhead : ¬ post.data.head? = some '\n' := by
      intro h
      cases hd : post.data with
      | nil => simp [hd] at h
      | cons c rest =>
        simp only [hd, List.head?_cons, Option.some.injEq] at h
        exact hne rest (by rw [hd, h])
    simp [hhead]

/-- Claim C25, as amended. `RemoveDescriptionTag` returns no patch exactly when
the description does not contain the legacy marker. A returned patch force-sends
the description, which is the trimmed result of the two replacement passes; it
is free of the marker whenever that result is. In particular, when the marker
occurs exactly once in the description and the text before it, joined to the
text behind it less a newline that directly follows the marker, does not
contain the marker, the patched description is that joined text, trimmed, and
does not contain the marker. -/
theorem RemoveDescriptionTag_spec (event : Event) :
    (RemoveDescriptionTag event = none ↔ HasDescriptionTag event = false) ∧
    (∀ patch, RemoveDescriptionTag event = some patch →
      patch.Description = strippedDescription event.Description ∧
      patch.ForceSendFields = ["Description"] ∧
      (stringsContains
          (stringsReplaceAll (stringsReplaceAll event.Description (descriptionTag ++ "\n") "")
            descriptionTag "") descriptionTag = false →
        HasDescriptionTag patch = false)) ∧
    (∀ pre post : String, event.Description = pre ++ descriptionTag ++ post →
      (∀ i, i ≤ event.Description.length →
        (occursAt descriptionTag event.Description i = true ↔ i = pre.length)) →
      stringsContains (pre ++ withoutLeadingNewline post) descriptionTag = false →
      ∃ patch, RemoveDescriptionTag event = some patch ∧
        patch.Description = stringsTrimSpace (pre ++ withoutLeadingNewline post) ∧
        HasDescriptionTag patch = false) := by
  have htrim : ∀ x : String, stringsContains x descriptionTag = false →
      stringsContains (stringsTrimSpace x) descriptionTag = false := by
    intro x hx
    simp only [stringsContains, containsChars_false_iff] at hx ⊢
    exact fun h => hx (h.trans (stringsTrimSpace_block x))
  refine ⟨?_, ?_, ?_⟩
  · unfold RemoveDescriptionTag
    cases HasDescriptionTag event <;> simp
  · intro patch hp
    unfold RemoveDescriptionTag at hp
    cases hh : HasDescriptionTag event with
    | false => simp [hh] at hp
    | true =>
      simp only [hh, Bool.not_true, Bool.false_eq_true, if_false, Option.some.injEq] at hp
      subst hp
      exact ⟨rfl, rfl, fun hx => htrim _ hx⟩
  · intro pre post hdesc honce hjoin
    have hdata : event.Description.data = pre.data ++ descriptionTag.data ++ post.data := by
      rw [hdesc]
      simp [String.data_append]
    have hh : HasDescriptionTag event = true := by
      simp only [HasDescriptionTag, stringsContains, containsChars_iff, hdata]
      exact ⟨pre.data, post.data, rfl⟩
    have hjoin' : ¬ descriptionTag.data <:+: pre.data ++
        (if post.data.head? = some '\n' then post.data.tail else post.data) := by
      simp only [stringsContains, containsChars_false_iff, String.data_append,
        withoutLeadingNewline_data] at hjoin
      exact hjoin
    have honce' : ∀ i, i ≤ (pre.data ++ descriptionTag.data ++ post.data).length →
        (descriptionTag.data.isPrefixOf
            ((pre.data ++ descriptionTag.data ++ post.data).drop i) = true ↔
          i = pre.data.length) := by
      intro i hi
      have hlen : event.Description.length =
          (pre.data ++ descriptionTag.data ++ post.data).length := by
        rw [← hdata]
        rfl
      have hpre : pre.length = pre.data.length := rfl
      have := honce i (by rw [hlen]; exact hi)
      unfold occursAt at this
      rw [hdata, hpre] at this
      exact this
    have htwice := replace_twice_single descriptionTag.data pre.data post.data '\n'
      (by decide) honce' hjoin'
    have hresult : stringsReplaceAll
        (stringsReplaceAll event.Description (descriptionTag ++ "\n") "") descriptionTag "" =
        pre ++ withoutLeadingNewline post := by
      apply String.ext
      simp only [stringsReplaceAll, String.data_append, withoutLeadingNewline_data, hdata]
      exact htwice
    refine ⟨{ zeroEvent with
        Description := stringsTrimSpace (pre ++ withoutLeadingNewline post)
        ForceSendFields := ["Description"] }, ?_, rfl, ?_⟩
    · simp only [RemoveDescriptionTag, hh, Bool.not_true, Bool.false_eq_true, if_false,
        hresult]
    · exact htrim _ hjoin

/-- Claim C25 fails as stated: the description holds the marker inside a copy
of itself; removing the inner occurrence joins the two halves of the outer one,
and the patched description is the marker. -/
theorem RemoveDescriptionTag_nested_marker_remains :
    HasDescriptionTag nestedMarker = true ∧
    (RemoveDescriptionTag nestedMarker).map (fun patch => patch.Description) =
      some "Add-To-ZenithPlanner: true" ∧
    (RemoveDescriptionTag nestedMarker).map HasDescriptionTag = some true := by
  decide

theorem RemoveDescriptionTag_spec_witness :
    legacyNote.Description = "" ++ descriptionTag ++ "\nbring laptop" ∧
    (RemoveDescriptionTag legacyNote).map (fun patch => patch.Description) =
      some "bring laptop" ∧
    (RemoveDescriptionTag legacyNote).map HasDescriptionTag = some false := by
  obtain ⟨patch, hp, hd, hh⟩ := (RemoveDescriptionTag_spec legacyNote).2.2 "" "\nbring laptop"
    (by decide) (by decide) (by decide)
  refine ⟨by decide, ?_, ?_⟩
  · rw [hp, Option.map_some', hd]
    decide
  · rw [hp, Option.map_some', hh]

end ZenithPlanner
